import Mathlib

set_option maxHeartbeats 1600000

/-!
Verification development for the wwoztracker matching and archive core.

The TypeScript sources `src/utils/matching.ts` and `src/services/ArchiveService.ts`
are shallowly embedded here.  JavaScript strings are modelled as `List Char`
(code points), JavaScript numbers as `ℚ` (exact arithmetic) or `Int`/`Nat`
where the code only does integer arithmetic.  The third-party similarity
metric `string-similarity.compareTwoStrings` is a parameter `sim` of the
embedded functions, constrained only where a claim needs its documented
contract (value in [0,1], 1 on identical strings).  Unicode NFD decomposition
(`String.prototype.normalize('NFD')`) is likewise a parameter `nfd`,
constrained only by the fact that NFD fixes strings of plain ASCII
alphanumerics and spaces.
-/

/-! ## JavaScript string primitives on `List Char` -/

/-- The JavaScript whitespace class `\s` (WhiteSpace ∪ LineTerminator). -/
def jsWs (c : Char) : Bool :=
  let n := c.toNat
  n == 32 || n == 9 || n == 10 || n == 13 || n == 11 || n == 12 ||
  n == 0xa0 || n == 0x1680 || (decide (0x2000 ≤ n) && decide (n ≤ 0x200a)) ||
  n == 0x2028 || n == 0x2029 || n == 0x202f || n == 0x205f || n == 0x3000 || n == 0xfeff

/-- A JavaScript line terminator (what `.` in a regex does not match). -/
def lineTerm (c : Char) : Bool :=
  c == '\n' || c == '\r' || c.toNat == 0x2028 || c.toNat == 0x2029

def asciiUpper (c : Char) : Bool := decide (65 ≤ c.toNat) && decide (c.toNat ≤ 90)

def asciiLower (c : Char) : Bool := decide (97 ≤ c.toNat) && decide (c.toNat ≤ 122)

def asciiDigit (c : Char) : Bool := decide (48 ≤ c.toNat) && decide (c.toNat ≤ 57)

def asciiAlnum (c : Char) : Bool := asciiUpper c || asciiLower c || asciiDigit c

/-- The JavaScript word-character class `\w` = `[A-Za-z0-9_]`. -/
def wordCh (c : Char) : Bool := asciiAlnum c || c == '_'

/-- `String.prototype.toLowerCase`, restricted to the ASCII range.  Every
place this model applies it, the data is ASCII. -/
def jsLower (c : Char) : Char :=
  if asciiUpper c then Char.ofNat (c.toNat + 32) else c

/-- `hasPrefixL pat s`: `pat` is a prefix of `s`. -/
def hasPrefixL : List Char → List Char → Bool
  | [], _ => true
  | _ :: _, [] => false
  | p :: ps, c :: cs => p == c && hasPrefixL ps cs

/-- Case-insensitive prefix test (for regexes with the `i` flag). -/
def hasPrefixCI : List Char → List Char → Bool
  | [], _ => true
  | _ :: _, [] => false
  | p :: ps, c :: cs => jsLower c == jsLower p && hasPrefixCI ps cs

/-- JavaScript `s.includes(pat)`. -/
def jsIncludes : List Char → List Char → Bool
  | [], pat => pat.isEmpty
  | s@(_ :: t), pat => hasPrefixL pat s || jsIncludes t pat

/-- JavaScript `s.startsWith(pat)`. -/
def jsStartsWith (s pat : List Char) : Bool := hasPrefixL pat s

/-- JavaScript `s.split(sep)` for a one-character separator (keeps empties). -/
def splitOnC (sep : Char) : List Char → List (List Char)
  | [] => [[]]
  | c :: t =>
    match splitOnC sep t with
    | [] => [[c]]
    | w :: rest => if c == sep then [] :: w :: rest else (c :: w) :: rest

def trimLeft (s : List Char) : List Char := s.dropWhile (fun c => jsWs c)

/-- JavaScript `s.trim()`. -/
def trimJs (s : List Char) : List Char := (trimLeft (trimLeft s).reverse).reverse

/-! ## `src/utils/matching.ts`: `SongMatcher` -/

/-- The replacement text `' __and__ '` used by `SongMatcher.normalize`. -/
def andTok : List Char := (" __and__ ").toList

/-- Step 2 of `normalize`: `.replace(/[̀-ͯ]/g, '')`. -/
def rmComb (s : List Char) : List Char :=
  s.filter (fun c => !(decide (0x300 ≤ c.toNat) && decide (c.toNat ≤ 0x36f)))

/-- `&amp;` (case-insensitively) sits at the head of `s`. -/
def ampEntAt : List Char → Bool
  | c1 :: c2 :: c3 :: c4 :: c5 :: _ =>
    c1 == '&' && jsLower c2 == 'a' && jsLower c3 == 'm' && jsLower c4 == 'p' && c5 == ';'
  | _ => false

/-- Step 3 of `normalize`: `.replace(/&amp;/gi, ' __and__ ')`.  The scan
consumes one character per step; the `Nat` argument counts characters of an
already-emitted match that remain to be skipped. -/
def replAmpEntA : Nat → List Char → List Char
  | _ + 1, [] => []
  | k + 1, _ :: t => replAmpEntA k t
  | 0, [] => []
  | 0, c :: t =>
    if ampEntAt (c :: t) then andTok ++ replAmpEntA 4 t
    else c :: replAmpEntA 0 t

def replAmpEnt (s : List Char) : List Char := replAmpEntA 0 s

/-- Step 4 of `normalize`: `.replace(/&/g, ' __and__ ')`. -/
def replAmpCh (s : List Char) : List Char :=
  s.flatMap (fun c => if c == '&' then andTok else [c])

/-- `true` when the next character (if any) is not a word character, i.e. a
`\b` boundary holds between a word character and this position. -/
def noWordAt : List Char → Bool
  | [] => true
  | c :: _ => !wordCh c

/-- `and` (case-insensitively) sits at the head of `s` with a `\b`
boundary after it. -/
def andAt : List Char → Bool
  | c1 :: c2 :: c3 :: rest =>
    jsLower c1 == 'a' && jsLower c2 == 'n' && jsLower c3 == 'd' && noWordAt rest
  | _ => false

/-- Step 5 of `normalize`: `.replace(/\band\b/gi, ' __and__ ')`.  The `Bool`
argument records whether the previously scanned character was a word
character (`false` at the start of the string); the `Nat` argument counts
characters of an already-emitted match that remain to be skipped (after a
skip the previous character is the word character `d`). -/
def replAndWordA : Nat → Bool → List Char → List Char
  | _ + 1, _, [] => []
  | k + 1, _, _ :: t => replAndWordA k true t
  | 0, _, [] => []
  | 0, prevW, c :: t =>
    if !prevW && andAt (c :: t) then andTok ++ replAndWordA 2 true t
    else c :: replAndWordA 0 (wordCh c) t

def replAndWord (prevW : Bool) (s : List Char) : List Char := replAndWordA 0 prevW s

/-- Step 6 of `normalize`: `.replace(/[-–—_]/g, ' ')`. -/
def dashSp (s : List Char) : List Char :=
  s.map (fun c => if c == '-' || c.toNat == 0x2013 || c.toNat == 0x2014 || c == '_' then ' ' else c)

/-- The character class kept by step 7 of `normalize`,
`[^a-z0-9 __and__]` with the `i` flag: ASCII alphanumerics, space, `_`. -/
def keepCh (c : Char) : Bool := asciiAlnum c || c == ' ' || c == '_'

/-- `__and__` sits at the head of `s`. -/
def uuAt : List Char → Bool
  | c1 :: c2 :: c3 :: c4 :: c5 :: c6 :: c7 :: _ =>
    c1 == '_' && c2 == '_' && c3 == 'a' && c4 == 'n' && c5 == 'd' && c6 == '_' && c7 == '_'
  | _ => false

/-- Step 8 of `normalize`: `.replace(/__and__/g, 'and')` (case-sensitive,
this one has no `i` flag).  Same skip-counter scan as `replAmpEntA`. -/
def replUUA : Nat → List Char → List Char
  | _ + 1, [] => []
  | k + 1, _ :: t => replUUA k t
  | 0, [] => []
  | 0, c :: t =>
    if uuAt (c :: t) then 'a' :: 'n' :: 'd' :: replUUA 6 t
    else c :: replUUA 0 t

def replUU (s : List Char) : List Char := replUUA 0 s

/-- Step 9 of `normalize`: `.replace(/\s+/g, ' ')`.  The `Bool` argument
records whether we are inside a whitespace run. -/
def collWs : Bool → List Char → List Char
  | _, [] => []
  | inRun, c :: t =>
    if jsWs c then (if inRun then collWs true t else ' ' :: collWs true t)
    else c :: collWs false t

/-- Step 10 of `normalize`: `.toLowerCase()` (ASCII model). -/
def lowerStr (s : List Char) : List Char := s.map jsLower

namespace SongMatcher

/-- `SongMatcher.normalize`.  `nfd` abstracts `String.prototype.normalize('NFD')`. -/
def normalize (nfd : List Char → List Char) (s : List Char) : List Char :=
  trimJs (lowerStr (collWs false (replUU
    ((dashSp (replAndWord false (replAmpCh (replAmpEnt (rmComb (nfd s)))))).filter keepCh))))

end SongMatcher

/-- Scan for the first `)`/`]` on the current line, for the lazy regex
`[\(\[].*?[\)\]]`; returns the remainder after it, or `none` if a line
terminator or the end of the string comes first. -/
def findCloser : List Char → Option (List Char)
  | [] => none
  | c :: t =>
    if c == ')' || c == ']' then some t
    else if lineTerm c then none
    else findCloser t

theorem findCloser_length {l r : List Char} (h : findCloser l = some r) : r.length ≤ l.length := by
  induction l with
  | nil => simp [findCloser] at h
  | cons c t ih =>
    unfold findCloser at h
    by_cases h1 : (c == ')' || c == ']') = true
    · simp only [h1, if_pos] at h
      cases h
      simp only [List.length_cons]
      omega
    · by_cases h2 : lineTerm c = true
      · simp [h1, h2] at h
      · simp only [h1, h2, if_neg, Bool.false_ne_true, not_false_iff] at h
        have := ih h
        simp only [List.length_cons]
        omega

/-- `SongMatcher.stripParentheses`, first step:
`.replace(/[\(\[].*?[\)\]]/g, '')`.  On an opener with a closer on the same
line the whole bracketed span is dropped (skip-counter scan); an opener with
no closer is kept. -/
def stripParenA : Nat → List Char → List Char
  | _ + 1, [] => []
  | k + 1, _ :: t => stripParenA k t
  | 0, [] => []
  | 0, c :: t =>
    if c == '(' || c == '[' then
      match findCloser t with
      | some r => stripParenA (t.length - r.length) t
      | none => c :: stripParenA 0 t
    else c :: stripParenA 0 t

def stripParenAux (s : List Char) : List Char := stripParenA 0 s

/-- `SongMatcher.stripParentheses`. -/
def stripParentheses (s : List Char) : List Char :=
  trimJs (collWs false (stripParenAux s))

/-- `SongMatcher.hasPartialMatch`. -/
def hasPartialMatch (s1 s2 : List Char) : Bool :=
  jsIncludes s1 s2 || jsIncludes s2 s1 ||
  (decide (3 < s1.length) && jsIncludes s2 (s1.take (s1.length - 2))) ||
  (decide (3 < s2.length) && jsIncludes s1 (s2.take (s2.length - 2)))

/-- `str.split(' ')[0]`. -/
def firstWordOf (s : List Char) : List Char := s.takeWhile (fun c => !(c == ' '))

/-- `SongMatcher.hasFirstWordMatch`. -/
def hasFirstWordMatch (s1 s2 : List Char) : Bool :=
  let f1 := firstWordOf s1
  let f2 := firstWordOf s2
  if decide (f1.length < 3) || decide (f2.length < 3) then false
  else jsIncludes s1 f2 || jsIncludes s2 f1

/-- Length of the keyword matched at the head of `s` by the alternation
`(?:featuring|feat\.?|ft\.?)` (with `i`), trying alternatives in regex
order, or `none`. -/
def featHit (s : List Char) : Option Nat :=
  if hasPrefixCI (("featuring").toList) s then some 9
  else if hasPrefixCI (("feat.").toList) s then some 5
  else if hasPrefixCI (("feat").toList) s then some 4
  else if hasPrefixCI (("ft.").toList) s then some 3
  else if hasPrefixCI (("ft").toList) s then some 2
  else none

def notLineTerm (c : Char) : Bool := !lineTerm c

/-- The captured group `(.*)` of the first match of
`/(?:featuring|feat\.?|ft\.?)(.*)/i`, or `none`. -/
def findFeat : List Char → Option (List Char)
  | [] => none
  | s@(_ :: t) =>
    match featHit s with
    | some k => some ((s.drop k).takeWhile notLineTerm)
    | none => findFeat t

/-- `SongMatcher.extractFeaturedArtists`. -/
def extractFeaturedArtists (title : List Char) : List Char :=
  match findFeat title with
  | some cap =>
    trimJs (cap.filter (fun c => asciiAlnum c || c == ',' || c == ' '))
  | none => []

/-- `cleanTitle`, first replace: remove the first `/(?:featuring|feat\.?|ft\.?)(.*)/i`
match (the keyword and the rest of its line). -/
def cutFeat : List Char → List Char
  | [] => []
  | s@(c :: t) =>
    match featHit s with
    | some k => (s.drop k).dropWhile notLineTerm
    | none => c :: cutFeat t

def punctChar (c : Char) : Bool := c == '.' || c == '-' || c == '_' || c == ' '

/-- `[.\-_ ]+` at the head: requires at least one such character, consumes
the maximal run. -/
def punctRun : List Char → Option (List Char)
  | c :: t => if punctChar c then some (t.dropWhile punctChar) else none
  | [] => none

/-- `\d{1,2}[.\-_ ]+` at the head (greedy on the digits, with backtracking
from two digits to one). -/
def afterDigits : List Char → Option (List Char)
  | d1 :: t1 =>
    if asciiDigit d1 then
      match t1 with
      | d2 :: t2 =>
        if asciiDigit d2 then
          match punctRun t2 with
          | some r => some r
          | none => punctRun t1
        else punctRun t1
      | [] => none
    else none
  | [] => none

/-- `cleanTitle`, second replace: `.replace(/^[A-Z]?\d{1,2}[.\-_ ]+/, '')`. -/
def stripTrackNum (s : List Char) : List Char :=
  match s with
  | c :: t =>
    if asciiUpper c then (match afterDigits t with | some r => r | none => s)
    else (match afterDigits s with | some r => r | none => s)
  | [] => []

mutual

/-- After one or more alphanumerics of a trailing-code group: continue the
run, end the string, or start another `[-_][A-Za-z0-9]+` group. -/
def tcRun : List Char → Bool
  | [] => true
  | c :: t => if asciiAlnum c then tcRun t else if c == '-' || c == '_' then tcGroup t else false

/-- `[A-Za-z0-9]+(?:[-_][A-Za-z0-9]+)*$` starting right after a `[-_]`. -/
def tcGroup : List Char → Bool
  | [] => false
  | c :: t => asciiAlnum c && tcRun t

end

/-- `cleanTitle`, third replace:
`.replace(/[-_][A-Za-z0-9]+(?:[-_][A-Za-z0-9]+)*$/, '')` (leftmost match). -/
def stripTrailing : List Char → List Char
  | [] => []
  | c :: t => if (c == '-' || c == '_') && tcGroup t then [] else c :: stripTrailing t

/-- `SongMatcher.cleanTitle`. -/
def cleanTitle (title : List Char) : List Char :=
  trimJs (collWs false (stripTrailing (stripTrackNum (cutFeat title))))

/-! ## Data model (`src/types/index.ts`) -/

/-- A structured timestamp.  `dayjs(entry.song.scrapedAt)` parses the
`scrapedAt` string; the model keeps it already structured and formats the
`dayjs` format patterns from the fields. -/
structure DT where
  y : Nat
  mo : Nat
  d : Nat
  hh : Nat
  mi : Nat
  ss : Nat
deriving DecidableEq, Repr

structure ScrapedSong where
  artist : List Char
  title : List Char
  album : Option (List Char)
  scrapedAt : DT
deriving DecidableEq, Repr

structure SpotifyArtistM where
  id : List Char
  name : List Char
deriving DecidableEq, Repr

structure SpotifyTrackM where
  id : List Char
  name : List Char
  artists : List SpotifyArtistM
  spotifyUrl : List Char
deriving DecidableEq, Repr

structure TrackMatchM where
  track : SpotifyTrackM
  confidence : ℚ
deriving DecidableEq, Repr

/-- `artists.map(a => a.name).join(', ')`. -/
def joinComma : List (List Char) → List Char
  | [] => []
  | [x] => x
  | x :: xs => x ++ (", ").toList ++ joinComma xs

/-- The scraped-artist string built at the top of `computeConfidence`:
`song.artist`, plus the extracted featured-artist clause when non-empty. -/
def scrapedArtistStr (scraped : ScrapedSong) : List Char :=
  let featured := extractFeaturedArtists scraped.title
  if featured.isEmpty then scraped.artist else scraped.artist ++ (", ").toList ++ featured

def spotifyArtistStr (track : SpotifyTrackM) : List Char :=
  joinComma (track.artists.map (fun a => a.name))

/-- `SongMatcher.computeConfidence`.  `sim` abstracts
`stringSimilarity.compareTwoStrings`. -/
def computeConfidence (sim : List Char → List Char → ℚ) (nfd : List Char → List Char)
    (scraped : ScrapedSong) (track : SpotifyTrackM) : ℚ :=
  let scrapedArtist := scrapedArtistStr scraped
  let spotifyArtist := spotifyArtistStr track
  let normalizedScrapedArtist := SongMatcher.normalize nfd scrapedArtist
  let normalizedSpotifyArtist := SongMatcher.normalize nfd spotifyArtist
  let normalizedScrapedTitle := SongMatcher.normalize nfd (cleanTitle scraped.title)
  let normalizedSpotifyTitle := SongMatcher.normalize nfd track.name
  let scrapedTitleNoParens := stripParentheses normalizedScrapedTitle
  let spotifyTitleNoParens := stripParentheses normalizedSpotifyTitle
  let artistScore := sim normalizedScrapedArtist normalizedSpotifyArtist
  let titleScoreFull := sim normalizedScrapedTitle normalizedSpotifyTitle
  let titleScoreNoParens := sim scrapedTitleNoParens spotifyTitleNoParens
  let titleScore0 := max titleScoreFull titleScoreNoParens
  let titleScore1 :=
    if hasPartialMatch normalizedScrapedTitle normalizedSpotifyTitle ||
       hasPartialMatch scrapedTitleNoParens spotifyTitleNoParens
    then max titleScore0 (9/10) else titleScore0
  let titleScore2 :=
    if hasFirstWordMatch normalizedScrapedTitle normalizedSpotifyTitle
    then max titleScore1 (17/20) else titleScore1
  (artistScore * (6/10) + titleScore2 * (4/10)) * 100

/-- The raw (pre-boost) title score of `computeConfidence`. -/
def titleScoreRawOf (sim : List Char → List Char → ℚ) (nfd : List Char → List Char)
    (scraped : ScrapedSong) (track : SpotifyTrackM) : ℚ :=
  max (sim (SongMatcher.normalize nfd (cleanTitle scraped.title)) (SongMatcher.normalize nfd track.name))
    (sim (stripParentheses (SongMatcher.normalize nfd (cleanTitle scraped.title)))
      (stripParentheses (SongMatcher.normalize nfd track.name)))

/-- The title score after the partial-match boost of `computeConfidence`. -/
def titleScorePartialOf (sim : List Char → List Char → ℚ) (nfd : List Char → List Char)
    (scraped : ScrapedSong) (track : SpotifyTrackM) : ℚ :=
  if hasPartialMatch (SongMatcher.normalize nfd (cleanTitle scraped.title))
       (SongMatcher.normalize nfd track.name) ||
     hasPartialMatch (stripParentheses (SongMatcher.normalize nfd (cleanTitle scraped.title)))
       (stripParentheses (SongMatcher.normalize nfd track.name))
  then max (titleScoreRawOf sim nfd scraped track) (9/10)
  else titleScoreRawOf sim nfd scraped track

/-- The fully boosted title score of `computeConfidence`. -/
def titleScoreBoostedOf (sim : List Char → List Char → ℚ) (nfd : List Char → List Char)
    (scraped : ScrapedSong) (track : SpotifyTrackM) : ℚ :=
  if hasFirstWordMatch (SongMatcher.normalize nfd (cleanTitle scraped.title))
       (SongMatcher.normalize nfd track.name)
  then max (titleScorePartialOf sim nfd scraped track) (17/20)
  else titleScorePartialOf sim nfd scraped track

/-- The artist score of `computeConfidence`. -/
def artistScoreOf (sim : List Char → List Char → ℚ) (nfd : List Char → List Char)
    (scraped : ScrapedSong) (track : SpotifyTrackM) : ℚ :=
  sim (SongMatcher.normalize nfd (scrapedArtistStr scraped)) (SongMatcher.normalize nfd (spotifyArtistStr track))

/-! ## `src/utils/matching.ts`: `TextNormalizer` and `MatchValidator` -/

/-- `TextNormalizer.normalizeForSearch`. -/
def normalizeForSearch (nfd : List Char → List Char) (s : List Char) : List Char :=
  trimJs (collWs false
    ((rmComb (nfd (lowerStr s))).map (fun c => if wordCh c || jsWs c then c else ' ')))

/-- `spotifyTrack.artists[0].name`.  JavaScript would throw on an empty
artist list; theorems about `isValidMatch` assume a non-empty one. -/
def primaryArtistName (track : SpotifyTrackM) : List Char :=
  match track.artists with
  | a :: _ => a.name
  | [] => []

/-- `MatchValidator.isValidMatch`. -/
def isValidMatch (sim : List Char → List Char → ℚ) (nfd : List Char → List Char)
    (scraped : ScrapedSong) (track : SpotifyTrackM) (confidence : ℚ) : Bool :=
  if confidence < 70 then false
  else if sim (normalizeForSearch nfd scraped.artist)
      (normalizeForSearch nfd (primaryArtistName track)) < (3/10) then false
  else if sim (normalizeForSearch nfd scraped.title)
      (normalizeForSearch nfd track.name) < (2/5) then false
  else true

/-! ## Helper lemmas about the string primitives -/

theorem hasPrefixL_iff {pat s : List Char} : hasPrefixL pat s = true ↔ pat <+: s := by
  induction pat generalizing s with
  | nil => simp [hasPrefixL]
  | cons p ps ih =>
    cases s with
    | nil => simp [hasPrefixL]
    | cons c cs => simp [hasPrefixL, List.cons_prefix_cons, ih]

theorem jsIncludes_iff {s pat : List Char} : jsIncludes s pat = true ↔ pat <:+: s := by
  induction s with
  | nil => simp [jsIncludes, List.isEmpty_iff]
  | cons c t ih =>
    simp only [jsIncludes, Bool.or_eq_true, hasPrefixL_iff, ih]
    exact (List.infix_cons_iff).symm

theorem jsIncludes_nil (s : List Char) : jsIncludes s [] = true :=
  jsIncludes_iff.mpr List.nil_infix

/-- A concrete similarity metric used in witnesses: the discrete metric.  It
satisfies the library contract assumed of `compareTwoStrings`. -/
def dsim (a b : List Char) : ℚ := if a = b then 1 else 0

theorem dsim_nonneg (a b : List Char) : 0 ≤ dsim a b := by
  unfold dsim; split_ifs <;> norm_num

theorem dsim_le_one (a b : List Char) : dsim a b ≤ 1 := by
  unfold dsim; split_ifs <;> norm_num

theorem dsim_refl (a : List Char) : dsim a a = 1 := by
  unfold dsim; simp

/-- `computeConfidence` in terms of its named components. -/
theorem computeConfidence_eq (sim : List Char → List Char → ℚ) (nfd : List Char → List Char)
    (scraped : ScrapedSong) (track : SpotifyTrackM) :
    computeConfidence sim nfd scraped track =
      (artistScoreOf sim nfd scraped track * (6/10) +
        titleScoreBoostedOf sim nfd scraped track * (4/10)) * 100 := rfl

theorem titleScoreRawOf_bounds (sim : List Char → List Char → ℚ) (nfd : List Char → List Char)
    (scraped : ScrapedSong) (track : SpotifyTrackM)
    (h0 : ∀ a b, 0 ≤ sim a b) (h1 : ∀ a b, sim a b ≤ 1) :
    0 ≤ titleScoreRawOf sim nfd scraped track ∧ titleScoreRawOf sim nfd scraped track ≤ 1 :=
  ⟨le_trans (h0 _ _) (le_max_left _ _), max_le (h1 _ _) (h1 _ _)⟩

theorem ifMax_bounds {r a : ℚ} {c : Prop} [Decidable c]
    (hr : 0 ≤ r ∧ r ≤ 1) (ha : 0 ≤ a ∧ a ≤ 1) :
    0 ≤ (if c then max r a else r) ∧ (if c then max r a else r) ≤ 1 := by
  split_ifs
  · exact ⟨le_trans hr.1 (le_max_left _ _), max_le hr.2 ha.2⟩
  · exact hr

theorem ifMax_ge {r a : ℚ} {c : Prop} [Decidable c] : r ≤ (if c then max r a else r) := by
  split_ifs
  · exact le_max_left _ _
  · exact le_refl _

theorem titleScoreBoostedOf_bounds (sim : List Char → List Char → ℚ) (nfd : List Char → List Char)
    (scraped : ScrapedSong) (track : SpotifyTrackM)
    (h0 : ∀ a b, 0 ≤ sim a b) (h1 : ∀ a b, sim a b ≤ 1) :
    0 ≤ titleScoreBoostedOf sim nfd scraped track ∧
      titleScoreBoostedOf sim nfd scraped track ≤ 1 := by
  have hr := titleScoreRawOf_bounds sim nfd scraped track h0 h1
  simp only [titleScoreBoostedOf, titleScorePartialOf]
  exact ifMax_bounds (ifMax_bounds hr (by norm_num)) (by norm_num)

/-- The boosted title score never drops below the raw one. -/
theorem titleScoreBoostedOf_ge_raw (sim : List Char → List Char → ℚ) (nfd : List Char → List Char)
    (scraped : ScrapedSong) (track : SpotifyTrackM) :
    titleScoreRawOf sim nfd scraped track ≤ titleScoreBoostedOf sim nfd scraped track := by
  simp only [titleScoreBoostedOf, titleScorePartialOf]
  exact le_trans ifMax_ge ifMax_ge

theorem titleScorePartialOf_ge_boost (sim : List Char → List Char → ℚ)
    (nfd : List Char → List Char) (scraped : ScrapedSong) (track : SpotifyTrackM)
    (hc : (hasPartialMatch (SongMatcher.normalize nfd (cleanTitle scraped.title))
             (SongMatcher.normalize nfd track.name) ||
           hasPartialMatch (stripParentheses (SongMatcher.normalize nfd (cleanTitle scraped.title)))
             (stripParentheses (SongMatcher.normalize nfd track.name))) = true) :
    (9/10 : ℚ) ≤ titleScorePartialOf sim nfd scraped track := by
  unfold titleScorePartialOf
  rw [if_pos hc]
  exact le_max_right _ _

theorem titleScorePartial_ge_boostedOf (sim : List Char → List Char → ℚ)
    (nfd : List Char → List Char) (scraped : ScrapedSong) (track : SpotifyTrackM) :
    titleScorePartialOf sim nfd scraped track ≤ titleScoreBoostedOf sim nfd scraped track := by
  unfold titleScoreBoostedOf
  exact ifMax_ge

/-- The spec's "either normalized title form is a substring of the other, or
a near-substring ignoring the last two characters of the shorter string"
condition, for one pair of normalized forms. -/
def specPartial (x y : List Char) : Prop :=
  x <:+: y ∨ y <:+: x ∨
  (x.length ≤ y.length ∧ 3 < x.length ∧ (x.take (x.length - 2)) <:+: y) ∨
  (y.length ≤ x.length ∧ 3 < y.length ∧ (y.take (y.length - 2)) <:+: x)

/-- The spec's "the first words of both normalized titles (each at least 3
characters) appear as a substring of the other's full normalized string". -/
def specFirstWord (x y : List Char) : Prop :=
  3 ≤ (firstWordOf x).length ∧ 3 ≤ (firstWordOf y).length ∧
  (firstWordOf x) <:+: y ∧ (firstWordOf y) <:+: x

theorem specPartial_hasPartialMatch {x y : List Char} (h : specPartial x y) :
    hasPartialMatch x y = true := by
  simp only [hasPartialMatch, Bool.or_eq_true, Bool.and_eq_true, decide_eq_true_eq,
    jsIncludes_iff]
  rcases h with h | h | ⟨_, hlen, hinf⟩ | ⟨_, hlen, hinf⟩ <;> tauto

theorem specFirstWord_hasFirstWordMatch {x y : List Char} (h : specFirstWord x y) :
    hasFirstWordMatch x y = true := by
  obtain ⟨h1, h2, hxy, hyx⟩ := h
  simp only [hasFirstWordMatch]
  rw [if_neg]
  · simp only [Bool.or_eq_true, jsIncludes_iff]
    exact Or.inl hyx
  · simp only [Bool.or_eq_true, decide_eq_true_eq, not_or, not_lt]
    exact ⟨h1, h2⟩

/-- C4: `MatchValidator.isValidMatch` returns `true` iff all three gates
pass: confidence at least 70, similarity of the normalized artist strings at
least 0.3 and similarity of the normalized titles at least 0.4; in
particular it never returns `true` for a confidence below 70. -/
theorem isValidMatch_iff_gates (sim : List Char → List Char → ℚ)
    (nfd : List Char → List Char) (scraped : ScrapedSong) (track : SpotifyTrackM)
    (confidence : ℚ) (htrk : track.artists ≠ []) :
    isValidMatch sim nfd scraped track confidence = true ↔
      (70 ≤ confidence ∧
        (3/10 : ℚ) ≤ sim (normalizeForSearch nfd scraped.artist)
          (normalizeForSearch nfd (primaryArtistName track)) ∧
        (2/5 : ℚ) ≤ sim (normalizeForSearch nfd scraped.title)
          (normalizeForSearch nfd track.name)) := by
  clear htrk
  unfold isValidMatch
  split_ifs with h1 h2 h3
  · simp only [Bool.false_eq_true, false_iff]
    rintro ⟨hc, -, -⟩
    linarith
  · simp only [Bool.false_eq_true, false_iff]
    rintro ⟨-, ha, -⟩
    exact absurd ha (not_le.mpr h2)
  · simp only [Bool.false_eq_true, false_iff]
    rintro ⟨-, -, ht⟩
    exact absurd ht (not_le.mpr h3)
  · simp only [true_iff]
    exact ⟨le_of_not_lt h1, le_of_not_lt h2, le_of_not_lt h3⟩

theorem isValidMatch_iff_gates_witness :
    isValidMatch dsim id
      ⟨("a").toList, ("t").toList, none, ⟨2025, 1, 15, 14, 30, 0⟩⟩
      ⟨("i").toList, ("t").toList, [⟨("j").toList, ("a").toList⟩], []⟩ 80 = true := by
  refine (isValidMatch_iff_gates dsim id _ _ 80 (by simp)).mpr ⟨by norm_num, ?_, ?_⟩ <;>
  · dsimp only [primaryArtistName]
    norm_num [dsim]

/-- C5: `computeConfidence` always lies in [0,100] for a similarity metric
with the library's contract; with identical normalized artist strings and
identical normalized titles it is exactly 100. -/
theorem computeConfidence_range_and_perfect (sim : List Char → List Char → ℚ)
    (nfd : List Char → List Char) (scraped : ScrapedSong) (track : SpotifyTrackM)
    (h0 : ∀ a b, 0 ≤ sim a b) (h1 : ∀ a b, sim a b ≤ 1) (hrefl : ∀ a, sim a a = 1) :
    (0 ≤ computeConfidence sim nfd scraped track ∧
      computeConfidence sim nfd scraped track ≤ 100) ∧
    (SongMatcher.normalize nfd (scrapedArtistStr scraped) =
        SongMatcher.normalize nfd (spotifyArtistStr track) →
      SongMatcher.normalize nfd (cleanTitle scraped.title) =
        SongMatcher.normalize nfd track.name →
      computeConfidence sim nfd scraped track = 100) := by
  have heq := computeConfidence_eq sim nfd scraped track
  have ha0 : 0 ≤ artistScoreOf sim nfd scraped track := by
    unfold artistScoreOf; exact h0 _ _
  have ha1 : artistScoreOf sim nfd scraped track ≤ 1 := by
    unfold artistScoreOf; exact h1 _ _
  have htb := titleScoreBoostedOf_bounds sim nfd scraped track h0 h1
  refine ⟨⟨?_, ?_⟩, ?_⟩
  · rw [heq]; nlinarith [htb.1]
  · rw [heq]; nlinarith [htb.2]
  · intro hA hT
    have h2 : artistScoreOf sim nfd scraped track = 1 := by
      unfold artistScoreOf
      rw [hA]
      exact hrefl _
    have hraw : titleScoreRawOf sim nfd scraped track = 1 := by
      unfold titleScoreRawOf
      rw [hT, hrefl, hrefl]
      exact max_self 1
    have hpart : titleScorePartialOf sim nfd scraped track = 1 := by
      unfold titleScorePartialOf
      split_ifs
      · rw [hraw]; exact max_eq_left (by norm_num)
      · exact hraw
    have htb1 : titleScoreBoostedOf sim nfd scraped track = 1 := by
      unfold titleScoreBoostedOf
      split_ifs
      · rw [hpart]; exact max_eq_left (by norm_num)
      · exact hpart
    rw [heq, h2, htb1]
    norm_num

theorem computeConfidence_range_and_perfect_witness :
    computeConfidence dsim id
      ⟨("cd").toList, ("ab").toList, none, ⟨2025, 1, 15, 14, 30, 0⟩⟩
      ⟨("i").toList, ("ab").toList, [⟨("j").toList, ("cd").toList⟩], []⟩ = 100 :=
  (computeConfidence_range_and_perfect dsim id
      ⟨("cd").toList, ("ab").toList, none, ⟨2025, 1, 15, 14, 30, 0⟩⟩
      ⟨("i").toList, ("ab").toList, [⟨("j").toList, ("cd").toList⟩], []⟩
      dsim_nonneg dsim_le_one dsim_refl).2 rfl rfl

/-- C6: in `computeConfidence` the boosts only ever raise the title score;
the substring / near-substring condition floors it at 0.9, the first-word
condition floors it at 0.85, and the final confidence equals
`(artistScore * 0.6 + titleScore * 0.4) * 100`. -/
theorem computeConfidence_boost_contract (sim : List Char → List Char → ℚ)
    (nfd : List Char → List Char) (scraped : ScrapedSong) (track : SpotifyTrackM) :
    titleScoreRawOf sim nfd scraped track ≤ titleScoreBoostedOf sim nfd scraped track ∧
    ((specPartial (SongMatcher.normalize nfd (cleanTitle scraped.title))
          (SongMatcher.normalize nfd track.name) ∨
      specPartial (stripParentheses (SongMatcher.normalize nfd (cleanTitle scraped.title)))
          (stripParentheses (SongMatcher.normalize nfd track.name))) →
      (9/10 : ℚ) ≤ titleScoreBoostedOf sim nfd scraped track) ∧
    (specFirstWord (SongMatcher.normalize nfd (cleanTitle scraped.title))
        (SongMatcher.normalize nfd track.name) →
      (17/20 : ℚ) ≤ titleScoreBoostedOf sim nfd scraped track) ∧
    computeConfidence sim nfd scraped track =
      (artistScoreOf sim nfd scraped track * (6/10) +
        titleScoreBoostedOf sim nfd scraped track * (4/10)) * 100 := by
  refine ⟨titleScoreBoostedOf_ge_raw sim nfd scraped track, ?_, ?_,
    computeConfidence_eq sim nfd scraped track⟩
  · intro h
    have hc : (hasPartialMatch (SongMatcher.normalize nfd (cleanTitle scraped.title))
          (SongMatcher.normalize nfd track.name) ||
        hasPartialMatch (stripParentheses (SongMatcher.normalize nfd (cleanTitle scraped.title)))
          (stripParentheses (SongMatcher.normalize nfd track.name))) = true := by
      rcases h with h | h
      · simp only [specPartial_hasPartialMatch h, Bool.true_or]
      · simp only [specPartial_hasPartialMatch h, Bool.or_true]
    exact le_trans (titleScorePartialOf_ge_boost sim nfd scraped track hc)
      (titleScorePartial_ge_boostedOf sim nfd scraped track)
  · intro h
    have hc := specFirstWord_hasFirstWordMatch h
    unfold titleScoreBoostedOf
    rw [if_pos hc]
    exact le_max_right _ _

theorem computeConfidence_boost_contract_witness :
    (9/10 : ℚ) ≤ titleScoreBoostedOf dsim id
      ⟨("a").toList, ("abcd").toList, none, ⟨2025, 1, 15, 14, 30, 0⟩⟩
      ⟨("i").toList, ("abcd live").toList, [⟨("j").toList, ("b").toList⟩], []⟩ :=
  (computeConfidence_boost_contract dsim id
      ⟨("a").toList, ("abcd").toList, none, ⟨2025, 1, 15, 14, 30, 0⟩⟩
      ⟨("i").toList, ("abcd live").toList, [⟨("j").toList, ("b").toList⟩], []⟩).2.1
    (Or.inl (Or.inl (jsIncludes_iff.mp rfl)))

/-- C10: when either parenthetical-stripped normalized title is empty, the
partial-match boost fires on the stripped pair (the empty string is a
substring of everything), so the confidence is at least
`artistScore * 60 + 36`. -/
theorem emptyStrippedTitle_floor (sim : List Char → List Char → ℚ)
    (nfd : List Char → List Char) (scraped : ScrapedSong) (track : SpotifyTrackM)
    (h : stripParentheses (SongMatcher.normalize nfd (cleanTitle scraped.title)) = [] ∨
         stripParentheses (SongMatcher.normalize nfd track.name) = []) :
    hasPartialMatch (stripParentheses (SongMatcher.normalize nfd (cleanTitle scraped.title)))
        (stripParentheses (SongMatcher.normalize nfd track.name)) = true ∧
      artistScoreOf sim nfd scraped track * 60 + 36 ≤
        computeConfidence sim nfd scraped track := by
  have hpm : hasPartialMatch
      (stripParentheses (SongMatcher.normalize nfd (cleanTitle scraped.title)))
      (stripParentheses (SongMatcher.normalize nfd track.name)) = true := by
    rcases h with h | h
    · rw [h]
      simp only [hasPartialMatch, Bool.or_eq_true]
      exact Or.inl (Or.inl (Or.inr (jsIncludes_nil _)))
    · rw [h]
      simp only [hasPartialMatch, Bool.or_eq_true]
      exact Or.inl (Or.inl (Or.inl (jsIncludes_nil _)))
  refine ⟨hpm, ?_⟩
  have h9 : (9/10 : ℚ) ≤ titleScoreBoostedOf sim nfd scraped track :=
    le_trans (titleScorePartialOf_ge_boost sim nfd scraped track
        (by simp only [hpm, Bool.or_true]))
      (titleScorePartial_ge_boostedOf sim nfd scraped track)
  rw [computeConfidence_eq]
  nlinarith [h9]

theorem emptyStrippedTitle_floor_witness :
    artistScoreOf dsim id ⟨("a").toList, [], none, ⟨2025, 1, 15, 14, 30, 0⟩⟩
        ⟨("i").toList, ("zz").toList, [], []⟩ * 60 + 36 ≤
      computeConfidence dsim id ⟨("a").toList, [], none, ⟨2025, 1, 15, 14, 30, 0⟩⟩
        ⟨("i").toList, ("zz").toList, [], []⟩ :=
  (emptyStrippedTitle_floor dsim id
      ⟨("a").toList, [], none, ⟨2025, 1, 15, 14, 30, 0⟩⟩
      ⟨("i").toList, ("zz").toList, [], []⟩ (Or.inl rfl)).2

/-! ## C9: idempotence of `SongMatcher.normalize`

The output of `normalize` consists of words of lowercase ASCII alphanumerics
separated by single spaces, with no leading or trailing space.  We
characterise that shape (`outCh`, `okWord`, `joinW`) and show that a second
run of the pipeline is the identity on it. -/

/-- Characters that can appear in the output of `normalize`. -/
def outCh (c : Char) : Bool := asciiLower c || asciiDigit c || c == ' '

/-- Characters that can appear inside a word of the output of `normalize`. -/
def outWordCh (c : Char) : Bool := asciiLower c || asciiDigit c

def okWord (w : List Char) : Prop := w ≠ [] ∧ ∀ c ∈ w, outWordCh c = true

/-- Words joined by single spaces. -/
def joinW : List (List Char) → List Char
  | [] => []
  | [w] => w
  | w :: ws => w ++ ' ' :: joinW ws

/-- Words joined by single spaces, each word transformed first. -/
def joinSub (f : List Char → List Char) : List (List Char) → List Char
  | [] => []
  | [w] => f w
  | w :: ws => f w ++ ' ' :: joinSub f ws

theorem joinW_cons (w : List Char) (ws : List (List Char)) (hne : ws ≠ []) :
    joinW (w :: ws) = w ++ ' ' :: joinW ws := by
  cases ws with
  | nil => exact absurd rfl hne
  | cons a l => rfl

theorem joinSub_cons (f : List Char → List Char) (w : List Char) (ws : List (List Char))
    (hne : ws ≠ []) : joinSub f (w :: ws) = f w ++ ' ' :: joinSub f ws := by
  cases ws with
  | nil => exact absurd rfl hne
  | cons a l => rfl

theorem outWordCh_outCh {c : Char} (h : outWordCh c = true) : outCh c = true := by
  simp only [outWordCh, Bool.or_eq_true] at h
  simp only [outCh, Bool.or_eq_true]
  tauto

theorem outCh_toNat {c : Char} (h : outCh c = true) :
    (97 ≤ c.toNat ∧ c.toNat ≤ 122) ∨ (48 ≤ c.toNat ∧ c.toNat ≤ 57) ∨ c.toNat = 32 := by
  simp only [outCh, asciiLower, asciiDigit, Bool.or_eq_true, Bool.and_eq_true,
    decide_eq_true_eq, beq_iff_eq] at h
  rcases h with (h | h) | h
  · exact Or.inl h
  · exact Or.inr (Or.inl h)
  · subst h; exact Or.inr (Or.inr rfl)

theorem outWordCh_toNat {c : Char} (h : outWordCh c = true) :
    (97 ≤ c.toNat ∧ c.toNat ≤ 122) ∨ (48 ≤ c.toNat ∧ c.toNat ≤ 57) := by
  simp only [outWordCh, asciiLower, asciiDigit, Bool.or_eq_true, Bool.and_eq_true,
    decide_eq_true_eq] at h
  exact h

theorem outWordCh_not_ws {c : Char} (h : outWordCh c = true) : jsWs c = false := by
  have hn := outWordCh_toNat h
  simp only [jsWs, Bool.or_eq_false_iff, Bool.and_eq_false_iff, beq_eq_false_iff_ne, ne_eq,
    decide_eq_false_iff_not, not_le]
  omega

theorem outWordCh_wordCh {c : Char} (h : outWordCh c = true) : wordCh c = true := by
  simp only [outWordCh, Bool.or_eq_true] at h
  simp only [wordCh, asciiAlnum, Bool.or_eq_true]
  tauto

theorem outWordCh_ne_space {c : Char} (h : outWordCh c = true) : c ≠ ' ' := by
  rintro rfl
  exact absurd h (by decide)

theorem jsLower_outCh {c : Char} (h : outCh c = true) : jsLower c = c := by
  have hn := outCh_toNat h
  unfold jsLower
  rw [if_neg]
  simp only [asciiUpper, Bool.and_eq_true, decide_eq_true_eq, not_and, not_le]
  omega

theorem outCh_not_comb {c : Char} (h : outCh c = true) :
    (!(decide (0x300 ≤ c.toNat) && decide (c.toNat ≤ 0x36f))) = true := by
  have hn := outCh_toNat h
  simp only [Bool.not_eq_true', Bool.and_eq_false_iff, decide_eq_false_iff_not, not_le]
  omega

theorem outCh_ne_amp {c : Char} (h : outCh c = true) : c ≠ '&' := by
  rintro rfl
  exact absurd h (by decide)

theorem outCh_no_dash {c : Char} (h : outCh c = true) :
    (c == '-' || c.toNat == 0x2013 || c.toNat == 0x2014 || c == '_') = false := by
  have hn := outCh_toNat h
  have h1 : c ≠ '-' := by rintro rfl; revert hn; decide
  have h4 : c ≠ '_' := by rintro rfl; revert hn; decide
  simp only [Bool.or_eq_false_iff, beq_eq_false_iff_ne, ne_eq]
  refine ⟨⟨⟨h1, ?_⟩, ?_⟩, h4⟩ <;> omega

theorem outCh_keep {c : Char} (h : outCh c = true) : keepCh c = true := by
  simp only [outCh, Bool.or_eq_true] at h
  simp only [keepCh, asciiAlnum, Bool.or_eq_true]
  tauto

theorem outCh_ne_underscore {c : Char} (h : outCh c = true) : c ≠ '_' := by
  rintro rfl
  exact absurd h (by decide)

theorem outCh_space_or_not_ws {c : Char} (h : outCh c = true) :
    c = ' ' ∨ jsWs c = false := by
  rcases outCh_toNat h with h1 | h1 | h1
  · right
    simp only [jsWs, Bool.or_eq_false_iff, Bool.and_eq_false_iff, beq_eq_false_iff_ne, ne_eq,
      decide_eq_false_iff_not, not_le]
    omega
  · right
    simp only [jsWs, Bool.or_eq_false_iff, Bool.and_eq_false_iff, beq_eq_false_iff_ne, ne_eq,
      decide_eq_false_iff_not, not_le]
    omega
  · left
    have := Char.ofNat_toNat c
    rw [h1] at this
    exact this.symm

def andL : List Char := 'a' :: 'n' :: 'd' :: []

/-- What `\band\b`-replacement does to a single canonical word. -/
def andSubst (w : List Char) : List Char := if w = andL then andTok else w

/-- The same word image after the dash/underscore step. -/
def spacedAnd : List Char := dashSp andTok

/-- Word image after the dash step. -/
def andSubst2 (w : List Char) : List Char := if w = andL then spacedAnd else w

theorem rmComb_id {l : List Char} (h : ∀ c ∈ l, outCh c = true) : rmComb l = l :=
  List.filter_eq_self.mpr (fun c hc => outCh_not_comb (h c hc))

theorem ampEntAt_amp {c : Char} {t : List Char} (h : ampEntAt (c :: t) = true) : c = '&' := by
  cases t with
  | nil => simp [ampEntAt] at h
  | cons c2 t2 =>
    cases t2 with
    | nil => simp [ampEntAt] at h
    | cons c3 t3 =>
      cases t3 with
      | nil => simp [ampEntAt] at h
      | cons c4 t4 =>
        cases t4 with
        | nil => simp [ampEntAt] at h
        | cons c5 t5 =>
          simp only [ampEntAt, Bool.and_eq_true, beq_iff_eq] at h
          exact h.1.1.1.1

theorem replAmpEntA_id {l : List Char} (h : ∀ c ∈ l, c ≠ '&') : replAmpEntA 0 l = l := by
  induction l with
  | nil => rfl
  | cons c t ih =>
    simp only [replAmpEntA]
    rw [if_neg (fun hc => h c (List.mem_cons_self c t) (ampEntAt_amp hc))]
    exact congrArg (c :: ·) (ih (fun d hd => h d (List.mem_cons_of_mem c hd)))

theorem replAmpCh_id {l : List Char} (h : ∀ c ∈ l, c ≠ '&') : replAmpCh l = l := by
  induction l with
  | nil => rfl
  | cons c t ih =>
    simp only [replAmpCh, List.flatMap_cons] at *
    rw [if_neg (by simp [h c (List.mem_cons_self c t)])]
    exact congrArg (c :: ·) (ih (fun d hd => h d (List.mem_cons_of_mem c hd)))

theorem uuAt_underscore {c : Char} {t : List Char} (h : uuAt (c :: t) = true) : c = '_' := by
  cases t with
  | nil => simp [uuAt] at h
  | cons c2 t2 =>
    cases t2 with
    | nil => simp [uuAt] at h
    | cons c3 t3 =>
      cases t3 with
      | nil => simp [uuAt] at h
      | cons c4 t4 =>
        cases t4 with
        | nil => simp [uuAt] at h
        | cons c5 t5 =>
          cases t5 with
          | nil => simp [uuAt] at h
          | cons c6 t6 =>
            cases t6 with
            | nil => simp [uuAt] at h
            | cons c7 t7 =>
              simp only [uuAt, Bool.and_eq_true, beq_iff_eq] at h
              exact h.1.1.1.1.1.1

theorem replUUA_id {l : List Char} (h : ∀ c ∈ l, c ≠ '_') : replUUA 0 l = l := by
  induction l with
  | nil => rfl
  | cons c t ih =>
    simp only [replUUA]
    rw [if_neg (fun hc => h c (List.mem_cons_self c t) (uuAt_underscore hc))]
    exact congrArg (c :: ·) (ih (fun d hd => h d (List.mem_cons_of_mem c hd)))

theorem andAt_false {w rest : List Char} (hwne : w ≠ []) (hall : ∀ c ∈ w, outWordCh c = true)
    (hne : w ≠ andL) (hsep : rest = [] ∨ ∃ r', rest = ' ' :: r') :
    andAt (w ++ rest) = false := by
  by_contra hcc
  rw [Bool.not_eq_false] at hcc
  cases w with
  | nil => exact hwne rfl
  | cons c1 v =>
    have hc1 : jsLower c1 = c1 := jsLower_outCh (outWordCh_outCh (hall c1 (by simp)))
    cases v with
    | nil =>
      rcases hsep with rfl | ⟨r', rfl⟩
      · simp [andAt] at hcc
      · rcases r' with _ | ⟨c3, r3⟩
        · simp [andAt] at hcc
        · simp only [List.cons_append, List.nil_append, andAt, Bool.and_eq_true,
            beq_iff_eq] at hcc
          obtain ⟨⟨⟨-, hn⟩, -⟩, -⟩ := hcc
          exact absurd hn (by decide)
    | cons c2 v2 =>
      have hc2 : jsLower c2 = c2 := jsLower_outCh (outWordCh_outCh (hall c2 (by simp)))
      cases v2 with
      | nil =>
        rcases hsep with rfl | ⟨r', rfl⟩
        · simp [andAt] at hcc
        · simp only [List.cons_append, List.nil_append, andAt, Bool.and_eq_true,
            beq_iff_eq] at hcc
          obtain ⟨⟨-, hd⟩, -⟩ := hcc
          exact absurd hd (by decide)
      | cons c3 v3 =>
        have hc3 : jsLower c3 = c3 := jsLower_outCh (outWordCh_outCh (hall c3 (by simp)))
        simp only [List.cons_append, andAt, Bool.and_eq_true, beq_iff_eq, hc1, hc2, hc3] at hcc
        obtain ⟨⟨⟨ha, hn⟩, hd⟩, hbnd⟩ := hcc
        subst ha; subst hn; subst hd
        cases v3 with
        | nil =>
          exact hne rfl
        | cons c4 v4 =>
          have hw4 : wordCh c4 = true := outWordCh_wordCh (hall c4 (by simp))
          simp only [List.cons_append, noWordAt, hw4] at hbnd
          exact absurd hbnd (by simp)

theorem replAndWordA_words {v rest : List Char} (hv : ∀ c ∈ v, outWordCh c = true) :
    replAndWordA 0 true (v ++ rest) = v ++ replAndWordA 0 true rest := by
  induction v with
  | nil => rfl
  | cons c v' ih =>
    simp only [List.cons_append, replAndWordA]
    rw [if_neg (by simp)]
    rw [outWordCh_wordCh (hv c (by simp))]
    exact congrArg (c :: ·) (ih (fun d hd => hv d (List.mem_cons_of_mem c hd)))

theorem replAndWordA_word_notAnd {w rest : List Char} (hwne : w ≠ [])
    (hall : ∀ c ∈ w, outWordCh c = true) (hne : w ≠ andL)
    (hsep : rest = [] ∨ ∃ r', rest = ' ' :: r') :
    replAndWordA 0 false (w ++ rest) = w ++ replAndWordA 0 true rest := by
  cases w with
  | nil => exact absurd rfl hwne
  | cons c v =>
    simp only [List.cons_append, replAndWordA]
    rw [if_neg]
    · rw [outWordCh_wordCh (hall c (by simp))]
      have := @replAndWordA_words v rest
        (fun d hd => hall d (List.mem_cons_of_mem c hd))
      simp only [List.cons_append, List.append_eq] at this ⊢
      rw [this]
    · have := @andAt_false (c :: v) rest (by simp) hall hne hsep
      simp only [List.cons_append] at this
      simp [this]

theorem replAndWordA_word_and {rest : List Char} (hsep : rest = [] ∨ ∃ r', rest = ' ' :: r') :
    replAndWordA 0 false (andL ++ rest) = andTok ++ replAndWordA 0 true rest := by
  have hAt : andAt ('a' :: 'n' :: 'd' :: rest) = true := by
    rcases hsep with rfl | ⟨r', rfl⟩ <;> rfl
  show replAndWordA 0 false ('a' :: 'n' :: 'd' :: rest) = _
  simp only [replAndWordA]
  rw [if_pos (by simp [hAt])]

theorem replAndWordA_sep (rest : List Char) :
    replAndWordA 0 true (' ' :: rest) = ' ' :: replAndWordA 0 false rest := rfl

theorem replAndWord_joinW {ws : List (List Char)} (h : ∀ w ∈ ws, okWord w) :
    replAndWord false (joinW ws) = joinSub andSubst ws := by
  unfold replAndWord
  induction ws with
  | nil => rfl
  | cons w ws' ih =>
    obtain ⟨hwne, hall⟩ := h w (by simp)
    have ih' := ih (fun u hu => h u (List.mem_cons_of_mem w hu))
    cases ws' with
    | nil =>
      show replAndWordA 0 false w = andSubst w
      by_cases hand : w = andL
      · subst hand
        rw [show andSubst andL = andTok from if_pos rfl]
        have := @replAndWordA_word_and [] (Or.inl rfl)
        simpa [show replAndWordA 0 true ([] : List Char) = [] from rfl] using this
      · rw [show andSubst w = w from if_neg hand]
        have := @replAndWordA_word_notAnd w [] hwne hall hand (Or.inl rfl)
        simpa [show replAndWordA 0 true ([] : List Char) = [] from rfl] using this
    | cons w2 ws'' =>
      rw [joinW_cons _ _ (by simp), joinSub_cons _ _ _ (by simp)]
      by_cases hand : w = andL
      · subst hand
        rw [show andSubst andL = andTok from if_pos rfl]
        rw [replAndWordA_word_and (Or.inr ⟨_, rfl⟩), replAndWordA_sep, ih']
      · rw [show andSubst w = w from if_neg hand]
        rw [replAndWordA_word_notAnd hwne hall hand (Or.inr ⟨_, rfl⟩), replAndWordA_sep, ih']

theorem listMapId {f : Char → Char} {l : List Char} (h : ∀ c ∈ l, f c = c) : l.map f = l := by
  induction l with
  | nil => rfl
  | cons c t ih =>
    simp only [List.map_cons]
    rw [h c (by simp), ih (fun d hd => h d (List.mem_cons_of_mem c hd))]

theorem joinW_eq_joinSub_id (ws : List (List Char)) : joinW ws = joinSub (fun w => w) ws := by
  induction ws with
  | nil => rfl
  | cons w ws' ih =>
    cases ws' with
    | nil => rfl
    | cons w2 ws'' =>
      rw [joinW_cons _ _ (by simp), joinSub_cons _ _ _ (by simp), ih]

theorem mem_joinSub {c : Char} {f : List Char → List Char} :
    ∀ {ws : List (List Char)}, c ∈ joinSub f ws → (∃ w ∈ ws, c ∈ f w) ∨ c = ' ' := by
  intro ws
  induction ws with
  | nil => intro h; simp [joinSub] at h
  | cons w ws' ih =>
    intro h
    cases ws' with
    | nil =>
      exact Or.inl ⟨w, by simp, h⟩
    | cons w2 ws'' =>
      rw [joinSub_cons _ _ _ (by simp)] at h
      rcases List.mem_append.mp h with h1 | h1
      · exact Or.inl ⟨w, by simp, h1⟩
      · rcases List.mem_cons.mp h1 with h2 | h2
        · exact Or.inr h2
        · rcases ih h2 with ⟨u, hu, hcu⟩ | h3
          · exact Or.inl ⟨u, List.mem_cons_of_mem w hu, hcu⟩
          · exact Or.inr h3

theorem dashSp_cons (c : Char) (l : List Char) :
    dashSp (c :: l) =
      (if c == '-' || c.toNat == 0x2013 || c.toNat == 0x2014 || c == '_' then ' ' else c) ::
        dashSp l := rfl

theorem dashSp_append (a b : List Char) : dashSp (a ++ b) = dashSp a ++ dashSp b :=
  List.map_append _ a b

theorem dashSp_joinSub (f : List Char → List Char) (ws : List (List Char)) :
    dashSp (joinSub f ws) = joinSub (fun w => dashSp (f w)) ws := by
  induction ws with
  | nil => rfl
  | cons w ws' ih =>
    cases ws' with
    | nil => rfl
    | cons w2 ws'' =>
      rw [joinSub_cons f w (w2 :: ws'') (by simp),
        joinSub_cons (fun u => dashSp (f u)) w (w2 :: ws'') (by simp),
        dashSp_append, dashSp_cons, ih]
      rfl

theorem dashSp_word {w : List Char} (h : ∀ c ∈ w, outWordCh c = true) : dashSp w = w :=
  listMapId (fun c hc => by
    rw [outCh_no_dash (outWordCh_outCh (h c hc))]
    rfl)

theorem spacedAnd_chars : ∀ c ∈ spacedAnd, keepCh c = true ∧ c ≠ '_' ∧ jsLower c = c := by
  decide

/-- After the `\band\b` step and the dash step, the string is the canonical
words with `and` replaced by its space-padded form. -/
theorem dash_and_stage {ws : List (List Char)} (h : ∀ w ∈ ws, okWord w) :
    dashSp (joinSub andSubst ws) = joinSub andSubst2 ws := by
  rw [dashSp_joinSub]
  induction ws with
  | nil => rfl
  | cons w ws' ih =>
    have hw := h w (by simp)
    have ih' := ih (fun u hu => h u (List.mem_cons_of_mem w hu))
    have hfw : dashSp (andSubst w) = andSubst2 w := by
      unfold andSubst andSubst2
      split_ifs with hand
      · rfl
      · exact dashSp_word hw.2
    cases ws' with
    | nil =>
      show dashSp (andSubst w) = andSubst2 w
      exact hfw
    | cons w2 ws'' =>
      rw [joinSub_cons (fun u => dashSp (andSubst u)) w (w2 :: ws'') (by simp),
        joinSub_cons andSubst2 w (w2 :: ws'') (by simp), hfw, ih']

theorem collWs_nows {l : List Char} (h : ∀ c ∈ l, jsWs c = false) (b : Bool) :
    collWs b l = l := by
  induction l generalizing b with
  | nil => rfl
  | cons c t ih =>
    simp only [collWs]
    rw [if_neg (by simp [h c (by simp)])]
    rw [ih (fun d hd => h d (List.mem_cons_of_mem c hd))]

theorem collWs_word {w rest : List Char} (hw : ∀ c ∈ w, jsWs c = false) (b : Bool) :
    collWs b (w ++ rest) = w ++ collWs (if w.isEmpty then b else false) rest := by
  induction w generalizing b with
  | nil => simp
  | cons c v ih =>
    simp only [List.cons_append, collWs, List.append_eq]
    rw [if_neg (by simp [hw c (by simp)])]
    rw [ih (fun d hd => hw d (List.mem_cons_of_mem c hd)) false]
    simp only [List.isEmpty_cons]
    cases v <;> simp

theorem collWs_word' {w rest : List Char} (hwne : w ≠ []) (hw : ∀ c ∈ w, jsWs c = false)
    (b : Bool) : collWs b (w ++ rest) = w ++ collWs false rest := by
  rw [collWs_word hw b]
  have hie : w.isEmpty = false := by
    cases w
    · exact absurd rfl hwne
    · rfl
  rw [hie]
  simp

theorem joinW_single (w : List Char) : joinW [w] = w := rfl

theorem joinSub_single (f : List Char → List Char) (w : List Char) : joinSub f [w] = f w := rfl

theorem okWord_nows {w : List Char} (h : ∀ c ∈ w, outWordCh c = true) :
    ∀ c ∈ w, jsWs c = false := fun c hc => outWordCh_not_ws (h c hc)

theorem collWs_sep_false (rest : List Char) :
    collWs false (' ' :: rest) = ' ' :: collWs true rest := rfl

theorem collWs_sep_true (rest : List Char) :
    collWs true (' ' :: rest) = collWs true rest := rfl

theorem collWs_spacedAnd_true (rest : List Char) :
    collWs true (spacedAnd ++ ' ' :: rest) = 'a' :: 'n' :: 'd' :: ' ' :: collWs true rest := rfl

theorem collWs_spacedAnd_true_end :
    collWs true spacedAnd = 'a' :: 'n' :: 'd' :: ' ' :: [] := rfl

theorem collWs_spacedAnd_false (rest : List Char) :
    collWs false (spacedAnd ++ ' ' :: rest) =
      ' ' :: 'a' :: 'n' :: 'd' :: ' ' :: collWs true rest := rfl

theorem collWs_spacedAnd_false_end :
    collWs false spacedAnd = ' ' :: 'a' :: 'n' :: 'd' :: ' ' :: [] := rfl

/-- Trailing one-space padding produced by the whitespace collapse when the
last word is `and`. -/
def tailSpW : List (List Char) → List Char
  | [] => []
  | [w] => if w = andL then [' '] else []
  | _ :: ws => tailSpW ws

theorem tailSpW_cases : ∀ ws, tailSpW ws = [] ∨ tailSpW ws = [' ']
  | [] => Or.inl rfl
  | [w] => by unfold tailSpW; split_ifs <;> simp
  | _ :: w2 :: ws => tailSpW_cases (w2 :: ws)

theorem collWs_T2_true : ∀ {ws : List (List Char)}, (∀ w ∈ ws, okWord w) → ws ≠ [] →
    collWs true (joinSub andSubst2 ws) = joinW ws ++ tailSpW ws := by
  intro ws
  induction ws with
  | nil => intro _ h; exact absurd rfl h
  | cons w ws' ih =>
    intro h _
    obtain ⟨hwne, hall⟩ := h w (by simp)
    cases ws' with
    | nil =>
      rw [joinSub_single, joinW_single,
        show tailSpW [w] = (if w = andL then [' '] else []) from rfl]
      by_cases hand : w = andL
      · subst hand
        rw [if_pos rfl, show andSubst2 andL = spacedAnd from if_pos rfl]
        exact collWs_spacedAnd_true_end
      · rw [if_neg hand, show andSubst2 w = w from if_neg hand,
          collWs_nows (okWord_nows hall) true, List.append_nil]
    | cons w2 ws'' =>
      have ih' := ih (fun u hu => h u (List.mem_cons_of_mem w hu)) (by simp)
      rw [joinSub_cons andSubst2 w (w2 :: ws'') (by simp),
        joinW_cons w (w2 :: ws'') (by simp),
        show tailSpW (w :: w2 :: ws'') = tailSpW (w2 :: ws'') from rfl]
      by_cases hand : w = andL
      · subst hand
        rw [show andSubst2 andL = spacedAnd from if_pos rfl, collWs_spacedAnd_true, ih']
        simp [andL]
      · rw [show andSubst2 w = w from if_neg hand,
          collWs_word' hwne (okWord_nows hall) true, collWs_sep_false, ih']
        simp

theorem collWs_T2_false {w : List Char} {ws' : List (List Char)}
    (h : ∀ u ∈ w :: ws', okWord u) :
    collWs false (joinSub andSubst2 (w :: ws')) =
      (if w = andL then [' '] else []) ++ joinW (w :: ws') ++ tailSpW (w :: ws') := by
  obtain ⟨hwne, hall⟩ := h w (by simp)
  cases ws' with
  | nil =>
    rw [joinSub_single, joinW_single,
      show tailSpW [w] = (if w = andL then [' '] else []) from rfl]
    by_cases hand : w = andL
    · subst hand
      rw [if_pos rfl, show andSubst2 andL = spacedAnd from if_pos rfl,
        collWs_spacedAnd_false_end]
      rfl
    · rw [if_neg hand, show andSubst2 w = w from if_neg hand,
        collWs_nows (okWord_nows hall) false]
      simp
  | cons w2 ws'' =>
    have ih' := collWs_T2_true (fun u hu => h u (List.mem_cons_of_mem w hu))
      (by simp : w2 :: ws'' ≠ [])
    rw [joinSub_cons andSubst2 w (w2 :: ws'') (by simp),
      joinW_cons w (w2 :: ws'') (by simp),
      show tailSpW (w :: w2 :: ws'') = tailSpW (w2 :: ws'') from rfl]
    by_cases hand : w = andL
    · subst hand
      rw [if_pos rfl, show andSubst2 andL = spacedAnd from if_pos rfl,
        collWs_spacedAnd_false, ih']
      simp [andL]
    · rw [if_neg hand, show andSubst2 w = w from if_neg hand,
        collWs_word' hwne (okWord_nows hall) false, collWs_sep_false, ih']
      simp

theorem outWordCh_ne_underscore {c : Char} (h : outWordCh c = true) : c ≠ '_' := by
  rintro rfl
  exact absurd h (by decide)

theorem lowerStr_id {l : List Char} (h : ∀ c ∈ l, jsLower c = c) : lowerStr l = l := listMapId h

theorem T2_chars {ws : List (List Char)} (h : ∀ w ∈ ws, okWord w) :
    ∀ c ∈ joinSub andSubst2 ws, keepCh c = true ∧ c ≠ '_' ∧ jsLower c = c := by
  intro c hc
  rcases mem_joinSub hc with ⟨w, hw, hcw⟩ | rfl
  · obtain ⟨hwne, hall⟩ := h w hw
    unfold andSubst2 at hcw
    split_ifs at hcw with hand
    · exact spacedAnd_chars c hcw
    · have hcw2 := hall c hcw
      exact ⟨outCh_keep (outWordCh_outCh hcw2), outWordCh_ne_underscore hcw2,
        jsLower_outCh (outWordCh_outCh hcw2)⟩
  · exact ⟨by decide, by decide, by decide⟩

theorem replAmpEnt_id {l : List Char} (h : ∀ c ∈ l, c ≠ '&') : replAmpEnt l = l :=
  replAmpEntA_id h

theorem replUU_id {l : List Char} (h : ∀ c ∈ l, c ≠ '_') : replUU l = l :=
  replUUA_id h

theorem trimLeft_cons_space (l : List Char) : trimLeft (' ' :: l) = trimLeft l := rfl

theorem trimLeft_id {l : List Char} (h : ∀ c, l.head? = some c → jsWs c = false) :
    trimLeft l = l := by
  cases l with
  | nil => rfl
  | cons c t =>
    have := h c rfl
    simp [trimLeft, List.dropWhile_cons, this]

theorem trimLeft_pad {pad l : List Char} (hp : pad = [] ∨ pad = [' '])
    (h : ∀ c, l.head? = some c → jsWs c = false) : trimLeft (pad ++ l) = l := by
  rcases hp with rfl | rfl
  · rw [List.nil_append]
    exact trimLeft_id h
  · rw [show ([' '] ++ l) = ' ' :: l from rfl, trimLeft_cons_space]
    exact trimLeft_id h

theorem trimJs_pad {padL padR core : List Char}
    (hL : padL = [] ∨ padL = [' ']) (hR : padR = [] ∨ padR = [' '])
    (hh : ∀ c, core.head? = some c → jsWs c = false)
    (hl : ∀ c, core.reverse.head? = some c → jsWs c = false) :
    trimJs (padL ++ core ++ padR) = core := by
  by_cases hcore : core = []
  · subst hcore
    rcases hL with rfl | rfl <;> rcases hR with rfl | rfl <;> rfl
  · have hh' : ∀ c, (core ++ padR).head? = some c → jsWs c = false := by
      intro c hc
      cases core with
      | nil => exact absurd rfl hcore
      | cons a t =>
        simp only [List.cons_append, List.head?_cons, Option.some.injEq] at hc
        subst hc
        exact hh a rfl
    unfold trimJs
    rw [List.append_assoc, trimLeft_pad hL hh', List.reverse_append]
    have hpr : padR.reverse = padR := by rcases hR with rfl | rfl <;> rfl
    rw [hpr, trimLeft_pad hR hl, List.reverse_reverse]

theorem joinW_head : ∀ {ws : List (List Char)}, (∀ w ∈ ws, okWord w) → ws ≠ [] →
    ∃ c t, joinW ws = c :: t ∧ outWordCh c = true := by
  intro ws
  induction ws with
  | nil => intro _ h; exact absurd rfl h
  | cons w ws' _ =>
    intro h _
    obtain ⟨hwne, hall⟩ := h w (by simp)
    cases w with
    | nil => exact absurd rfl hwne
    | cons a v =>
      cases ws' with
      | nil => exact ⟨a, v, joinW_single _, hall a (by simp)⟩
      | cons w2 ws'' =>
        refine ⟨a, v ++ ' ' :: joinW (w2 :: ws''), ?_, hall a (by simp)⟩
        rw [joinW_cons _ (w2 :: ws'') (by simp)]
        rfl

theorem joinW_reverse_head : ∀ {ws : List (List Char)}, (∀ w ∈ ws, okWord w) → ws ≠ [] →
    ∃ c t, (joinW ws).reverse = c :: t ∧ outWordCh c = true := by
  intro ws
  induction ws with
  | nil => intro _ h; exact absurd rfl h
  | cons w ws' ih =>
    intro h _
    obtain ⟨hwne, hall⟩ := h w (by simp)
    cases ws' with
    | nil =>
      rw [joinW_single]
      obtain ⟨c, t, hct⟩ : ∃ c t, w.reverse = c :: t := by
        cases hr : w.reverse with
        | nil => exact absurd (by simpa using hr) hwne
        | cons c t => exact ⟨c, t, rfl⟩
      refine ⟨c, t, hct, hall c ?_⟩
      have : c ∈ w.reverse := by rw [hct]; simp
      simpa using this
    | cons w2 ws'' =>
      rw [joinW_cons w (w2 :: ws'') (by simp)]
      obtain ⟨c, t, hct, hc⟩ := ih (fun u hu => h u (List.mem_cons_of_mem w hu)) (by simp)
      refine ⟨c, t ++ [' '] ++ w.reverse, ?_, hc⟩
      rw [List.reverse_append, List.reverse_cons, hct]
      simp

/-- A second run of the `normalize` pipeline is the identity on canonical
word lists. -/
theorem normalize_fix_joinW (nfd : List Char → List Char)
    (H : ∀ s, (∀ c ∈ s, outCh c = true) → nfd s = s)
    {ws : List (List Char)} (h : ∀ w ∈ ws, okWord w) :
    SongMatcher.normalize nfd (joinW ws) = joinW ws := by
  have hout : ∀ c ∈ joinW ws, outCh c = true := by
    intro c hc
    rw [joinW_eq_joinSub_id ws] at hc
    rcases mem_joinSub hc with ⟨w, hw, hcw⟩ | rfl
    · exact outWordCh_outCh ((h w hw).2 c hcw)
    · decide
  unfold SongMatcher.normalize
  rw [H _ hout, rmComb_id hout,
    replAmpEnt_id (fun c hc => outCh_ne_amp (hout c hc)),
    replAmpCh_id (fun c hc => outCh_ne_amp (hout c hc)),
    replAndWord_joinW h, dash_and_stage h,
    List.filter_eq_self.mpr (fun c hc => (T2_chars h c hc).1),
    replUU_id (fun c hc => (T2_chars h c hc).2.1)]
  cases ws with
  | nil => rfl
  | cons w ws' =>
    rw [collWs_T2_false h]
    have hlo : ∀ c ∈ ((if w = andL then [' '] else []) ++ joinW (w :: ws') ++
        tailSpW (w :: ws')), jsLower c = c := by
      intro c hc
      rcases List.mem_append.mp hc with hc1 | hc1
      · rcases List.mem_append.mp hc1 with hc2 | hc2
        · split_ifs at hc2 with hand
          · simp only [List.mem_singleton] at hc2
            subst hc2; decide
          · simp at hc2
        · exact jsLower_outCh (hout c hc2)
      · rcases tailSpW_cases (w :: ws') with he | he <;> rw [he] at hc1
        · simp at hc1
        · simp only [List.mem_singleton] at hc1
          subst hc1; decide
    rw [lowerStr_id hlo]
    obtain ⟨hc0, ht0, hjoin, hwc⟩ : ∃ c t, joinW (w :: ws') = c :: t ∧ outWordCh c = true :=
      joinW_head h (by simp)
    obtain ⟨hc1, ht1, hjoin1, hwc1⟩ :
        ∃ c t, (joinW (w :: ws')).reverse = c :: t ∧ outWordCh c = true :=
      joinW_reverse_head h (by simp)
    refine trimJs_pad ?_ (tailSpW_cases _) ?_ ?_
    · split_ifs <;> simp
    · intro c hc
      rw [hjoin] at hc
      simp only [List.head?_cons, Option.some.injEq] at hc
      subst hc
      exact outWordCh_not_ws hwc
    · intro c hc
      rw [hjoin1] at hc
      simp only [List.head?_cons, Option.some.injEq] at hc
      subst hc
      exact outWordCh_not_ws hwc1

theorem char_toNat_ofNat {n : Nat} (h : n < 0xd800) : (Char.ofNat n).toNat = n := by
  have hv : n.isValidChar := Or.inl h
  simp [Char.ofNat, hv, Char.ofNatAux, Char.toNat, UInt32.toNat]

theorem keep_lower_out {c : Char} (hk : keepCh c = true) (hu : c ≠ '_') :
    outCh (jsLower c) = true := by
  unfold jsLower
  split_ifs with hup
  · simp only [asciiUpper, Bool.and_eq_true, decide_eq_true_eq] at hup
    have ht : (Char.ofNat (c.toNat + 32)).toNat = c.toNat + 32 := char_toNat_ofNat (by omega)
    simp only [outCh, asciiLower, asciiDigit, Bool.or_eq_true, Bool.and_eq_true,
      decide_eq_true_eq, ht]
    left; left
    omega
  · simp only [keepCh, asciiAlnum, Bool.or_eq_true, beq_iff_eq] at hk
    simp only [outCh, Bool.or_eq_true, beq_iff_eq]
    rcases hk with (((h1 | h1) | h1) | h1) | h1
    · exact absurd h1 hup
    · tauto
    · tauto
    · tauto
    · exact absurd h1 hu

theorem dashSp_no_underscore {l : List Char} : ∀ c ∈ dashSp l, c ≠ '_' := by
  intro c hc
  obtain ⟨d, _, rfl⟩ := List.mem_map.mp hc
  split_ifs with hd
  · decide
  · simp only [Bool.or_eq_true, beq_iff_eq, not_or] at hd
    exact hd.2

theorem collWs_chars {b : Bool} {l : List Char} {c : Char} (h : c ∈ collWs b l) :
    c = ' ' ∨ c ∈ l := by
  induction l generalizing b with
  | nil => simp [collWs] at h
  | cons d t ih =>
    simp only [collWs] at h
    split_ifs at h with h1 h2
    · rcases ih h with h3 | h3
      · exact Or.inl h3
      · exact Or.inr (List.mem_cons_of_mem d h3)
    · rcases List.mem_cons.mp h with h3 | h3
      · exact Or.inl h3
      · rcases ih h3 with h4 | h4
        · exact Or.inl h4
        · exact Or.inr (List.mem_cons_of_mem d h4)
    · rcases List.mem_cons.mp h with h3 | h3
      · exact Or.inr (h3 ▸ List.mem_cons_self d t)
      · rcases ih h3 with h4 | h4
        · exact Or.inl h4
        · exact Or.inr (List.mem_cons_of_mem d h4)

/-- The head of a whitespace collapse that starts inside a run is never a
space. -/
theorem collWs_true_head : ∀ (l : List Char), (collWs true l).head? ≠ some ' ' := by
  intro l
  induction l with
  | nil => simp [collWs]
  | cons c t ih =>
    simp only [collWs]
    split_ifs with h1
    · exact ih
    · intro hc
      simp only [List.head?_cons, Option.some.injEq] at hc
      rw [hc] at h1
      exact absurd (by decide : jsWs ' ' = true) (by simp [h1])

/-- Adjacent characters in the output of the whitespace collapse are never
both spaces. -/
def spR (a b : Char) : Prop := ¬(a = ' ' ∧ b = ' ')

theorem collWs_chain : ∀ (l : List Char) (b : Bool), List.Chain' spR (collWs b l) := by
  intro l
  induction l with
  | nil => intro b; simp [collWs]
  | cons c t ih =>
    intro b
    simp only [collWs]
    split_ifs with h1 h2
    · exact ih true
    · rw [List.chain'_cons']
      refine ⟨?_, ih true⟩
      intro y hy
      intro ⟨_, hy2⟩
      subst hy2
      exact collWs_true_head t (by simpa using hy)
    · rw [List.chain'_cons']
      refine ⟨?_, ih false⟩
      intro y _
      intro ⟨hc, _⟩
      subst hc
      exact absurd (by decide : jsWs ' ' = true) (by simp [h1])

theorem jsLower_eq_space {c : Char} (h : jsLower c = ' ') : c = ' ' := by
  unfold jsLower at h
  split_ifs at h with hup
  · simp only [asciiUpper, Bool.and_eq_true, decide_eq_true_eq] at hup
    have ht : (Char.ofNat (c.toNat + 32)).toNat = c.toNat + 32 :=
      char_toNat_ofNat (by omega)
    rw [h] at ht
    simp at ht
    omega
  · exact h

theorem chain'_swap {l : List Char} (h : List.Chain' spR l) : List.Chain' (flip spR) l :=
  h.imp (fun a b hab => fun hx => hab ⟨hx.2, hx.1⟩)

theorem chain'_swap' {l : List Char} (h : List.Chain' (flip spR) l) : List.Chain' spR l :=
  h.imp (fun a b hab => fun hx => hab ⟨hx.2, hx.1⟩)

theorem chain'_trimJs {l : List Char} (h : List.Chain' spR l) :
    List.Chain' spR (trimJs l) := by
  unfold trimJs
  have h1 : List.Chain' spR (trimLeft l) := h.suffix (List.dropWhile_suffix _)
  have h2 : List.Chain' spR (trimLeft l).reverse :=
    List.chain'_reverse.mpr (chain'_swap h1)
  have h3 : List.Chain' spR (trimLeft (trimLeft l).reverse) :=
    h2.suffix (List.dropWhile_suffix _)
  exact List.chain'_reverse.mpr (chain'_swap h3)

theorem dropWhile_head_not {p : Char → Bool} : ∀ {l : List Char} {c : Char},
    (l.dropWhile p).head? = some c → p c = false := by
  intro l
  induction l with
  | nil => intro c hc; simp [List.dropWhile] at hc
  | cons d t ih =>
    intro c hc
    rw [List.dropWhile_cons] at hc
    split_ifs at hc with h1
    · exact ih hc
    · simp only [List.head?_cons, Option.some.injEq] at hc
      subst hc
      simpa using h1

theorem trimJs_last_not {l : List Char} {c : Char} (h : (trimJs l).reverse.head? = some c) :
    jsWs c = false := by
  unfold trimJs at h
  rw [List.reverse_reverse] at h
  exact dropWhile_head_not h

theorem trimJs_head_not {l : List Char} {c : Char} (h : (trimJs l).head? = some c) :
    jsWs c = false := by
  unfold trimJs at h
  rw [List.head?_reverse] at h
  obtain ⟨u, hu⟩ := List.dropWhile_suffix (l := (trimLeft l).reverse) (fun c => jsWs c)
  cases hz : trimLeft ((trimLeft l).reverse) with
  | nil =>
    rw [hz] at h
    simp at h
  | cons a t =>
    rw [hz] at h
    have hu' : u ++ a :: t = (trimLeft l).reverse := by
      rw [← hz]
      exact hu
    have hv : (trimLeft l).reverse.getLast? = some c := by
      rw [← hu', List.getLast?_append, h]
      rfl
    rw [List.getLast?_reverse] at hv
    exact dropWhile_head_not hv

theorem trimJs_subset {l : List Char} : ∀ c ∈ trimJs l, c ∈ l := by
  intro c hc
  unfold trimJs at hc
  rw [List.mem_reverse] at hc
  have h1 := List.IsSuffix.mem hc (List.dropWhile_suffix _)
  rw [List.mem_reverse] at h1
  exact List.IsSuffix.mem h1 (List.dropWhile_suffix _)

theorem outCh_word {c : Char} (h : outCh c = true) (hc : c ≠ ' ') : outWordCh c = true := by
  simp only [outCh, Bool.or_eq_true, beq_iff_eq] at h
  simp only [outWordCh, Bool.or_eq_true]
  rcases h with (h1 | h1) | h1
  · exact Or.inl h1
  · exact Or.inr h1
  · exact absurd h1 hc

theorem decompose_canonical : ∀ (n : Nat) (y : List Char), y.length ≤ n →
    (∀ c ∈ y, outCh c = true) → List.Chain' spR y →
    y.head? ≠ some ' ' → y.getLast? ≠ some ' ' →
    ∃ ws, (∀ w ∈ ws, okWord w) ∧ y = joinW ws := by
  intro n
  induction n with
  | zero =>
    intro y hlen _ _ _ _
    have : y = [] := List.length_eq_zero.mp (Nat.le_zero.mp hlen)
    subst this
    exact ⟨[], by simp, rfl⟩
  | succ n ih =>
    intro y hlen hout hchain hhead hlast
    cases hy : y with
    | nil => exact ⟨[], by simp, rfl⟩
    | cons c t =>
      subst hy
      have hc : c ≠ ' ' := fun hcc => hhead (by rw [hcc]; rfl)
      have hsplit := List.takeWhile_append_dropWhile (fun d => !(d == ' ')) (c :: t)
      have hwne : List.takeWhile (fun d => !(d == ' ')) (c :: t) ≠ [] := by
        rw [List.takeWhile_cons, if_pos (by simpa using hc)]
        simp
      have hwall : ∀ d ∈ List.takeWhile (fun d => !(d == ' ')) (c :: t),
          outWordCh d = true := by
        intro d hd
        have hpd := List.mem_takeWhile_imp hd
        have hdy : d ∈ c :: t := (List.takeWhile_prefix _).sublist.subset hd
        exact outCh_word (hout d hdy) (by simpa using hpd)
      cases hr2 : List.dropWhile (fun d => !(d == ' ')) (c :: t) with
      | nil =>
        refine ⟨[List.takeWhile (fun d => !(d == ' ')) (c :: t)], ?_, ?_⟩
        · intro u hu
          rw [List.mem_singleton] at hu
          subst hu
          exact ⟨hwne, hwall⟩
        · rw [joinW_single]
          conv_lhs => rw [← hsplit, hr2]
          rw [List.append_nil]
      | cons d r' =>
        have hd : d = ' ' := by
          have := dropWhile_head_not (p := fun d => !(d == ' '))
            (l := c :: t) (c := d) (by rw [hr2]; rfl)
          simpa using this
        subst hd
        have hsuffix : (' ' :: r') <:+ (c :: t) := by
          rw [← hr2]
          exact List.dropWhile_suffix _
        cases hr'' : r' with
        | nil =>
          subst hr''
          exfalso
          apply hlast
          rw [← hsplit, hr2, List.getLast?_append]
          rfl
        | cons e r'' =>
          subst hr''
          have hchain' : List.Chain' spR (' ' :: e :: r'') := hchain.suffix hsuffix
          have he : e ≠ ' ' := by
            rw [List.chain'_cons'] at hchain'
            intro hee
            exact hchain'.1 e rfl ⟨rfl, hee⟩
          have hr'suffix : (e :: r'') <:+ (c :: t) :=
            List.IsSuffix.trans ⟨[' '], rfl⟩ hsuffix
          have hlen' : (e :: r'').length ≤ n := by
            have h1 : (List.takeWhile (fun d => !(d == ' ')) (c :: t)).length +
                (' ' :: e :: r'').length = (c :: t).length := by
              rw [← List.length_append, ← hr2, hsplit]
            have h2 : 0 < (List.takeWhile (fun d => !(d == ' ')) (c :: t)).length :=
              List.length_pos.mpr hwne
            simp only [List.length_cons] at h1 hlen ⊢
            omega
          have ihr := ih (e :: r'') hlen'
            (fun d hd => hout d (List.IsSuffix.mem hd hr'suffix))
            (hchain.suffix hr'suffix)
            (by simpa using he)
            (by
              intro hgl
              apply hlast
              rw [← hsplit, hr2, List.getLast?_append]
              rw [show (' ' :: e :: r'').getLast? = (e :: r'').getLast? from rfl, hgl]
              rfl)
          obtain ⟨ws', hws', heq⟩ := ihr
          have hws'ne : ws' ≠ [] := by
            intro h0
            subst h0
            simp [joinW] at heq
          refine ⟨List.takeWhile (fun d => !(d == ' ')) (c :: t) :: ws', ?_, ?_⟩
          · intro u hu
            rcases List.mem_cons.mp hu with rfl | hu2
            · exact ⟨hwne, hwall⟩
            · exact hws' u hu2
          · rw [joinW_cons _ ws' hws'ne, ← heq]
            conv_lhs => rw [← hsplit, hr2]

theorem normalize_chars (nfd : List Char → List Char) (x : List Char) :
    ∀ c ∈ SongMatcher.normalize nfd x, outCh c = true := by
  intro c hc
  unfold SongMatcher.normalize at hc
  have hzu : ∀ d ∈ (dashSp (replAndWord false
      (replAmpCh (replAmpEnt (rmComb (nfd x)))))).filter keepCh, d ≠ '_' := by
    intro d hd
    exact dashSp_no_underscore d (List.mem_of_mem_filter hd)
  rw [replUU_id hzu] at hc
  obtain ⟨d, hd, hcd⟩ := List.mem_map.mp (trimJs_subset _ (hc))
  rcases collWs_chars hd with rfl | hdz
  · rw [← hcd]
    decide
  · have hk := List.of_mem_filter hdz
    have hu := hzu d hdz
    rw [← hcd]
    exact keep_lower_out hk hu

theorem normalize_chain (nfd : List Char → List Char) (x : List Char) :
    List.Chain' spR (SongMatcher.normalize nfd x) := by
  unfold SongMatcher.normalize
  apply chain'_trimJs
  unfold lowerStr
  rw [List.chain'_map]
  exact (collWs_chain _ false).imp
    (fun a b hab => fun hx => hab ⟨jsLower_eq_space hx.1, jsLower_eq_space hx.2⟩)

theorem normalize_head (nfd : List Char → List Char) (x : List Char) :
    (SongMatcher.normalize nfd x).head? ≠ some ' ' := by
  intro h
  unfold SongMatcher.normalize at h
  have := trimJs_head_not h
  exact absurd this (by decide)

theorem normalize_last (nfd : List Char → List Char) (x : List Char) :
    (SongMatcher.normalize nfd x).getLast? ≠ some ' ' := by
  intro h
  unfold SongMatcher.normalize at h
  rw [← List.head?_reverse] at h
  have := trimJs_last_not h
  exact absurd this (by decide)

/-- C9: `SongMatcher.normalize` is idempotent.  `nfd` abstracts Unicode NFD
decomposition; the hypothesis states the one fact used about it: NFD fixes
strings consisting of plain lowercase ASCII alphanumerics and spaces (every
such string is already normalized). -/
theorem normalize_idempotent (nfd : List Char → List Char)
    (H : ∀ s, (∀ c ∈ s, outCh c = true) → nfd s = s) (x : List Char) :
    SongMatcher.normalize nfd (SongMatcher.normalize nfd x) =
      SongMatcher.normalize nfd x := by
  obtain ⟨ws, hok, heq⟩ := decompose_canonical (SongMatcher.normalize nfd x).length
    (SongMatcher.normalize nfd x) (le_refl _) (normalize_chars nfd x)
    (normalize_chain nfd x) (normalize_head nfd x) (normalize_last nfd x)
  rw [heq]
  exact normalize_fix_joinW nfd H hok

theorem normalize_idempotent_witness :
    SongMatcher.normalize id (SongMatcher.normalize id (("A &amp; The B-52s (live)").toList)) =
      SongMatcher.normalize id (("A &amp; The B-52s (live)").toList) :=
  normalize_idempotent id (fun _ _ => rfl) (("A &amp; The B-52s (live)").toList)

/-! ### Part III: `src/services/ArchiveService.ts`

The archive service keeps per-day state (a duplicate-ID set, a recent-entries
map, a counter and statistics) and appends Markdown table rows to a per-day
ledger file.  The filesystem is modelled as an association list from paths to
file contents; `dayjs` timestamps are the structured `DT` values and the
format calls are reproduced below; `Date.now()` is an explicit `Int`
epoch-milliseconds argument.  I/O faults are injected through a `Faults`
record: a faulted read/write/mkdir models the corresponding promise
rejection. -/

/-- Decimal digits of `n`, most significant first (JS number-to-string for the
naturals used by the service).  Structural recursion on a fuel argument that
starts at `n` (a number has at most `n` digits). -/
def natStrGo : Nat → Nat → List Char → List Char
  | 0, _, acc => acc
  | fuel + 1, n, acc =>
    if n = 0 then acc else natStrGo fuel (n / 10) (Char.ofNat (48 + n % 10) :: acc)

def natStr (n : Nat) : List Char := if n = 0 then ('0' :: []) else natStrGo n n []

def intStr (i : Int) : List Char :=
  if i < 0 then '-' :: natStr (-i).toNat else natStr i.toNat

/-- `dayjs` zero-padding to two digits (`MM`, `DD`, `HH`, `mm`, `ss`). -/
def pad2 (n : Nat) : List Char := if n < 10 then '0' :: natStr n else natStr n

/-- `toString().padStart(3, '0')` for the daily counter. -/
def pad3 (n : Nat) : List Char :=
  if n < 10 then '0' :: '0' :: natStr n
  else if n < 100 then '0' :: natStr n
  else natStr n

/-- `dayjs` `YYYY` padding. -/
def pad4 (n : Nat) : List Char :=
  if n < 10 then '0' :: '0' :: '0' :: natStr n
  else if n < 100 then '0' :: '0' :: natStr n
  else if n < 1000 then '0' :: natStr n
  else natStr n

/-- `format('YYYY-MM-DD')`. -/
def fmtYMD (t : DT) : List Char :=
  pad4 t.y ++ ('-' :: pad2 t.mo) ++ ('-' :: pad2 t.d)

/-- `format('YYYY-MM-DD-HH-mm')` — the time key of `createUniqueId`. -/
def fmtTimeKey (t : DT) : List Char :=
  fmtYMD t ++ ('-' :: pad2 t.hh) ++ ('-' :: pad2 t.mi)

/-- `format('HH:mm')`. -/
def fmtHM (t : DT) : List Char := pad2 t.hh ++ (':' :: pad2 t.mi)

/-- `format('HH:mm:ss')`. -/
def fmtHMS (t : DT) : List Char := fmtHM t ++ (':' :: pad2 t.ss)

/-- `format('HHmmss')` — the time part of `generateShortId`. -/
def fmtHHmmss (t : DT) : List Char := pad2 t.hh ++ pad2 t.mi ++ pad2 t.ss

/-- `format('YYYY-MM-DD HH:mm:ss')`. -/
def fmtFull (t : DT) : List Char := fmtYMD t ++ (' ' :: fmtHMS t)

def monthNames : List (List Char) :=
  [("January").toList, ("February").toList, ("March").toList, ("April").toList,
   ("May").toList, ("June").toList, ("July").toList, ("August").toList,
   ("September").toList, ("October").toList, ("November").toList, ("December").toList]

/-- `format('MMMM')`. -/
def monthName (mo : Nat) : List Char := monthNames.getD (mo - 1) []

/-- Day of week by Zeller's congruence (0 = Saturday, 1 = Sunday, …),
reproducing the calendar arithmetic behind `dayjs`'s `dddd`. -/
def zellerDow (y mo d : Nat) : Nat :=
  let m := if mo < 3 then mo + 12 else mo
  let yy := if mo < 3 then y - 1 else y
  let K := yy % 100
  let J := yy / 100
  (d + (13 * (m + 1)) / 5 + K + K / 4 + J / 4 + 5 * J) % 7

def dowNames : List (List Char) :=
  [("Saturday").toList, ("Sunday").toList, ("Monday").toList, ("Tuesday").toList,
   ("Wednesday").toList, ("Thursday").toList, ("Friday").toList]

/-- `format('dddd')`. -/
def dayName (t : DT) : List Char := dowNames.getD (zellerDow t.y t.mo t.d) []

/-- `format('MMMM D, YYYY')`. -/
def fmtLong (t : DT) : List Char :=
  monthName t.mo ++ (' ' :: natStr t.d) ++ ((", ").toList ++ natStr t.y)

/-- `ArchiveEntry.status : 'found' | 'not_found' | 'duplicate' | 'low_confidence'`. -/
inductive EStatus where
  | found
  | notFound
  | duplicate
  | lowConfidence
deriving DecidableEq, Repr

/-- `ArchiveEntry` (the fields `archiveSong` reads: `song`, `match`, `status`). -/
structure ArchiveEntry where
  song : ScrapedSong
  matchRes : Option TrackMatchM
  status : EStatus
deriving DecidableEq, Repr

structure DailyStats where
  total : Nat
  found : Nat
  notFound : Nat
  lowConfidence : Nat
  duplicates : Nat
deriving DecidableEq, Repr

def zeroStats : DailyStats := ⟨0, 0, 0, 0, 0⟩

/-- The configuration `ArchiveService` reads: `config.archive.enabled`,
`config.archive.basePath`, `config.archive.deduplicationWindowMinutes`. -/
structure ArchCfg where
  enabled : Bool
  basePath : List Char
  windowMinutes : Int
deriving DecidableEq, Repr

/-- The service's mutable fields (`runHistory` and the run bookkeeping that
`archiveSong` never reads are omitted). -/
structure ArchState where
  dailyCache : List (List Char)
  recentEntries : List (List Char × Int)
  currentDate : List Char
  dailyCounter : Nat
  dailyStats : DailyStats
  runStats : DailyStats
deriving DecidableEq, Repr

/-- The filesystem: an association list from paths to contents. -/
abbrev Fs := List (List Char × List Char)

/-- Injected I/O faults: a faulted `readFile`/`writeFile`/`mkdir` models the
promise rejecting for that path. -/
structure Faults where
  readErr : List Char → Bool
  writeErr : List Char → Bool
  mkdirErr : Bool

def noFaults : Faults := ⟨fun _ => false, fun _ => false, false⟩

def lookupFs (fs : Fs) (p : List Char) : Option (List Char) :=
  (fs.find? (fun kv => decide (kv.1 = p))).map (fun kv => kv.2)

def setFs (fs : Fs) (p c : List Char) : Fs :=
  if (fs.find? (fun kv => decide (kv.1 = p))).isSome then
    fs.map (fun kv => if kv.1 = p then (p, c) else kv)
  else fs ++ [(p, c)]

def fileAt (fs : Fs) (p : List Char) : List Char := (lookupFs fs p).getD []

/-- `Map.get` on the recent-entries map. -/
def lookupRE (m : List (List Char × Int)) (k : List Char) : Option Int :=
  (m.find? (fun kv => decide (kv.1 = k))).map (fun kv => kv.2)

/-- `Map.set` on the recent-entries map. -/
def setRE (m : List (List Char × Int)) (k : List Char) (v : Int) :
    List (List Char × Int) :=
  if (m.find? (fun kv => decide (kv.1 = k))).isSome then
    m.map (fun kv => if kv.1 = k then (k, v) else kv)
  else m ++ [(k, v)]

/-- `cleanupRecentEntries`: delete every key with `now - timestamp > cutoff`. -/
def pruneRE (windowMinutes : Int) (now : Int) (m : List (List Char × Int)) :
    List (List Char × Int) :=
  m.filter (fun kv => decide (¬(now - kv.2 > windowMinutes * 60 * 1000)))

/-- `song.album ? '-' + song.album : ''` — an empty album string is falsy in
JS, so `some []` behaves like `none`. -/
def albumKeyOf : Option (List Char) → List Char
  | some a => if a.isEmpty then [] else '-' :: a
  | none => []

/-- `createUniqueId` (lines 163-170). -/
def createUniqueId (song : ScrapedSong) (t : DT) : List Char :=
  song.artist ++ ('-' :: song.title) ++ albumKeyOf song.album ++ ('-' :: fmtTimeKey t)

/-- The `songKey` built at line 100. -/
def songKeyOf (song : ScrapedSong) : List Char :=
  song.artist ++ ('-' :: song.title) ++ albumKeyOf song.album

/-- `getArchiveFilePath` (lines 185-191): `join(basePath, YYYY, MM, dateStr + '-wwoz-tracks.md')`. -/
def archivePath (cfg : ArchCfg) (t : DT) : List Char :=
  cfg.basePath ++ ('/' :: pad4 t.y) ++ ('/' :: pad2 t.mo) ++
    ('/' :: (fmtYMD t ++ ("-wwoz-tracks.md").toList))

/-- `join(tmpdir(), 'wwoz-tracker-recent-entries.json')` with `/tmp` for the
temp directory. -/
def recentPath : List Char := ("/tmp/wwoz-tracker-recent-entries.json").toList

/-- `createFileTemplate` (lines 214-255); `nowDT` stands for the two `dayjs()`
wall-clock calls in the Summary block. -/
def createFileTemplate (t nowDT : DT) : List Char :=
  ("---\ntitle: \"WWOZ Tracks - ").toList ++ fmtYMD t ++
  ("\"\ndate: \"").toList ++ fmtYMD t ++
  ("\"\ntags:\n  - wwoz\n  - music\n  - radio\n  - new-orleans\ntype: \"daily-archive\"\n---\n\n# WWOZ Tracks - ").toList ++
  dayName t ++ ((", ").toList ++ fmtLong t) ++
  ("\n\nThis archive contains all tracks scraped from WWOZ's playlist on ").toList ++
  fmtYMD t ++
  (".\n\n## Summary\n\n- **Date**: ").toList ++ fmtYMD t ++
  ("\n- **Day**: ").toList ++ dayName t ++
  ("\n- **Archive Created**: ").toList ++ fmtFull nowDT ++
  ("\n- **Last Updated**: ").toList ++ fmtFull nowDT ++
  ("\n- **Total Runs Today**: 0\n- **Last Run Status**: -\n\n## Daily Statistics\n\n| Metric | Count |\n|--------|-------|\n| Total Tracks | 0 |\n| Successfully Found | 0 |\n| Not Found | 0 |\n| Low Confidence | 0 |\n| Duplicates | 0 |\n\n## Tracks\n\n").toList

/-- `createTableHeaders` (lines 257-262). -/
def tableHeaders : List Char :=
  ("\n| ID | Time | Artist | Title | Album | Status | Confidence | Spotify | Scraped |\n|----|------|--------|-------|-------|--------|------------|---------|---------|\n").toList

/-- `String.prototype.indexOf`: position of the first occurrence of `pat`. -/
def firstIdxOf : List Char → List Char → Option Nat
  | [], pat => if pat.isEmpty then some 0 else none
  | c :: t, pat =>
    if hasPrefixL pat (c :: t) then some 0 else (firstIdxOf t pat).map (fun i => i + 1)

/-- `/^## /m` on a string: position of the first line start (index 0, or right
after a line terminator) where `"## "` begins.  The Bool argument says whether
the current position is a line start. -/
def findSecMark : Bool → List Char → Option Nat
  | _, [] => none
  | atLS, c :: t =>
    if atLS && hasPrefixL (("## ").toList) (c :: t) then some 0
    else (findSecMark (lineTerm c) t).map (fun i => i + 1)

/-- `hasTableInTracksSection` (lines 264-283). -/
def hasTableInTracksSection (content : List Char) : Bool :=
  match firstIdxOf content (("## Tracks").toList) with
  | none => false
  | some tracksIndex =>
    let tracksSection := content.drop tracksIndex
    let sectionEnd :=
      match findSecMark true (tracksSection.drop 10) with
      | some i => tracksIndex + 10 + i
      | none => content.length
    let limited := (content.drop tracksIndex).take (sectionEnd - tracksIndex)
    jsIncludes limited (("| ID |").toList) || jsIncludes limited (("| Time |").toList)

/-- `text.replace(/\|/g, '\\|')`. -/
def escPipes (s : List Char) : List Char :=
  s.flatMap (fun c => if c = '|' then ('\\' :: '|' :: []) else (c :: []))

/-- `escapeTableCell` (lines 291-294): `undefined` or empty gives `'-'`. -/
def escapeCell : Option (List Char) → List Char
  | none => ('-' :: [])
  | some t => if t.isEmpty then ('-' :: []) else escPipes t

/-- `Number.prototype.toFixed(1)` for the non-negative confidences the
program formats (round half away from zero at one decimal). -/
def toFixed1 (q : ℚ) : List Char :=
  let n : Nat := (⌊q * 10 + 1 / 2⌋).toNat
  natStr (n / 10) ++ ('.' :: natStr (n % 10))

def statusIcon : EStatus → List Char
  | .found => ("✅").toList
  | .duplicate => ("🔄").toList
  | .notFound => ("❌").toList
  | .lowConfidence => ("⚠️").toList

def statusTextOf : EStatus → List Char
  | .found => ("Found").toList
  | .duplicate => ("Duplicate").toList
  | .notFound => ("Not Found").toList
  | .lowConfidence => ("Low Match").toList

/-- The confidence cell of `formatAsTableRow`: set for found/duplicate/low
matches that carry a `match`, `'-'` otherwise. -/
def confCell (e : ArchiveEntry) : List Char :=
  match e.status, e.matchRes with
  | .found, some m => toFixed1 m.confidence ++ ('%' :: [])
  | .duplicate, some m => toFixed1 m.confidence ++ ('%' :: [])
  | .lowConfidence, some m => toFixed1 m.confidence ++ ('%' :: [])
  | _, _ => ('-' :: [])

/-- The Spotify-link cell: `[Open](url)` for found/duplicate matches with a
truthy `external_urls.spotify`, `'-'` otherwise. -/
def linkCell (e : ArchiveEntry) : List Char :=
  match e.status, e.matchRes with
  | .found, some m =>
    if m.track.spotifyUrl.isEmpty then ('-' :: [])
    else ("[Open](").toList ++ m.track.spotifyUrl ++ (')' :: [])
  | .duplicate, some m =>
    if m.track.spotifyUrl.isEmpty then ('-' :: [])
    else ("[Open](").toList ++ m.track.spotifyUrl ++ (')' :: [])
  | _, _ => ('-' :: [])

/-- `generateShortId` (lines 172-183): `HHmmss-NNN` where `NNN` is the daily
counter after its increment (the increment itself is threaded by the caller). -/
def generateShortId (t : DT) (counter : Nat) : List Char :=
  fmtHHmmss t ++ ('-' :: pad3 counter)

/-- `formatAsTableRow` (lines 285-332) without its trailing newline;
`counter` is the incremented daily counter used by `generateShortId`. -/
def formatRowCore (e : ArchiveEntry) (counter : Nat) : List Char :=
  ("| ").toList ++ generateShortId e.song.scrapedAt counter ++
  (" | ").toList ++ fmtHM e.song.scrapedAt ++
  (" | ").toList ++ escapeCell (some e.song.artist) ++
  (" | ").toList ++ escapeCell (some e.song.title) ++
  (" | ").toList ++ escapeCell e.song.album ++
  (" | ").toList ++ statusIcon e.status ++ (' ' :: statusTextOf e.status) ++
  (" | ").toList ++ confCell e ++
  (" | ").toList ++ linkCell e ++
  (" | ").toList ++ fmtHMS e.song.scrapedAt ++
  (" |").toList

def formatAsTableRow (e : ArchiveEntry) (counter : Nat) : List Char :=
  formatRowCore e counter ++ ('\n' :: [])

/-- `updateDailyStats`/`updateRunStats` (lines 334-368). -/
def bumpStats (st : DailyStats) : EStatus → DailyStats
  | .found => { st with total := st.total + 1, found := st.found + 1 }
  | .notFound => { st with total := st.total + 1, notFound := st.notFound + 1 }
  | .lowConfidence => { st with total := st.total + 1, lowConfidence := st.lowConfidence + 1 }
  | .duplicate => { st with total := st.total + 1, duplicates := st.duplicates + 1 }

/-! The statistics-block regex of `updateStatisticsInFile` (lines 550-568):
`/\| Total Tracks \| \d+ \|\n\| Successfully Found \| \d+ \|\n\| Not Found \| \d+ \|\n\| Low Confidence \| \d+ \|\n\| Duplicates \| \d+ \|/`
as a leftmost-match scanner. -/

def litTT : List Char := ("| Total Tracks | ").toList
def litSF : List Char := (" |\n| Successfully Found | ").toList
def litNF : List Char := (" |\n| Not Found | ").toList
def litLC : List Char := (" |\n| Low Confidence | ").toList
def litDUP : List Char := (" |\n| Duplicates | ").toList
def litEnd : List Char := (" |").toList

/-- Consume a literal prefix. -/
def eatLit (lit s : List Char) : Option (List Char) :=
  if hasPrefixL lit s then some (s.drop lit.length) else none

/-- Consume a maximal nonempty digit run (`\d+`; the literal that follows
starts with a space, so the greedy run never backtracks). -/
def digitsRun (s : List Char) : Option (List Char × List Char) :=
  let d := s.takeWhile asciiDigit
  if d.isEmpty then none else some (d, s.dropWhile asciiDigit)

/-- Try the statistics-block pattern at the head of `s`: `(matched text, rest)`. -/
def matchStatsAt (s : List Char) : Option (List Char × List Char) := do
  let s1 ← eatLit litTT s
  let (d1, s2) ← digitsRun s1
  let s3 ← eatLit litSF s2
  let (d2, s4) ← digitsRun s3
  let s5 ← eatLit litNF s4
  let (d3, s6) ← digitsRun s5
  let s7 ← eatLit litLC s6
  let (d4, s8) ← digitsRun s7
  let s9 ← eatLit litDUP s8
  let (d5, s10) ← digitsRun s9
  let s11 ← eatLit litEnd s10
  pure (litTT ++ d1 ++ litSF ++ d2 ++ litNF ++ d3 ++ litLC ++ d4 ++ litDUP ++ d5 ++ litEnd, s11)

/-- Leftmost match of the statistics-block pattern: `(before, match, after)`. -/
def matchStats : List Char → Option (List Char × List Char × List Char)
  | [] => none
  | c :: t =>
    match matchStatsAt (c :: t) with
    | some (b, r) => some ([], b, r)
    | none => (matchStats t).map (fun x => (c :: x.1, x.2.1, x.2.2))

/-- The replacement text `updateStatisticsInFile` writes. -/
def renderStatsBlock (st : DailyStats) : List Char :=
  litTT ++ natStr st.total ++ litSF ++ natStr st.found ++ litNF ++ natStr st.notFound ++
    litLC ++ natStr st.lowConfidence ++ litDUP ++ natStr st.duplicates ++ litEnd

/-- `content.replace(pattern, newBlock)` — identity when the pattern is absent. -/
def statsReplace (st : DailyStats) (content : List Char) : List Char :=
  match matchStats content with
  | some (pre, _, post) => pre ++ renderStatsBlock st ++ post
  | none => content

/-! The row parser of `loadExistingEntries` (lines 386-451). -/

def digitVal (c : Char) : Nat := c.toNat - 48

/-- `/^\d{6}-\w{3}$/` on a trimmed ID cell. -/
def idCellOk (s : List Char) : Bool :=
  match s with
  | a :: b :: c :: d :: e :: f :: g :: h :: i :: j :: [] =>
    asciiDigit a && asciiDigit b && asciiDigit c && asciiDigit d && asciiDigit e &&
      asciiDigit f && g == '-' && wordCh h && wordCh i && wordCh j
  | _ => false

/-- `/^\d{6}-(\d{3})$/` with `parseInt` of the captured counter. -/
def idCellCounter (s : List Char) : Option Nat :=
  match s with
  | a :: b :: c :: d :: e :: f :: g :: h :: i :: j :: [] =>
    if asciiDigit a && asciiDigit b && asciiDigit c && asciiDigit d && asciiDigit e &&
        asciiDigit f && g == '-' && asciiDigit h && asciiDigit i && asciiDigit j then
      some (digitVal h * 100 + digitVal i * 10 + digitVal j)
    else none
  | _ => none

/-- `/^\d{2}:\d{2}$/` on the time cell. -/
def timeCellOk (s : List Char) : Bool :=
  match s with
  | a :: b :: c :: d :: e :: [] =>
    asciiDigit a && asciiDigit b && c == ':' && asciiDigit d && asciiDigit e
  | _ => false

/-- What a parsed table row contributes to the reconstructed state. -/
structure RowCore where
  uid : List Char
  songKey : List Char
  status : List Char
deriving DecidableEq, Repr

/-- One iteration's table-row branch: the counter update (applied even when
the time cell is invalid) and, when the time cell matches `HH:mm`, the row's
contribution. -/
def parseTableLine (dateString line : List Char) : Option Nat × Option RowCore :=
  if jsStartsWith line (("|").toList) &&
      !jsIncludes line (("---").toList) &&
      !jsIncludes line (("Time |").toList) &&
      !jsIncludes line (("ID |").toList) then
    let cells := (splitOnC '|' line).map trimJs
    let fmt : Option (Nat × Nat × Nat × Nat × Nat × Option Nat) :=
      if decide (9 ≤ cells.length) && idCellOk (cells.getD 1 []) then
        some (2, 3, 4, 5, 6, idCellCounter (cells.getD 1 []))
      else if decide (6 ≤ cells.length) then
        some (1, 2, 3, 4, 5, none)
      else none
    match fmt with
    | none => (none, none)
    | some (ti, ai, tii, ali, si, ctr) =>
      let time := cells.getD ti []
      let artist := (cells.getD ai []).filter (fun c => !(c == '\\'))
      let title := (cells.getD tii []).filter (fun c => !(c == '\\'))
      let albumCell := cells.getD ali []
      let album := if albumCell = ('-' :: []) then []
        else albumCell.filter (fun c => !(c == '\\'))
      if decide (time ≠ []) && timeCellOk time then
        let hour := time.take 2
        let minute := time.drop 3
        let albumKey := if album.isEmpty then [] else '-' :: album
        (ctr, some
          { uid := artist ++ ('-' :: title) ++ albumKey ++ ('-' :: dateString) ++
              ('-' :: hour) ++ ('-' :: minute),
            songKey := artist ++ ('-' :: title) ++ albumKey,
            status := cells.getD si [] })
      else (ctr, none)
  else (none, none)

/-- The statistics update of lines 443-449: note `includes('Found')` is
checked before `includes('Not Found')`. -/
def bumpLoadStats (st : DailyStats) (status : List Char) : DailyStats :=
  if status.isEmpty then st
  else
    let s1 := { st with total := st.total + 1 }
    if jsIncludes status (("Found").toList) then { s1 with found := s1.found + 1 }
    else if jsIncludes status (("Not Found").toList) then { s1 with notFound := s1.notFound + 1 }
    else if jsIncludes status (("Low Match").toList) then { s1 with lowConfidence := s1.lowConfidence + 1 }
    else if jsIncludes status (("Duplicate").toList) then { s1 with duplicates := s1.duplicates + 1 }
    else s1

/-- `a.split(' - ')`-style split of the old header line's tail at the last
` - ` separator with a nonempty left part and a nonempty right part: the
greedy `(.+) - (.+)$`. -/
def lastSplitDash : List Char → Option (List Char × List Char)
  | [] => none
  | c :: rest =>
    match lastSplitDash rest with
    | some (a, ti) => some (c :: a, ti)
    | none =>
      if hasPrefixL ((" - ").toList) rest && decide (rest.drop 3 ≠ []) then
        some (c :: [], rest.drop 3)
      else none

/-- `/^### \[(\d{2}):(\d{2})\] (.+) - (.+)$/` (line 454): `(hour, artist,
title)`; the captured minute is never used by the code. -/
def parseHeaderLine (line : List Char) : Option (List Char × List Char × List Char) :=
  match eatLit (("### [").toList) line with
  | none => none
  | some r1 =>
    match r1 with
    | h1 :: h2 :: ':' :: m1 :: m2 :: ']' :: ' ' :: rest =>
      if asciiDigit h1 && asciiDigit h2 && asciiDigit m1 && asciiDigit m2 &&
          rest.all notLineTerm then
        match lastSplitDash rest with
        | some (a, ti) => some (h1 :: h2 :: [], a, ti)
        | none => none
      else none
    | _ => none

/-- `/^- \*\*Album\*\*: (.+)$/` on `lines[i + 2]`. -/
def parseAlbumLine (line : List Char) : Option (List Char) :=
  match eatLit (("- **Album**: ").toList) line with
  | none => none
  | some cap => if decide (cap ≠ []) && cap.all notLineTerm then some cap else none

/-- The accumulator of the `loadExistingEntries` loop. -/
structure LoadAcc where
  cache : List (List Char)
  recent : List (List Char × Int)
  stats : DailyStats
  counter : Nat
deriving DecidableEq, Repr

/-- `Set.add` (only membership is ever observed; the model prepends). -/
def addCache (l : List (List Char)) (u : List Char) : List (List Char) :=
  if u ∈ l then l else u :: l

/-- One iteration of the load loop: `line` is `lines[i]`, `lineAfter2` is
`lines[i + 2]` when it exists (for the old format's album lookahead). -/
def loadStep (dateString : List Char) (now : Int) (acc : LoadAcc)
    (line : List Char) (lineAfter2 : Option (List Char)) : LoadAcc :=
  let acc1 :=
    match parseTableLine dateString line with
    | (ctr, core) =>
      let acc' :=
        match ctr with
        | some k => { acc with counter := max acc.counter k }
        | none => acc
      match core with
      | some rc =>
        { acc' with
            cache := addCache acc'.cache rc.uid,
            recent := setRE acc'.recent rc.songKey now,
            stats := bumpLoadStats acc'.stats rc.status }
      | none => acc'
  match parseHeaderLine line with
  | some (hour, artist, title) =>
    let album :=
      match lineAfter2 with
      | some l2 =>
        match parseAlbumLine l2 with
        | some a => '-' :: a
        | none => []
      | none => []
    { acc1 with
        cache := addCache acc1.cache
          (artist ++ ('-' :: title) ++ album ++ ('-' :: dateString) ++ ('-' :: hour)) }
  | none => acc1

def loadLoop (dateString : List Char) (now : Int) :
    LoadAcc → List (List Char) → LoadAcc
  | acc, [] => acc
  | acc, l :: rest =>
    loadLoop dateString now (loadStep dateString now acc l ((rest.drop 1).head?)) rest

/-- `loadExistingEntries` (lines 370-479).  Any internal error (here: a read
fault) is caught and leaves the state as it was. -/
def loadExistingEntries (cfg : ArchCfg) (flt : Faults) (now : Int) (t : DT)
    (st : ArchState) (fs : Fs) : ArchState :=
  let path := archivePath cfg t
  match lookupFs fs path with
  | none => st
  | some content =>
    if flt.readErr path then st
    else
      let acc0 : LoadAcc :=
        { cache := st.dailyCache, recent := st.recentEntries,
          stats := zeroStats, counter := 0 }
      let acc := loadLoop (fmtYMD t) now acc0 (splitOnC '\n' content)
      { st with dailyCache := acc.cache, recentEntries := acc.recent,
                dailyStats := acc.stats, dailyCounter := acc.counter }

/-- `resetDailyCache` (lines 481-489); `todayStr` is `dayjs().format('YYYY-MM-DD')`. -/
def resetDailyCache (cfg : ArchCfg) (now : Int) (todayStr : List Char)
    (st : ArchState) : ArchState :=
  { st with dailyCache := [],
            recentEntries := pruneRE cfg.windowMinutes now st.recentEntries,
            currentDate := todayStr,
            dailyCounter := 0,
            dailyStats := zeroStats }

/-- The persisted recent-entries JSON (`JSON.stringify` of the pair array;
the rendering is simplified — only the write itself is ever observed). -/
def renderRecent (m : List (List Char × Int)) : List Char :=
  '[' :: joinComma (m.map (fun kv =>
    ('[' :: '"' :: kv.1) ++ ('"' :: ',' :: intStr kv.2) ++ (']' :: []))) ++ (']' :: [])

/-- `saveRecentEntries` (lines 506-516): a write fault is caught internally. -/
def saveRecentEntries (flt : Faults) (st : ArchState) (fs : Fs) : Fs :=
  if flt.writeErr recentPath then fs
  else setFs fs recentPath (renderRecent st.recentEntries)

/-- `loadRecentEntries` (lines 518-548), with the JSON round-trip modelled as
the identity on the pair list: clear, insert each pair, prune, save back. -/
def loadRecentFromData (cfg : ArchCfg) (flt : Faults) (now : Int)
    (data : List (List Char × Int)) (st : ArchState) (fs : Fs) : ArchState × Fs :=
  let m := pruneRE cfg.windowMinutes now
    (data.foldl (fun acc kv => setRE acc kv.1 kv.2) [])
  let st' := { st with recentEntries := m }
  (st', saveRecentEntries flt st' fs)

/-- `getOrCreateFileContent` (lines 199-212): a read fault falls back to the
template. -/
def getOrCreateFileContent (flt : Faults) (fs : Fs) (path : List Char)
    (t nowDT : DT) : List Char :=
  match lookupFs fs path with
  | some c => if flt.readErr path then createFileTemplate t nowDT else c
  | none => createFileTemplate t nowDT

/-- `updateStatisticsInFile` (lines 550-568): read the file back, replace the
statistics block, write only when it changed; any fault is caught internally. -/
def updateStatisticsInFile (flt : Faults) (stats : DailyStats) (path : List Char)
    (fs : Fs) : Fs :=
  match lookupFs fs path with
  | none => fs
  | some content =>
    if flt.readErr path then fs
    else
      let updated := statsReplace stats content
      if updated ≠ content then
        if flt.writeErr path then fs else setFs fs path updated
      else fs

/-- The recent-window guard of lines 101-110:
`lastSeen && now - lastSeen < RECENT_WINDOW_MINUTES * 60 * 1000` —
JS truthiness makes a stored timestamp of `0` fail the guard. -/
def recentSuppressed (cfg : ArchCfg) (now : Int) (m : List (List Char × Int))
    (sk : List Char) : Bool :=
  match lookupRE m sk with
  | some v => decide (v ≠ 0) && decide (now - v < cfg.windowMinutes * 60 * 1000)
  | none => false

/-- The body of `archiveSong`'s `try` block (lines 79-154).  `Except.error`
carries the state at an uncaught throw (a mkdir fault, or a write fault on
the ledger file); every other fault is caught by an inner handler. -/
def archiveSongE (cfg : ArchCfg) (flt : Faults) (now : Int) (nowDT : DT)
    (st : ArchState) (fs : Fs) (e : ArchiveEntry) :
    Except (ArchState × Fs) (ArchState × Fs) :=
  let t := e.song.scrapedAt
  let ds := fmtYMD t
  let st1 :=
    if st.currentDate ≠ ds then
      loadExistingEntries cfg flt now t
        { resetDailyCache cfg now (fmtYMD nowDT) st with currentDate := ds } fs
    else st
  let uid := createUniqueId e.song t
  if uid ∈ st1.dailyCache then Except.ok (st1, fs)
  else if recentSuppressed cfg now st1.recentEntries (songKeyOf e.song) then
    Except.ok (st1, fs)
  else
    let st2 := { st1 with
      recentEntries := pruneRE cfg.windowMinutes now
        (setRE st1.recentEntries (songKeyOf e.song) now) }
    let fs2 := saveRecentEntries flt st2 fs
    let path := archivePath cfg t
    if flt.mkdirErr then Except.error (st2, fs2)
    else
      let content := getOrCreateFileContent flt fs2 path t nowDT
      let row := formatAsTableRow e (st2.dailyCounter + 1)
      let content2 :=
        if hasTableInTracksSection content then content else content ++ tableHeaders
      let content3 := content2 ++ row
      let st4 := { st2 with
        dailyCounter := st2.dailyCounter + 1,
        dailyStats := bumpStats st2.dailyStats e.status,
        runStats := bumpStats st2.runStats e.status }
      if flt.writeErr path then Except.error (st4, fs2)
      else
        let fs3 := setFs fs2 path content3
        let st5 := { st4 with dailyCache := addCache st4.dailyCache uid }
        let fs4 := updateStatisticsInFile flt st4.dailyStats path fs3
        Except.ok (st5, fs4)

/-- `archiveSong` (lines 74-161): disabled archiving returns immediately; the
outer catch logs the error and returns normally with the state as thrown. -/
def archiveSong (cfg : ArchCfg) (flt : Faults) (now : Int) (nowDT : DT)
    (st : ArchState) (fs : Fs) (e : ArchiveEntry) : ArchState × Fs :=
  if !cfg.enabled then (st, fs)
  else
    match archiveSongE cfg flt now nowDT st fs e with
    | Except.ok r => r
    | Except.error r => r

/-- `archiveSong` as its caller observes it: an `Except` that is `.error`
exactly when an exception escapes to the caller.  The outer `try`/`catch`
(lines 79, 155-160) converts every body error into a normal return. -/
def archiveSongResult (cfg : ArchCfg) (flt : Faults) (now : Int) (nowDT : DT)
    (st : ArchState) (fs : Fs) (e : ArchiveEntry) :
    Except (List Char) (ArchState × Fs) :=
  if !cfg.enabled then Except.ok (st, fs)
  else
    match archiveSongE cfg flt now nowDT st fs e with
    | Except.ok r => Except.ok r
    | Except.error r => Except.ok r

set_option maxRecDepth 100000

/-! ### Concrete fixtures for the archive claims -/

def fixDT : DT := ⟨2025, 3, 14, 10, 30, 5⟩

def fixCfg : ArchCfg := ⟨true, ("/a").toList, 5⟩

def fixE : ArchiveEntry :=
  { song := { artist := ("Artist").toList, title := ("Song").toList,
              album := none, scrapedAt := fixDT },
    matchRes := none, status := .notFound }

def fixSt : ArchState := ⟨[], [], fmtYMD fixDT, 0, zeroStats, zeroStats⟩

/-- One `archiveSong` call on an empty filesystem: creates the day's file from
the template, adds the table headers and one `not_found` row, and writes the
statistics block. -/
def fixRun : ArchState × Fs := archiveSong fixCfg noFaults 1000 fixDT fixSt [] fixE

def fixContent : List Char := fileAt fixRun.2 (archivePath fixCfg fixDT)

/-- C8: `archiveSong` never propagates an error to its caller: for every
configuration, injected I/O fault pattern, clock, state, filesystem and entry,
the caller-observed result is a normal return (`Except.ok`), carrying exactly
the state `archiveSong` leaves behind — a failed archive operation can never
abort the caller's processing of the remaining records. -/
theorem archiveSong_never_propagates (cfg : ArchCfg) (flt : Faults) (now : Int)
    (nowDT : DT) (st : ArchState) (fs : Fs) (e : ArchiveEntry) :
    archiveSongResult cfg flt now nowDT st fs e =
      Except.ok (archiveSong cfg flt now nowDT st fs e) := by
  unfold archiveSongResult archiveSong
  cases hEn : (!cfg.enabled)
  · simp only [Bool.false_eq_true, if_false]
    cases archiveSongE cfg flt now nowDT st fs e <;> rfl
  · simp only [if_true]

/-- C2: replaying the very ledger file that one `archiveSong` call (a
`not_found` entry) produced does not reconstruct the statistics stored in the
file.  The file's statistics block says one track, zero found, one not found —
matching the in-memory stats — but the replay (`loadExistingEntries`'s loop)
counts the `❌ Not Found` row as *found*, because line 445 checks
`status.includes('Found')` before `status.includes('Not Found')` and
`'Not Found'` contains `'Found'` as a substring. -/
theorem replayStats_ne_storedStats :
    (fixRun.1.dailyStats = ⟨1, 0, 1, 0, 0⟩ ∧
      (matchStats fixContent).map (fun x => x.2.1) =
        some (renderStatsBlock ⟨1, 0, 1, 0, 0⟩)) ∧
    (loadLoop (fmtYMD fixDT) 2000 ⟨[], [], zeroStats, 0⟩
        (splitOnC '\n' fixContent)).stats = ⟨1, 1, 0, 0, 0⟩ ∧
    (⟨1, 1, 0, 0, 0⟩ : DailyStats) ≠ ⟨1, 0, 1, 0, 0⟩ := by
  decide

/-- C3: the same entry (`fixE`, scraped 10:30) recorded as a current-format
table row and as a superseded header-block line contributes *differently* to
the reconstructed state: the table row adds the uniqueness key
`Artist-Song-2025-03-14-10-30` (with the minute, as `createUniqueId` builds
it) and bumps the statistics, while the header line adds
`Artist-Song-2025-03-14-10` (no minute — line 468) and leaves the statistics
untouched. -/
theorem headerFormat_diverges :
    (loadLoop (fmtYMD fixDT) 0 ⟨[], [], zeroStats, 0⟩ [formatRowCore fixE 1]).cache =
      [createUniqueId fixE.song fixDT] ∧
    createUniqueId fixE.song fixDT = (("Artist-Song-2025-03-14-10-30").toList) ∧
    (loadLoop (fmtYMD fixDT) 0 ⟨[], [], zeroStats, 0⟩
        [(("### [10:30] Artist - Song").toList)]).cache =
      [(("Artist-Song-2025-03-14-10").toList)] ∧
    (("Artist-Song-2025-03-14-10").toList) ≠ createUniqueId fixE.song fixDT ∧
    (loadLoop (fmtYMD fixDT) 0 ⟨[], [], zeroStats, 0⟩ [formatRowCore fixE 1]).stats.total = 1 ∧
    (loadLoop (fmtYMD fixDT) 0 ⟨[], [], zeroStats, 0⟩
        [(("### [10:30] Artist - Song").toList)]).stats = zeroStats := by
  decide

/-! ### The early returns of `archiveSong` -/

/-- With archiving enabled and no day rollover, a duplicate-cache hit
(line 94) or the recent-window guard (line 104) makes `archiveSong` return
with the state and the filesystem untouched. -/
theorem archiveSong_early (cfg : ArchCfg) (flt : Faults) (now : Int) (nowDT : DT)
    (st : ArchState) (fs : Fs) (e : ArchiveEntry)
    (hEn : cfg.enabled = true)
    (hDate : st.currentDate = fmtYMD e.song.scrapedAt)
    (hEarly : createUniqueId e.song e.song.scrapedAt ∈ st.dailyCache ∨
      recentSuppressed cfg now st.recentEntries (songKeyOf e.song) = true) :
    archiveSong cfg flt now nowDT st fs e = (st, fs) := by
  have hne : ¬(st.currentDate ≠ fmtYMD e.song.scrapedAt) := fun h => h hDate
  unfold archiveSong archiveSongE
  rw [hEn]
  simp only [Bool.not_true, Bool.false_eq_true, if_false, if_neg hne]
  rcases hEarly with hm | hs
  · rw [if_pos hm]
  · by_cases hm : createUniqueId e.song e.song.scrapedAt ∈ st.dailyCache
    · rw [if_pos hm]
    · rw [if_neg hm, if_pos hs]

/-- The state after a fault-free append (the fall-through of lines 112-152):
recent-entries updated and pruned, counter incremented, both stats bumped,
the unique ID added to the day cache. -/
def appendStateOf (cfg : ArchCfg) (now : Int) (st : ArchState) (e : ArchiveEntry) :
    ArchState :=
  { st with
      recentEntries := pruneRE cfg.windowMinutes now
        (setRE st.recentEntries (songKeyOf e.song) now),
      dailyCounter := st.dailyCounter + 1,
      dailyStats := bumpStats st.dailyStats e.status,
      runStats := bumpStats st.runStats e.status,
      dailyCache := addCache st.dailyCache (createUniqueId e.song e.song.scrapedAt) }

/-- The filesystem after a fault-free append: the recent-entries JSON, then
the ledger with the new row (and headers if the Tracks section had no table),
then the statistics rewrite. -/
def appendFsOf (cfg : ArchCfg) (now : Int) (nowDT : DT) (st : ArchState)
    (fs : Fs) (e : ArchiveEntry) : Fs :=
  let st2 := { st with
    recentEntries := pruneRE cfg.windowMinutes now
      (setRE st.recentEntries (songKeyOf e.song) now) }
  let fs2 := saveRecentEntries noFaults st2 fs
  let path := archivePath cfg e.song.scrapedAt
  let content := getOrCreateFileContent noFaults fs2 path e.song.scrapedAt nowDT
  let content2 :=
    if hasTableInTracksSection content then content else content ++ tableHeaders
  let content3 := content2 ++ formatAsTableRow e (st.dailyCounter + 1)
  let fs3 := setFs fs2 path content3
  updateStatisticsInFile noFaults (bumpStats st.dailyStats e.status) path fs3

/-- With archiving enabled, no rollover, a cache miss and the recent-window
guard passing, a fault-free `archiveSong` call takes the append path and
produces exactly `appendStateOf`/`appendFsOf`. -/
theorem archiveSong_append (cfg : ArchCfg) (now : Int) (nowDT : DT)
    (st : ArchState) (fs : Fs) (e : ArchiveEntry)
    (hEn : cfg.enabled = true)
    (hDate : st.currentDate = fmtYMD e.song.scrapedAt)
    (hCache : createUniqueId e.song e.song.scrapedAt ∉ st.dailyCache)
    (hRec : recentSuppressed cfg now st.recentEntries (songKeyOf e.song) = false) :
    archiveSong cfg noFaults now nowDT st fs e =
      (appendStateOf cfg now st e, appendFsOf cfg now nowDT st fs e) := by
  have hne : ¬(st.currentDate ≠ fmtYMD e.song.scrapedAt) := fun h => h hDate
  unfold archiveSong archiveSongE appendStateOf appendFsOf
  rw [hEn]
  simp only [Bool.not_true, Bool.false_eq_true, if_false, if_neg hne, if_neg hCache,
    hRec, noFaults]

theorem bumpStats_total (st : DailyStats) (s : EStatus) :
    (bumpStats st s).total = st.total + 1 := by
  cases s <;> rfl

def fixSt0 : ArchState := ⟨[], [(songKeyOf fixE.song, 0)], fmtYMD fixDT, 0, zeroStats, zeroStats⟩

/-- C7 counterexample: a song identity last recorded at epoch-millis `t0 = 0`
is *not* suppressed one minute later even with a 5-minute window — line 104's
`if (lastSeen && …)` treats the stored timestamp `0` as falsy, so the claim's
"suppressed whenever t - t0 < windowMinutes * 60000" fails: the call appends
a row (counter and statistics advance). -/
theorem recentWindow_zero_timestamp_archives :
    lookupRE fixSt0.recentEntries (songKeyOf fixE.song) = some 0 ∧
    ((60000 : Int) - 0 < fixCfg.windowMinutes * 60 * 1000) ∧
    (archiveSong fixCfg noFaults 60000 fixDT fixSt0 [] fixE).1.dailyCounter = 1 ∧
    (archiveSong fixCfg noFaults 60000 fixDT fixSt0 [] fixE).1.dailyStats.total = 1 := by
  decide

/-- C7 (amended: the suppression property holds for a last-seen timestamp
`t0 ≠ 0`; `t0 = 0` is falsy in JS and never suppresses, see the
counterexample).  (1) With archiving enabled and no day rollover, a call at
time `now` for an identity with `recentEntries` timestamp `t0 ≠ 0` and
`now - t0 < windowMinutes * 60 * 1000` returns with state and filesystem
untouched, whatever I/O faults are injected.  (2) Once `now - t0` reaches the
window, the entry is accepted again: a fault-free call appends (counter and
total advance by one).  (3) The suppression also holds when the
recent-entries map was reloaded from persisted data (`loadRecentEntries`
after a restart). -/
theorem recentWindow_suppression :
    (∀ (cfg : ArchCfg) (flt : Faults) (now : Int) (nowDT : DT) (st : ArchState)
        (fs : Fs) (e : ArchiveEntry) (t0 : Int),
      cfg.enabled = true →
      st.currentDate = fmtYMD e.song.scrapedAt →
      lookupRE st.recentEntries (songKeyOf e.song) = some t0 →
      t0 ≠ 0 →
      now - t0 < cfg.windowMinutes * 60 * 1000 →
      archiveSong cfg flt now nowDT st fs e = (st, fs)) ∧
    (∀ (cfg : ArchCfg) (now : Int) (nowDT : DT) (st : ArchState) (fs : Fs)
        (e : ArchiveEntry) (t0 : Int),
      cfg.enabled = true →
      st.currentDate = fmtYMD e.song.scrapedAt →
      createUniqueId e.song e.song.scrapedAt ∉ st.dailyCache →
      lookupRE st.recentEntries (songKeyOf e.song) = some t0 →
      cfg.windowMinutes * 60 * 1000 ≤ now - t0 →
      (archiveSong cfg noFaults now nowDT st fs e).1.dailyCounter = st.dailyCounter + 1 ∧
      (archiveSong cfg noFaults now nowDT st fs e).1.dailyStats.total =
        st.dailyStats.total + 1) ∧
    (∀ (cfg : ArchCfg) (flt fltR : Faults) (now now0 : Int) (nowDT : DT)
        (data : List (List Char × Int)) (st0 : ArchState) (fs0 fs : Fs)
        (e : ArchiveEntry) (t0 : Int),
      cfg.enabled = true →
      st0.currentDate = fmtYMD e.song.scrapedAt →
      lookupRE ((loadRecentFromData cfg fltR now0 data st0 fs0).1).recentEntries
        (songKeyOf e.song) = some t0 →
      t0 ≠ 0 →
      now - t0 < cfg.windowMinutes * 60 * 1000 →
      archiveSong cfg flt now nowDT ((loadRecentFromData cfg fltR now0 data st0 fs0).1)
          fs e =
        ((loadRecentFromData cfg fltR now0 data st0 fs0).1, fs)) := by
  have key : ∀ (cfg : ArchCfg) (flt : Faults) (now : Int) (nowDT : DT)
      (st : ArchState) (fs : Fs) (e : ArchiveEntry) (t0 : Int),
      cfg.enabled = true →
      st.currentDate = fmtYMD e.song.scrapedAt →
      lookupRE st.recentEntries (songKeyOf e.song) = some t0 →
      t0 ≠ 0 →
      now - t0 < cfg.windowMinutes * 60 * 1000 →
      archiveSong cfg flt now nowDT st fs e = (st, fs) := by
    intro cfg flt now nowDT st fs e t0 hEn hDate hSeen h0 hWin
    apply archiveSong_early cfg flt now nowDT st fs e hEn hDate
    right
    unfold recentSuppressed
    rw [hSeen]
    simp only [Bool.and_eq_true, decide_eq_true_eq]
    exact ⟨h0, hWin⟩
  refine ⟨key, ?_, ?_⟩
  · intro cfg now nowDT st fs e t0 hEn hDate hCache hSeen hWin
    have hRec : recentSuppressed cfg now st.recentEntries (songKeyOf e.song) = false := by
      unfold recentSuppressed
      rw [hSeen]
      show (decide (t0 ≠ 0) && decide (now - t0 < cfg.windowMinutes * 60 * 1000)) = false
      rw [decide_eq_false (not_lt.mpr hWin), Bool.and_false]
    rw [archiveSong_append cfg now nowDT st fs e hEn hDate hCache hRec]
    exact ⟨rfl, bumpStats_total st.dailyStats e.status⟩
  · intro cfg flt fltR now now0 nowDT data st0 fs0 fs e t0 hEn hDate hSeen h0 hWin
    have hDate' : ((loadRecentFromData cfg fltR now0 data st0 fs0).1).currentDate =
        fmtYMD e.song.scrapedAt := hDate
    exact key cfg flt now nowDT _ fs e t0 hEn hDate' hSeen h0 hWin

def fixStSeen : ArchState :=
  ⟨[], [(songKeyOf fixE.song, 1000)], fmtYMD fixDT, 0, zeroStats, zeroStats⟩

theorem recentWindow_suppression_witness :
    archiveSong fixCfg noFaults 61000 fixDT fixStSeen ([] : Fs) fixE =
      (fixStSeen, ([] : Fs)) :=
  recentWindow_suppression.1 fixCfg noFaults 61000 fixDT fixStSeen [] fixE 1000
    rfl rfl (by decide) (by decide) (by decide)

/-! ### Counting table rows in a ledger file -/

/-- The uniqueness key a line contributes when `loadExistingEntries` parses it
as a table row. -/
def rowUidOf (dateString line : List Char) : Option (List Char) :=
  (parseTableLine dateString line).2.map (fun rc => rc.uid)

/-- How many lines of `content` parse as a table row carrying `uid`. -/
def countRowsU (dateString uid content : List Char) : Nat :=
  ((splitOnC '\n' content).filter
    (fun l => decide (rowUidOf dateString l = some uid))).length

/-- The statistics block, if `content` has one, sits between a line boundary
and a line boundary (true of every file the service writes; rules out a match
overlapping the appended row). -/
def statsSafeB (content : List Char) : Bool :=
  match matchStats content with
  | none => true
  | some (pre, _, post) =>
    (pre.isEmpty || (pre.reverse.head? == some '\n')) && (post.head? == some '\n')

/-- A text field that round-trips through the table row: nonempty, free of
`|`, `\` and newlines, with non-whitespace edges (so the cell trim returns it
unchanged). -/
def cleanCh (c : Char) : Bool := !(c == '|') && !(c == '\\') && !(c == '\n')

def cleanField (s : List Char) : Bool :=
  !s.isEmpty && s.all cleanCh &&
    (match s.head? with | some c => !jsWs c | none => true) &&
    (match s.reverse.head? with | some c => !jsWs c | none => true)

/-- The album field as the row writer and parser round-trip it: absent or
empty (both render `-`), or a clean field other than the literal `-`. -/
def albumOk : Option (List Char) → Bool
  | none => true
  | some a => a.isEmpty || (cleanField a && decide (a ≠ ('-' :: [])))

/-- Two-digit time fields (every real clock reading satisfies this). -/
def dtOk (t : DT) : Bool :=
  decide (t.hh < 100) && decide (t.mi < 100) && decide (t.ss < 100)

/-- The song identity of the day-scoped uniqueness key. -/
def sameSongId (e e' : ArchiveEntry) : Prop :=
  e'.song.artist = e.song.artist ∧ e'.song.title = e.song.title ∧
    e'.song.album = e.song.album

/-- Same calendar date, hour and minute. -/
def sameMinuteDT (t t' : DT) : Prop :=
  t'.y = t.y ∧ t'.mo = t.mo ∧ t'.d = t.d ∧ t'.hh = t.hh ∧ t'.mi = t.mi

/-! ### `split` lemmas -/

theorem splitOnC_cons (sep c : Char) (t : List Char) :
    splitOnC sep (c :: t) =
      match splitOnC sep t with
      | [] => [(c :: [])]
      | w :: rest => if c == sep then [] :: w :: rest else (c :: w) :: rest := rfl

theorem splitOnC_ne_nil (sep : Char) (s : List Char) : splitOnC sep s ≠ [] := by
  cases s with
  | nil => simp [splitOnC]
  | cons c t =>
    rw [splitOnC_cons]
    cases h : splitOnC sep t with
    | nil => simp
    | cons w rest => cases hc : (c == sep) <;> simp [hc]

theorem splitOnC_append (sep : Char) (a b : List Char) :
    splitOnC sep (a ++ sep :: b) = splitOnC sep a ++ splitOnC sep b := by
  induction a with
  | nil =>
    simp only [List.nil_append]
    rw [splitOnC_cons]
    cases h : splitOnC sep b with
    | nil => exact absurd h (splitOnC_ne_nil sep b)
    | cons w rest => simp [splitOnC]
  | cons c a' ih =>
    rw [List.cons_append, splitOnC_cons, ih, splitOnC_cons]
    cases h : splitOnC sep a' with
    | nil => exact absurd h (splitOnC_ne_nil sep a')
    | cons w rest => cases hc : (c == sep) <;> simp [hc]

theorem splitOnC_nosep (sep : Char) (x : List Char) (h : ∀ c ∈ x, ¬(c = sep)) :
    splitOnC sep x = [x] := by
  induction x with
  | nil => rfl
  | cons c t ih =>
    have hc : (c == sep) = false := by
      cases hb : (c == sep)
      · rfl
      · exact absurd (by simpa using hb) (h c (by simp))
    rw [splitOnC_cons, ih (fun d hd => h d (List.mem_cons_of_mem c hd))]
    simp [hc]

theorem splitOnC_chunk (sep : Char) (x b : List Char) (h : ∀ c ∈ x, ¬(c = sep)) :
    splitOnC sep (x ++ sep :: b) = x :: splitOnC sep b := by
  rw [splitOnC_append, splitOnC_nosep sep x h]
  rfl

/-! ### Digit strings and padding -/

theorem natStrGo_zero (f : Nat) (acc : List Char) : natStrGo f 0 acc = acc := by
  cases f <;> rfl

theorem natStrGo_spec (f : Nat) : ∀ (n : Nat) (acc : List Char),
    ∃ p, natStrGo f n acc = p ++ acc ∧ ∀ c ∈ p, asciiDigit c = true := by
  induction f with
  | zero => exact fun n acc => ⟨[], rfl, by simp⟩
  | succ f ih =>
    intro n acc
    by_cases h : n = 0
    · subst h; exact ⟨[], rfl, by simp⟩
    · obtain ⟨p, hp, hd⟩ := ih (n / 10) (Char.ofNat (48 + n % 10) :: acc)
      refine ⟨p ++ (Char.ofNat (48 + n % 10) :: []), ?_, ?_⟩
      · rw [show natStrGo (f + 1) n acc =
            natStrGo f (n / 10) (Char.ofNat (48 + n % 10) :: acc) from by
          simp [natStrGo, h]]
        rw [hp, List.append_assoc, List.singleton_append]
      · intro c hc
        rcases List.mem_append.mp hc with h1 | h1
        · exact hd c h1
        · have hc2 : c = Char.ofNat (48 + n % 10) := by simpa using h1
          subst hc2
          have ht : (Char.ofNat (48 + n % 10)).toNat = 48 + n % 10 :=
            char_toNat_ofNat (by omega)
          simp only [asciiDigit, Bool.and_eq_true, decide_eq_true_eq, ht]
          omega

theorem digitChar_digit {d : Nat} (h : d < 10) :
    asciiDigit (Char.ofNat (48 + d)) = true := by
  have ht : (Char.ofNat (48 + d)).toNat = 48 + d := char_toNat_ofNat (by omega)
  simp only [asciiDigit, Bool.and_eq_true, decide_eq_true_eq, ht]
  omega

theorem natStr_spec (n : Nat) : natStr n ≠ [] ∧ ∀ c ∈ natStr n, asciiDigit c = true := by
  by_cases h : n = 0
  · subst h; exact ⟨by decide, by decide⟩
  · cases n with
    | zero => exact absurd rfl h
    | succ m =>
      unfold natStr
      rw [if_neg h]
      rw [show natStrGo (m + 1) (m + 1) [] =
          natStrGo m ((m + 1) / 10) (Char.ofNat (48 + (m + 1) % 10) :: []) from by
        simp [natStrGo]]
      obtain ⟨p, hp, hd⟩ := natStrGo_spec m ((m + 1) / 10) _
      rw [hp]
      constructor
      · simp
      · intro c hc
        rcases List.mem_append.mp hc with h1 | h1
        · exact hd c h1
        · have hc2 : c = Char.ofNat (48 + (m + 1) % 10) := by simpa using h1
          subst hc2
          exact digitChar_digit (by omega)

theorem natStr_single {n : Nat} (h : n < 10) :
    natStr n = (Char.ofNat (48 + n) :: []) := by
  unfold natStr
  by_cases h0 : n = 0
  · subst h0; rfl
  · rw [if_neg h0]
    cases n with
    | zero => exact absurd rfl h0
    | succ m =>
      rw [show natStrGo (m + 1) (m + 1) [] =
          natStrGo m ((m + 1) / 10) (Char.ofNat (48 + (m + 1) % 10) :: []) from by
        simp [natStrGo]]
      have h10 : (m + 1) / 10 = 0 := by omega
      have hm : (m + 1) % 10 = m + 1 := by omega
      rw [h10, natStrGo_zero, hm]

theorem natStr_double {n : Nat} (h1 : 10 ≤ n) (h2 : n < 100) :
    natStr n = (Char.ofNat (48 + n / 10) :: Char.ofNat (48 + n % 10) :: []) := by
  unfold natStr
  rw [if_neg (by omega)]
  cases n with
  | zero => omega
  | succ m =>
    rw [show natStrGo (m + 1) (m + 1) [] =
        natStrGo m ((m + 1) / 10) (Char.ofNat (48 + (m + 1) % 10) :: []) from by
      simp [natStrGo]]
    cases m with
    | zero => omega
    | succ k =>
      rw [show natStrGo (k + 1) ((k + 2) / 10) (Char.ofNat (48 + (k + 2) % 10) :: []) =
          natStrGo k ((k + 2) / 10 / 10)
            (Char.ofNat (48 + (k + 2) / 10 % 10) :: Char.ofNat (48 + (k + 2) % 10) :: []) from by
        simp [natStrGo, show ¬((k + 2) / 10 = 0) from by omega]]
      have hz : (k + 2) / 10 / 10 = 0 := by omega
      have hq : (k + 2) / 10 % 10 = (k + 2) / 10 := by omega
      rw [hz, natStrGo_zero, hq]

theorem natStr_triple {n : Nat} (h1 : 100 ≤ n) (h2 : n < 1000) :
    natStr n = (Char.ofNat (48 + n / 100) :: Char.ofNat (48 + n / 10 % 10) ::
      Char.ofNat (48 + n % 10) :: []) := by
  unfold natStr
  rw [if_neg (by omega)]
  cases n with
  | zero => omega
  | succ m =>
    rw [show natStrGo (m + 1) (m + 1) [] =
        natStrGo m ((m + 1) / 10) (Char.ofNat (48 + (m + 1) % 10) :: []) from by
      simp [natStrGo]]
    cases m with
    | zero => omega
    | succ k =>
      rw [show natStrGo (k + 1) ((k + 2) / 10) (Char.ofNat (48 + (k + 2) % 10) :: []) =
          natStrGo k ((k + 2) / 10 / 10)
            (Char.ofNat (48 + (k + 2) / 10 % 10) :: Char.ofNat (48 + (k + 2) % 10) :: []) from by
        simp [natStrGo, show ¬((k + 2) / 10 = 0) from by omega]]
      cases k with
      | zero => omega
      | succ j =>
        rw [show natStrGo (j + 1) ((j + 3) / 10 / 10)
            (Char.ofNat (48 + (j + 3) / 10 % 10) :: Char.ofNat (48 + (j + 3) % 10) :: []) =
            natStrGo j ((j + 3) / 10 / 10 / 10)
              (Char.ofNat (48 + (j + 3) / 10 / 10 % 10) ::
                Char.ofNat (48 + (j + 3) / 10 % 10) :: Char.ofNat (48 + (j + 3) % 10) :: []) from by
          simp [natStrGo, show ¬((j + 3) / 10 / 10 = 0) from by omega]]
        have hz : (j + 3) / 10 / 10 / 10 = 0 := by omega
        have hq : (j + 3) / 10 / 10 % 10 = (j + 3) / 10 / 10 := by omega
        rw [hz, natStrGo_zero, hq]
        have h100 : (j + 3) / 10 / 10 = (j + 3) / 100 := by omega
        rw [h100]

theorem pad2_spec {n : Nat} (h : n < 100) :
    ∃ a b, pad2 n = (a :: b :: []) ∧ asciiDigit a = true ∧ asciiDigit b = true := by
  unfold pad2
  by_cases h10 : n < 10
  · rw [if_pos h10, natStr_single h10]
    exact ⟨'0', Char.ofNat (48 + n), rfl, by decide, digitChar_digit h10⟩
  · rw [if_neg h10, natStr_double (by omega) h]
    exact ⟨Char.ofNat (48 + n / 10), Char.ofNat (48 + n % 10), rfl,
      digitChar_digit (by omega), digitChar_digit (by omega)⟩

theorem pad3_spec {n : Nat} (h : n < 1000) :
    ∃ a b c, pad3 n = (a :: b :: c :: []) ∧ asciiDigit a = true ∧
      asciiDigit b = true ∧ asciiDigit c = true := by
  unfold pad3
  by_cases h10 : n < 10
  · rw [if_pos h10, natStr_single h10]
    exact ⟨'0', '0', Char.ofNat (48 + n), rfl, by decide, by decide, digitChar_digit h10⟩
  · rw [if_neg h10]
    by_cases h100 : n < 100
    · rw [if_pos h100, natStr_double (by omega) h100]
      exact ⟨'0', Char.ofNat (48 + n / 10), Char.ofNat (48 + n % 10), rfl,
        by decide, digitChar_digit (by omega), digitChar_digit (by omega)⟩
    · rw [if_neg h100, natStr_triple (by omega) h]
      exact ⟨Char.ofNat (48 + n / 100), Char.ofNat (48 + n / 10 % 10),
        Char.ofNat (48 + n % 10), rfl, digitChar_digit (by omega),
        digitChar_digit (by omega), digitChar_digit (by omega)⟩

theorem jsWs_eq_false_of_digit {c : Char} (h : asciiDigit c = true) : jsWs c = false := by
  simp only [asciiDigit, Bool.and_eq_true, decide_eq_true_eq] at h
  simp only [jsWs, Bool.or_eq_false_iff, Bool.and_eq_false_iff, beq_eq_false_iff_ne,
    ne_eq, decide_eq_false_iff_not, not_le]
  omega

theorem digit_ne_chars {c : Char} (h : asciiDigit c = true) :
    ¬(c = '|') ∧ ¬(c = '\\') ∧ ¬(c = '\n') ∧ ¬(c = '-') ∧ ¬(c = 'm') ∧ ¬(c = 'I') ∧
      ¬(c = ':') := by
  simp only [asciiDigit, Bool.and_eq_true, decide_eq_true_eq] at h
  refine ⟨?_, ?_, ?_, ?_, ?_, ?_, ?_⟩ <;> (rintro rfl; revert h; decide)

theorem wordCh_of_digit {c : Char} (h : asciiDigit c = true) : wordCh c = true := by
  simp [wordCh, asciiAlnum, h]

/-! ### Filesystem lookup lemmas -/

theorem find_update {fs : Fs} {p c : List Char}
    (h : (fs.find? (fun kv => decide (kv.1 = p))).isSome = true) :
    lookupFs (fs.map (fun kv => if kv.1 = p then (p, c) else kv)) p = some c := by
  induction fs with
  | nil => simp [List.find?] at h
  | cons kv fs ih =>
    by_cases hk : kv.1 = p
    · simp [lookupFs, List.map_cons, if_pos hk, List.find?_cons_of_pos]
    · have h' : (fs.find? (fun kv => decide (kv.1 = p))).isSome = true := by
        rw [List.find?_cons_of_neg] at h
        · exact h
        · simp [hk]
      have := ih h'
      simp only [lookupFs] at this ⊢
      rw [List.map_cons, if_neg hk, List.find?_cons_of_neg]
      · exact this
      · simp [hk]

theorem lookup_append_new {fs : Fs} {p c : List Char}
    (h : fs.find? (fun kv => decide (kv.1 = p)) = none) :
    lookupFs (fs ++ ((p, c) :: [])) p = some c := by
  induction fs with
  | nil => simp [lookupFs, List.find?]
  | cons kv fs ih =>
    by_cases hk : kv.1 = p
    · rw [List.find?_cons_of_pos] at h
      · exact absurd h (by simp)
      · simp [hk]
    · have h' : fs.find? (fun kv => decide (kv.1 = p)) = none := by
        rw [List.find?_cons_of_neg] at h
        · exact h
        · simp [hk]
      have := ih h'
      simp only [lookupFs] at this ⊢
      rw [List.cons_append, List.find?_cons_of_neg]
      · exact this
      · simp [hk]

theorem lookup_map_ne (fs : Fs) (p c q : List Char) (hne : q ≠ p) :
    lookupFs (fs.map (fun kv => if kv.1 = p then (p, c) else kv)) q = lookupFs fs q := by
  induction fs with
  | nil => rfl
  | cons kv fs ih =>
    by_cases hk : kv.1 = p
    · have hq : ¬(p = q) := fun hh => hne hh.symm
      simp only [lookupFs, List.map_cons, if_pos hk] at ih ⊢
      rw [List.find?_cons_of_neg, List.find?_cons_of_neg]
      · exact ih
      · simp [hk, hq]
      · simp [hq]
    · simp only [lookupFs, List.map_cons, if_neg hk] at ih ⊢
      by_cases hkq : kv.1 = q
      · rw [List.find?_cons_of_pos, List.find?_cons_of_pos] <;> simp [hkq]
      · rw [List.find?_cons_of_neg, List.find?_cons_of_neg]
        · exact ih
        · simp [hkq]
        · simp [hkq]

theorem lookup_append_ne (fs : Fs) (p c q : List Char) (hne : q ≠ p) :
    lookupFs (fs ++ ((p, c) :: [])) q = lookupFs fs q := by
  induction fs with
  | nil =>
    have hq : ¬(p = q) := fun hh => hne hh.symm
    simp [lookupFs, List.find?, hq]
  | cons kv fs ih =>
    simp only [lookupFs, List.cons_append] at ih ⊢
    by_cases hkq : kv.1 = q
    · rw [List.find?_cons_of_pos, List.find?_cons_of_pos] <;> simp [hkq]
    · rw [List.find?_cons_of_neg, List.find?_cons_of_neg]
      · exact ih
      · simp [hkq]
      · simp [hkq]

theorem lookupFs_setFs_self (fs : Fs) (p c : List Char) :
    lookupFs (setFs fs p c) p = some c := by
  unfold setFs
  by_cases h : (fs.find? (fun kv => decide (kv.1 = p))).isSome = true
  · rw [if_pos h]
    exact find_update h
  · rw [if_neg h]
    exact lookup_append_new (Option.not_isSome_iff_eq_none.mp h)

theorem lookupFs_setFs_ne (fs : Fs) (p c q : List Char) (hne : q ≠ p) :
    lookupFs (setFs fs p c) q = lookupFs fs q := by
  unfold setFs
  split
  · exact lookup_map_ne fs p c q hne
  · exact lookup_append_ne fs p c q hne

/-! ### Correctness of the statistics-block matcher -/

theorem eatLit_spec {lit s r : List Char} (h : eatLit lit s = some r) : s = lit ++ r := by
  unfold eatLit at h
  split at h
  · rename_i hp
    obtain ⟨t, ht⟩ := hasPrefixL_iff.mp hp
    cases h
    rw [← ht, List.drop_left]
  · exact absurd h (by simp)

def digitsOk (d : List Char) : Prop := d ≠ [] ∧ ∀ c ∈ d, asciiDigit c = true

theorem digitsRun_spec {s d r : List Char} (h : digitsRun s = some (d, r)) :
    s = d ++ r ∧ digitsOk d := by
  simp only [digitsRun] at h
  split at h
  · exact absurd h (by simp)
  · rename_i hne
    cases h
    refine ⟨(List.takeWhile_append_dropWhile asciiDigit s).symm, ?_, ?_⟩
    · simpa [List.isEmpty_iff] using hne
    · exact fun c hc => List.mem_takeWhile_imp hc

def blockShape (b : List Char) : Prop :=
  ∃ d1 d2 d3 d4 d5, digitsOk d1 ∧ digitsOk d2 ∧ digitsOk d3 ∧ digitsOk d4 ∧ digitsOk d5 ∧
    b = litTT ++ d1 ++ litSF ++ d2 ++ litNF ++ d3 ++ litLC ++ d4 ++ litDUP ++ d5 ++ litEnd

theorem matchStatsAt_spec {s b r : List Char} (h : matchStatsAt s = some (b, r)) :
    s = b ++ r ∧ blockShape b := by
  unfold matchStatsAt at h
  simp only [bind, Option.bind_eq_some, pure, Option.some.injEq, Prod.mk.injEq] at h
  obtain ⟨s1, h1, ⟨d1, s2⟩, h2, s3, h3, ⟨d2, s4⟩, h4, s5, h5, ⟨d3, s6⟩, h6,
    s7, h7, ⟨d4, s8⟩, h8, s9, h9, ⟨d5, s10⟩, h10, s11, h11, hb, hr⟩ := h
  dsimp only at h3 h5 h7 h9 h11 hb hr
  obtain ⟨e2, g2⟩ := digitsRun_spec h2
  obtain ⟨e4, g4⟩ := digitsRun_spec h4
  obtain ⟨e6, g6⟩ := digitsRun_spec h6
  obtain ⟨e8, g8⟩ := digitsRun_spec h8
  obtain ⟨e10, g10⟩ := digitsRun_spec h10
  subst hb hr
  constructor
  · rw [eatLit_spec h1, e2, eatLit_spec h3, e4, eatLit_spec h5, e6, eatLit_spec h7,
      e8, eatLit_spec h9, e10, eatLit_spec h11]
    simp [List.append_assoc]
  · exact ⟨d1, d2, d3, d4, d5, g2, g4, g6, g8, g10, rfl⟩

theorem matchStats_spec : ∀ {s pre b r : List Char},
    matchStats s = some (pre, b, r) → s = pre ++ b ++ r ∧ blockShape b := by
  intro s
  induction s with
  | nil => intro pre b r h; exact absurd h (by simp [matchStats])
  | cons c t ih =>
    intro pre b r h
    unfold matchStats at h
    cases ha : matchStatsAt (c :: t) with
    | some x =>
      obtain ⟨b', r'⟩ := x
      rw [ha] at h
      cases h
      obtain ⟨hs, hbs⟩ := matchStatsAt_spec ha
      exact ⟨by simpa using hs, hbs⟩
    | none =>
      rw [ha] at h
      simp only [Option.map_eq_some'] at h
      obtain ⟨⟨pre', b', r'⟩, hm, hx⟩ := h
      cases hx
      obtain ⟨hs, hbs⟩ := ih hm
      exact ⟨by simp [hs], hbs⟩

theorem renderStatsBlock_shape (st : DailyStats) : blockShape (renderStatsBlock st) :=
  ⟨natStr st.total, natStr st.found, natStr st.notFound, natStr st.lowConfidence,
    natStr st.duplicates, ⟨(natStr_spec _).1, (natStr_spec _).2⟩,
    ⟨(natStr_spec _).1, (natStr_spec _).2⟩, ⟨(natStr_spec _).1, (natStr_spec _).2⟩,
    ⟨(natStr_spec _).1, (natStr_spec _).2⟩, ⟨(natStr_spec _).1, (natStr_spec _).2⟩, rfl⟩

/-! ### Statistics-block lines parse as no table row -/

theorem parseTableLine_shortCells {ds line : List Char}
    (h : ((splitOnC '|' line).map trimJs).length < 6) :
    parseTableLine ds line = (none, none) := by
  unfold parseTableLine
  split
  · have h9 : (decide (9 ≤ ((splitOnC '|' line).map trimJs).length) : Bool) = false := by
      simp only [decide_eq_false_iff_not, not_le]
      omega
    have h6 : (decide (6 ≤ ((splitOnC '|' line).map trimJs).length) : Bool) = false := by
      simp only [decide_eq_false_iff_not, not_le]
      omega
    simp only [h9, h6, Bool.false_and, Bool.false_eq_true, if_false]
  · rfl

/-- One line of the statistics table: `| NAME | d |` with the digits `d`. -/
def statLine (name d : List Char) : List Char :=
  '|' :: (name ++ ('|' :: ((' ' :: (d ++ (' ' :: []))) ++ ('|' :: []))))

theorem splitOnC_statsLine {name d : List Char} (hn : ∀ c ∈ name, ¬(c = '|'))
    (hd : ∀ c ∈ d, asciiDigit c = true) :
    splitOnC '|' (statLine name d) = [[], name, ' ' :: (d ++ (' ' :: [])), []] := by
  have h1 : ∀ c ∈ (' ' :: (d ++ (' ' :: []))), ¬(c = '|') := by
    intro c hc
    rcases List.mem_cons.mp hc with rfl | hc2
    · decide
    · rcases List.mem_append.mp hc2 with h3 | h3
      · exact (digit_ne_chars (hd c h3)).1
      · simp at h3; subst h3; decide
  show splitOnC '|' (([] : List Char) ++ '|' ::
    (name ++ ('|' :: ((' ' :: (d ++ (' ' :: []))) ++ ('|' :: []))))) = _
  rw [splitOnC_chunk _ _ _ (by simp)]
  rw [splitOnC_chunk _ _ _ hn]
  rw [splitOnC_chunk _ _ _ h1]
  rfl

theorem statsLine_rowUid {ds uid name d : List Char} (hn : ∀ c ∈ name, ¬(c = '|'))
    (hd : ∀ c ∈ d, asciiDigit c = true) :
    (rowUidOf ds (statLine name d) = some uid) = False := by
  unfold rowUidOf
  rw [parseTableLine_shortCells]
  · simp
  · rw [splitOnC_statsLine hn hd]
    simp

theorem statLine_noNl {name d : List Char} (hnm : ∀ c ∈ name, ¬(c = '\n'))
    (hd : ∀ c ∈ d, asciiDigit c = true) : ∀ c ∈ statLine name d, ¬(c = '\n') := by
  intro c hc
  unfold statLine at hc
  rcases List.mem_cons.mp hc with rfl | hc2
  · decide
  · rcases List.mem_append.mp hc2 with h3 | h3
    · exact hnm c h3
    · rcases List.mem_cons.mp h3 with rfl | h4
      · decide
      · rcases List.mem_append.mp h4 with h5 | h5
        · rcases List.mem_cons.mp h5 with rfl | h6
          · decide
          · rcases List.mem_append.mp h6 with h7 | h7
            · exact (digit_ne_chars (hd c h7)).2.2.1
            · simp at h7; subst h7; decide
        · simp at h5; subst h5; decide

theorem block_decomp (d1 d2 d3 d4 d5 : List Char) :
    litTT ++ d1 ++ litSF ++ d2 ++ litNF ++ d3 ++ litLC ++ d4 ++ litDUP ++ d5 ++ litEnd =
      statLine ((" Total Tracks ").toList) d1 ++ '\n' ::
        (statLine ((" Successfully Found ").toList) d2 ++ '\n' ::
          (statLine ((" Not Found ").toList) d3 ++ '\n' ::
            (statLine ((" Low Confidence ").toList) d4 ++ '\n' ::
              statLine ((" Duplicates ").toList) d5))) := by
  have e1 : litTT = '|' :: ((" Total Tracks ").toList ++ ('|' :: (' ' :: []))) := by decide
  have e2 : litSF = (' ' :: ('|' :: [])) ++ '\n' ::
      ('|' :: ((" Successfully Found ").toList ++ ('|' :: (' ' :: [])))) := by decide
  have e3 : litNF = (' ' :: ('|' :: [])) ++ '\n' ::
      ('|' :: ((" Not Found ").toList ++ ('|' :: (' ' :: [])))) := by decide
  have e4 : litLC = (' ' :: ('|' :: [])) ++ '\n' ::
      ('|' :: ((" Low Confidence ").toList ++ ('|' :: (' ' :: [])))) := by decide
  have e5 : litDUP = (' ' :: ('|' :: [])) ++ '\n' ::
      ('|' :: ((" Duplicates ").toList ++ ('|' :: (' ' :: [])))) := by decide
  have e6 : litEnd = ' ' :: ('|' :: []) := by decide
  rw [e1, e2, e3, e4, e5, e6]
  unfold statLine
  simp [List.append_assoc]

theorem cnt_lines_block {ds uid b : List Char} (hb : blockShape b) :
    ((splitOnC '\n' b).filter (fun l => decide (rowUidOf ds l = some uid))).length = 0 := by
  obtain ⟨d1, d2, d3, d4, d5, g1, g2, g3, g4, g5, rfl⟩ := hb
  rw [block_decomp]
  rw [splitOnC_chunk _ _ _ (statLine_noNl (by decide) g1.2)]
  rw [splitOnC_chunk _ _ _ (statLine_noNl (by decide) g2.2)]
  rw [splitOnC_chunk _ _ _ (statLine_noNl (by decide) g3.2)]
  rw [splitOnC_chunk _ _ _ (statLine_noNl (by decide) g4.2)]
  rw [splitOnC_nosep _ _ (statLine_noNl (by decide) g5.2)]
  have r1 : (rowUidOf ds (statLine ((" Total Tracks ").toList) d1) = some uid) = False :=
    statsLine_rowUid (by decide) g1.2
  have r2 : (rowUidOf ds (statLine ((" Successfully Found ").toList) d2) = some uid) = False :=
    statsLine_rowUid (by decide) g2.2
  have r3 : (rowUidOf ds (statLine ((" Not Found ").toList) d3) = some uid) = False :=
    statsLine_rowUid (by decide) g3.2
  have r4 : (rowUidOf ds (statLine ((" Low Confidence ").toList) d4) = some uid) = False :=
    statsLine_rowUid (by decide) g4.2
  have r5 : (rowUidOf ds (statLine ((" Duplicates ").toList) d5) = some uid) = False :=
    statsLine_rowUid (by decide) g5.2
  simp only [List.filter_cons, r1, r2, r3, r4, r5, decide_False, Bool.false_eq_true,
    if_false, List.filter_nil, List.length_nil]

theorem countRowsU_swap_block {ds uid pre post' X Y : List Char}
    (hX : blockShape X) (hY : blockShape Y)
    (hpre : pre = [] ∨ ∃ pred, pre = pred ++ ('\n' :: [])) :
    countRowsU ds uid (pre ++ (X ++ ('\n' :: post'))) =
      countRowsU ds uid (pre ++ (Y ++ ('\n' :: post'))) := by
  rcases hpre with rfl | ⟨pred, rfl⟩
  · simp only [List.nil_append, countRowsU, splitOnC_append, List.filter_append,
      List.length_append, cnt_lines_block hX, cnt_lines_block hY]
  · rw [show (pred ++ ('\n' :: [])) ++ (X ++ ('\n' :: post')) =
        pred ++ '\n' :: (X ++ ('\n' :: post')) from by simp]
    rw [show (pred ++ ('\n' :: [])) ++ (Y ++ ('\n' :: post')) =
        pred ++ '\n' :: (Y ++ ('\n' :: post')) from by simp]
    simp only [countRowsU, splitOnC_append, List.filter_append, List.length_append,
      cnt_lines_block hX, cnt_lines_block hY]

theorem countRowsU_statsReplace {ds uid content : List Char} (stats : DailyStats)
    (hSafe : statsSafeB content = true) :
    countRowsU ds uid (statsReplace stats content) = countRowsU ds uid content := by
  unfold statsReplace
  cases hm : matchStats content with
  | none => rfl
  | some x =>
    obtain ⟨pre, b, post⟩ := x
    obtain ⟨hcontent, hbs⟩ := matchStats_spec hm
    unfold statsSafeB at hSafe
    rw [hm] at hSafe
    dsimp only at hSafe
    rw [Bool.and_eq_true] at hSafe
    obtain ⟨hpre', hpost'⟩ := hSafe
    cases post with
    | nil => simp at hpost'
    | cons c post' =>
      have hc : c = '\n' := by simpa using hpost'
      subst hc
      have hpre : pre = [] ∨ ∃ pred, pre = pred ++ ('\n' :: []) := by
        rw [Bool.or_eq_true] at hpre'
        rcases hpre' with h1 | h1
        · left; simpa [List.isEmpty_iff] using h1
        · cases hr : pre.reverse with
          | nil =>
            left
            have := congrArg List.reverse hr
            simpa using this
          | cons c2 tl =>
            right
            have hc2 : c2 = '\n' := by rw [hr] at h1; simpa using h1
            subst hc2
            refine ⟨tl.reverse, ?_⟩
            have := congrArg List.reverse hr
            simpa using this
      rw [hcontent]
      have hsw := @countRowsU_swap_block ds uid pre post'
        (renderStatsBlock stats) b (renderStatsBlock_shape stats) hbs hpre
      simpa [List.append_assoc] using hsw

theorem rowUidOf_nil (ds : List Char) : rowUidOf ds [] = none := rfl

theorem countRowsU_append_row {ds uid c0 core : List Char}
    (hNl : c0.reverse.head? = some '\n') (hCnt : countRowsU ds uid c0 = 0)
    (hcore : rowUidOf ds core = some uid) (hnonl : ∀ c ∈ core, ¬(c = '\n')) :
    countRowsU ds uid (c0 ++ (core ++ ('\n' :: []))) = 1 := by
  cases hr : c0.reverse with
  | nil => rw [hr] at hNl; cases hNl
  | cons c tl =>
    have hc : c = '\n' := by rw [hr] at hNl; simpa using hNl
    subst hc
    have hc0 : c0 = tl.reverse ++ ('\n' :: []) := by
      have := congrArg List.reverse hr
      simpa using this
    subst hc0
    rw [show (tl.reverse ++ ('\n' :: [])) ++ (core ++ ('\n' :: [])) =
        tl.reverse ++ '\n' :: (core ++ ('\n' :: [])) from by simp]
    rw [show core ++ ('\n' :: []) = core ++ '\n' :: ([] : List Char) from rfl]
    rw [countRowsU, splitOnC_append, splitOnC_append]
    rw [countRowsU, show tl.reverse ++ ('\n' :: []) = tl.reverse ++ '\n' :: ([] : List Char) from rfl,
      splitOnC_append] at hCnt
    rw [splitOnC_nosep _ _ hnonl]
    simp only [List.filter_append, List.length_append] at hCnt ⊢
    have hnil : (List.filter (fun l => decide (rowUidOf ds l = some uid)) (splitOnC '\n' [])).length = 0 := by
      simp [splitOnC, rowUidOf_nil]
    rw [hnil] at hCnt
    simp only [Nat.add_zero] at hCnt
    rw [hCnt, hnil]
    simp [List.filter, hcore]

/-! ### Round-trip of the row writer through the row parser -/

theorem cleanCh_spec {c : Char} (h : cleanCh c = true) :
    ¬(c = '|') ∧ ¬(c = '\\') ∧ ¬(c = '\n') := by
  simp only [cleanCh, Bool.and_eq_true, Bool.not_eq_true', beq_eq_false_iff_ne, ne_eq] at h
  exact ⟨h.1.1, h.1.2, h.2⟩

theorem cleanField_spec {x : List Char} (h : cleanField x = true) :
    x ≠ [] ∧ (∀ c ∈ x, cleanCh c = true) ∧
      (∀ c, x.head? = some c → jsWs c = false) ∧
      (∀ c, x.reverse.head? = some c → jsWs c = false) := by
  simp only [cleanField, Bool.and_eq_true] at h
  obtain ⟨⟨⟨h1, h2⟩, h3⟩, h4⟩ := h
  refine ⟨?_, ?_, ?_, ?_⟩
  · simpa [List.isEmpty_iff] using h1
  · exact fun c hc => List.all_eq_true.mp h2 c hc
  · intro c hc
    rw [hc] at h3
    simpa using h3
  · intro c hc
    rw [hc] at h4
    simpa using h4

theorem escPipes_id {s : List Char} (h : ∀ c ∈ s, ¬(c = '|')) : escPipes s = s := by
  induction s with
  | nil => rfl
  | cons c t ih =>
    unfold escPipes at ih ⊢
    rw [List.flatMap_cons, if_neg (h c (by simp)), ih (fun d hd => h d (List.mem_cons_of_mem c hd))]
    rfl

theorem filter_no_bs {s : List Char} (h : ∀ c ∈ s, ¬(c = '\\')) :
    s.filter (fun c => !(c == '\\')) = s := by
  rw [List.filter_eq_self]
  intro c hc
  simpa using h c hc

theorem escapeCell_clean {x : List Char} (hx : cleanField x = true) :
    escapeCell (some x) = x := by
  obtain ⟨hne, hcl, _, _⟩ := cleanField_spec hx
  show (if x.isEmpty then ('-' :: []) else escPipes x) = x
  rw [if_neg (by simpa [List.isEmpty_iff] using hne)]
  exact escPipes_id (fun c hc => (cleanCh_spec (hcl c hc)).1)

theorem trimJs_cell {x : List Char}
    (hh : ∀ c, x.head? = some c → jsWs c = false)
    (hl : ∀ c, x.reverse.head? = some c → jsWs c = false) :
    trimJs (' ' :: (x ++ (' ' :: []))) = x :=
  trimJs_pad (Or.inr rfl) (Or.inr rfl) hh hl

theorem trimJs_cell_clean {x : List Char} (hx : cleanField x = true) :
    trimJs (' ' :: (x ++ (' ' :: []))) = x :=
  trimJs_cell (cleanField_spec hx).2.2.1 (cleanField_spec hx).2.2.2

/-- The album cell written by `formatAsTableRow` parses back to exactly the
`albumKey` of `createUniqueId`. -/
theorem albumCell_roundTrip {alb : Option (List Char)} (h : albumOk alb = true) :
    (fun album => if album.isEmpty then ([] : List Char) else '-' :: album)
      (if trimJs (' ' :: (escapeCell alb ++ (' ' :: []))) = ('-' :: []) then ([] : List Char)
       else (trimJs (' ' :: (escapeCell alb ++ (' ' :: [])))).filter (fun c => !(c == '\\'))) =
      albumKeyOf alb := by
  cases alb with
  | none => decide
  | some a =>
    by_cases ha : a.isEmpty
    · rw [List.isEmpty_iff] at ha
      subst ha
      decide
    · have h2 : cleanField a = true ∧ a ≠ ('-' :: []) := by
        unfold albumOk at h
        rw [Bool.or_eq_true] at h
        rcases h with h1 | h1
        · exact absurd h1 (by simpa using ha)
        · rw [Bool.and_eq_true] at h1
          exact ⟨h1.1, by simpa using h1.2⟩
      obtain ⟨hcf, hnd⟩ := h2
      rw [escapeCell_clean hcf, trimJs_cell_clean hcf, if_neg hnd,
        filter_no_bs (fun c hc => (cleanCh_spec ((cleanField_spec hcf).2.1 c hc)).2.1)]
      have hne : a ≠ [] := (cleanField_spec hcf).1
      show (if a.isEmpty then ([] : List Char) else '-' :: a) = albumKeyOf (some a)
      rw [if_neg (by simpa [List.isEmpty_iff] using hne)]
      show ('-' :: a) = (if a.isEmpty then ([] : List Char) else '-' :: a)
      rw [if_neg (by simpa [List.isEmpty_iff] using hne)]

theorem cell_noPipe {x : List Char} (h : ∀ c ∈ x, ¬(c = '|')) :
    ∀ c ∈ ' ' :: (x ++ (' ' :: [])), ¬(c = '|') := by
  intro c hc
  rcases List.mem_cons.mp hc with rfl | hc2
  · decide
  · rcases List.mem_append.mp hc2 with h3 | h3
    · exact h c h3
    · simp at h3; subst h3; decide

theorem escapeCell_noPipe {alb : Option (List Char)} (h : albumOk alb = true) :
    ∀ c ∈ escapeCell alb, ¬(c = '|') := by
  cases alb with
  | none => intro c hc; simp [escapeCell] at hc; subst hc; decide
  | some a =>
    by_cases ha : a.isEmpty
    · rw [List.isEmpty_iff] at ha
      subst ha
      intro c hc; simp [escapeCell] at hc; subst hc; decide
    · have h2 : cleanField a = true := by
        unfold albumOk at h
        rw [Bool.or_eq_true] at h
        rcases h with h1 | h1
        · exact absurd h1 (by simpa using ha)
        · rw [Bool.and_eq_true] at h1
          exact h1.1
      rw [escapeCell_clean h2]
      exact fun c hc => (cleanCh_spec ((cleanField_spec h2).2.1 c hc)).1

/-- Evaluation of the row parser on a line that splits into the new format's
eleven cells with a well-formed ID cell and time cell. -/
theorem parseTableLine_eval {ds line idc tm ar ti alc stc cf lk sc : List Char}
    (hstart : jsStartsWith line (("|").toList) = true)
    (hND : jsIncludes line (("---").toList) = false)
    (hNT : jsIncludes line (("Time |").toList) = false)
    (hNI : jsIncludes line (("ID |").toList) = false)
    (hcells : (splitOnC '|' line).map trimJs = [[], idc, tm, ar, ti, alc, stc, cf, lk, sc, []])
    (hid : idCellOk idc = true)
    (htm : timeCellOk tm = true)
    (htne : tm ≠ []) :
    parseTableLine ds line =
      (idCellCounter idc, some
        { uid := (ar.filter (fun c => !(c == '\\'))) ++
            ('-' :: (ti.filter (fun c => !(c == '\\')))) ++
            (if (if alc = ('-' :: []) then ([] : List Char)
                 else alc.filter (fun c => !(c == '\\'))).isEmpty then ([] : List Char)
             else '-' :: (if alc = ('-' :: []) then ([] : List Char)
                 else alc.filter (fun c => !(c == '\\')))) ++
            ('-' :: ds) ++ ('-' :: tm.take 2) ++ ('-' :: tm.drop 3),
          songKey := (ar.filter (fun c => !(c == '\\'))) ++
            ('-' :: (ti.filter (fun c => !(c == '\\')))) ++
            (if (if alc = ('-' :: []) then ([] : List Char)
                 else alc.filter (fun c => !(c == '\\'))).isEmpty then ([] : List Char)
             else '-' :: (if alc = ('-' :: []) then ([] : List Char)
                 else alc.filter (fun c => !(c == '\\')))),
          status := stc }) := by
  have hcond : (jsStartsWith line (("|").toList) &&
      !jsIncludes line (("---").toList) &&
      !jsIncludes line (("Time |").toList) &&
      !jsIncludes line (("ID |").toList)) = true := by
    rw [hstart, hND, hNT, hNI]
    rfl
  have htne' : (decide (tm ≠ []) : Bool) = true := decide_eq_true htne
  unfold parseTableLine
  rw [if_pos hcond, hcells]
  simp only [List.length_cons, List.length_nil, List.getD_cons_zero, List.getD_cons_succ,
    hid, htm, htne', Bool.and_true, Bool.true_and]
  norm_num
  intro h
  exact absurd (h htne) (by simp [htm])

theorem parseRow_core {e : ArchiveEntry} {ctr : Nat}
    (hart : cleanField e.song.artist = true) (htit : cleanField e.song.title = true)
    (halb : albumOk e.song.album = true) (hconf : cleanField (confCell e) = true)
    (hlink : cleanField (linkCell e) = true) (hdt : dtOk e.song.scrapedAt = true)
    (hctr : ctr < 1000)
    (hND : jsIncludes (formatRowCore e ctr) (("---").toList) = false)
    (hNT : jsIncludes (formatRowCore e ctr) (("Time |").toList) = false)
    (hNI : jsIncludes (formatRowCore e ctr) (("ID |").toList) = false) :
    rowUidOf (fmtYMD e.song.scrapedAt) (formatRowCore e ctr) =
      some (createUniqueId e.song e.song.scrapedAt) := by
  have hdt' := hdt
  simp only [dtOk, Bool.and_eq_true, decide_eq_true_eq] at hdt'
  obtain ⟨⟨hh100, hm100⟩, hs100⟩ := hdt'
  obtain ⟨a1, a2, hA, hA1, hA2⟩ := pad2_spec hh100
  obtain ⟨b1, b2, hB, hB1, hB2⟩ := pad2_spec hm100
  obtain ⟨c1, c2, hC, hC1, hC2⟩ := pad2_spec hs100
  obtain ⟨p1, p2, p3, hP, hP1, hP2, hP3⟩ := pad3_spec hctr
  have hID : generateShortId e.song.scrapedAt ctr =
      a1 :: a2 :: b1 :: b2 :: c1 :: c2 :: '-' :: p1 :: p2 :: p3 :: [] := by
    unfold generateShortId fmtHHmmss
    rw [hA, hB, hC, hP]
    rfl
  have hTM : fmtHM e.song.scrapedAt = a1 :: a2 :: ':' :: b1 :: b2 :: [] := by
    unfold fmtHM
    rw [hA, hB]
    rfl
  have hSC : fmtHMS e.song.scrapedAt = a1 :: a2 :: ':' :: b1 :: b2 :: ':' :: c1 :: c2 :: [] := by
    unfold fmtHMS fmtHM
    rw [hA, hB, hC]
    rfl
  have hIDp : ∀ c ∈ generateShortId e.song.scrapedAt ctr, ¬(c = '|') := by
    rw [hID]
    intro c hc
    simp only [List.mem_cons, List.not_mem_nil, or_false] at hc
    rcases hc with rfl | rfl | rfl | rfl | rfl | rfl | rfl | rfl | rfl | rfl
    exacts [(digit_ne_chars hA1).1, (digit_ne_chars hA2).1, (digit_ne_chars hB1).1,
      (digit_ne_chars hB2).1, (digit_ne_chars hC1).1, (digit_ne_chars hC2).1,
      by decide, (digit_ne_chars hP1).1, (digit_ne_chars hP2).1, (digit_ne_chars hP3).1]
  have hTMp : ∀ c ∈ fmtHM e.song.scrapedAt, ¬(c = '|') := by
    rw [hTM]
    intro c hc
    simp only [List.mem_cons, List.not_mem_nil, or_false] at hc
    rcases hc with rfl | rfl | rfl | rfl | rfl
    exacts [(digit_ne_chars hA1).1, (digit_ne_chars hA2).1, by decide,
      (digit_ne_chars hB1).1, (digit_ne_chars hB2).1]
  have hSCp : ∀ c ∈ fmtHMS e.song.scrapedAt, ¬(c = '|') := by
    rw [hSC]
    intro c hc
    simp only [List.mem_cons, List.not_mem_nil, or_false] at hc
    rcases hc with rfl | rfl | rfl | rfl | rfl | rfl | rfl | rfl
    exacts [(digit_ne_chars hA1).1, (digit_ne_chars hA2).1, by decide,
      (digit_ne_chars hB1).1, (digit_ne_chars hB2).1, by decide,
      (digit_ne_chars hC1).1, (digit_ne_chars hC2).1]
  have hARTp : ∀ c ∈ escapeCell (some e.song.artist), ¬(c = '|') := by
    rw [escapeCell_clean hart]
    exact fun c hc => (cleanCh_spec ((cleanField_spec hart).2.1 c hc)).1
  have hTITp : ∀ c ∈ escapeCell (some e.song.title), ¬(c = '|') := by
    rw [escapeCell_clean htit]
    exact fun c hc => (cleanCh_spec ((cleanField_spec htit).2.1 c hc)).1
  have hSTp : ∀ c ∈ statusIcon e.status ++ (' ' :: statusTextOf e.status), ¬(c = '|') := by
    cases e.status <;> decide
  have hCFp : ∀ c ∈ confCell e, ¬(c = '|') :=
    fun c hc => (cleanCh_spec ((cleanField_spec hconf).2.1 c hc)).1
  have hLKp : ∀ c ∈ linkCell e, ¬(c = '|') :=
    fun c hc => (cleanCh_spec ((cleanField_spec hlink).2.1 c hc)).1
  have hrow : formatRowCore e ctr = ([] : List Char) ++ '|' ::
      ((' ' :: (generateShortId e.song.scrapedAt ctr ++ (' ' :: []))) ++ '|' ::
       ((' ' :: (fmtHM e.song.scrapedAt ++ (' ' :: []))) ++ '|' ::
        ((' ' :: (escapeCell (some e.song.artist) ++ (' ' :: []))) ++ '|' ::
         ((' ' :: (escapeCell (some e.song.title) ++ (' ' :: []))) ++ '|' ::
          ((' ' :: (escapeCell e.song.album ++ (' ' :: []))) ++ '|' ::
           ((' ' :: ((statusIcon e.status ++ (' ' :: statusTextOf e.status)) ++ (' ' :: []))) ++ '|' ::
            ((' ' :: (confCell e ++ (' ' :: []))) ++ '|' ::
             ((' ' :: (linkCell e ++ (' ' :: []))) ++ '|' ::
              ((' ' :: (fmtHMS e.song.scrapedAt ++ (' ' :: []))) ++ '|' ::
                ([] : List Char)))))))))) := by
    have l1 : ("| ").toList = '|' :: (' ' :: []) := by decide
    have l2 : (" | ").toList = ' ' :: ('|' :: (' ' :: [])) := by decide
    have l3 : (" |").toList = ' ' :: ('|' :: []) := by decide
    unfold formatRowCore
    rw [l1, l2, l3]
    simp [List.append_assoc]
  have hsplit : splitOnC '|' (formatRowCore e ctr) = [[],
      ' ' :: (generateShortId e.song.scrapedAt ctr ++ (' ' :: [])),
      ' ' :: (fmtHM e.song.scrapedAt ++ (' ' :: [])),
      ' ' :: (escapeCell (some e.song.artist) ++ (' ' :: [])),
      ' ' :: (escapeCell (some e.song.title) ++ (' ' :: [])),
      ' ' :: (escapeCell e.song.album ++ (' ' :: [])),
      ' ' :: ((statusIcon e.status ++ (' ' :: statusTextOf e.status)) ++ (' ' :: [])),
      ' ' :: (confCell e ++ (' ' :: [])),
      ' ' :: (linkCell e ++ (' ' :: [])),
      ' ' :: (fmtHMS e.song.scrapedAt ++ (' ' :: [])),
      []] := by
    rw [hrow]
    rw [splitOnC_chunk _ _ _ (by simp)]
    rw [splitOnC_chunk _ _ _ (cell_noPipe hIDp)]
    rw [splitOnC_chunk _ _ _ (cell_noPipe hTMp)]
    rw [splitOnC_chunk _ _ _ (cell_noPipe hARTp)]
    rw [splitOnC_chunk _ _ _ (cell_noPipe hTITp)]
    rw [splitOnC_chunk _ _ _ (cell_noPipe (escapeCell_noPipe halb))]
    rw [splitOnC_chunk _ _ _ (cell_noPipe hSTp)]
    rw [splitOnC_chunk _ _ _ (cell_noPipe hCFp)]
    rw [splitOnC_chunk _ _ _ (cell_noPipe hLKp)]
    rw [splitOnC_chunk _ _ _ (cell_noPipe hSCp)]
    rfl
  have tID : trimJs (' ' :: (generateShortId e.song.scrapedAt ctr ++ (' ' :: []))) =
      generateShortId e.song.scrapedAt ctr := by
    apply trimJs_cell
    · intro c hc
      rw [hID] at hc
      simp only [List.head?_cons, Option.some.injEq] at hc
      subst hc
      exact jsWs_eq_false_of_digit hA1
    · intro c hc
      rw [hID] at hc
      simp at hc
      subst hc
      exact jsWs_eq_false_of_digit hP3
  have tTM : trimJs (' ' :: (fmtHM e.song.scrapedAt ++ (' ' :: []))) =
      fmtHM e.song.scrapedAt := by
    apply trimJs_cell
    · intro c hc
      rw [hTM] at hc
      simp only [List.head?_cons, Option.some.injEq] at hc
      subst hc
      exact jsWs_eq_false_of_digit hA1
    · intro c hc
      rw [hTM] at hc
      simp at hc
      subst hc
      exact jsWs_eq_false_of_digit hB2
  have tSC : trimJs (' ' :: (fmtHMS e.song.scrapedAt ++ (' ' :: []))) =
      fmtHMS e.song.scrapedAt := by
    apply trimJs_cell
    · intro c hc
      rw [hSC] at hc
      simp only [List.head?_cons, Option.some.injEq] at hc
      subst hc
      exact jsWs_eq_false_of_digit hA1
    · intro c hc
      rw [hSC] at hc
      simp at hc
      subst hc
      exact jsWs_eq_false_of_digit hC2
  have tST : trimJs (' ' :: ((statusIcon e.status ++ (' ' :: statusTextOf e.status)) ++ (' ' :: []))) =
      statusIcon e.status ++ (' ' :: statusTextOf e.status) := by
    apply trimJs_cell <;>
      cases e.status <;>
        (intro c hc; simp [statusIcon, statusTextOf] at hc; subst hc; decide)
  have hcells : (splitOnC '|' (formatRowCore e ctr)).map trimJs =
      [[], generateShortId e.song.scrapedAt ctr, fmtHM e.song.scrapedAt,
       e.song.artist, e.song.title,
       trimJs (' ' :: (escapeCell e.song.album ++ (' ' :: []))),
       statusIcon e.status ++ (' ' :: statusTextOf e.status),
       confCell e, linkCell e, fmtHMS e.song.scrapedAt, []] := by
    rw [hsplit]
    simp only [List.map_cons, List.map_nil, tID, tTM, tST, tSC,
      escapeCell_clean hart, escapeCell_clean htit,
      trimJs_cell_clean hart, trimJs_cell_clean htit,
      trimJs_cell_clean hconf, trimJs_cell_clean hlink,
      show trimJs ([] : List Char) = [] from rfl]
  have hIDOk : idCellOk (generateShortId e.song.scrapedAt ctr) = true := by
    rw [hID]
    simp [idCellOk, hA1, hA2, hB1, hB2, hC1, hC2,
      wordCh_of_digit hP1, wordCh_of_digit hP2, wordCh_of_digit hP3]
  have hTMOk : timeCellOk (fmtHM e.song.scrapedAt) = true := by
    rw [hTM]
    simp [timeCellOk, hA1, hA2, hB1, hB2]
  have htne : fmtHM e.song.scrapedAt ≠ [] := by rw [hTM]; simp
  have hstart : jsStartsWith (formatRowCore e ctr) (("|").toList) = true := by
    rw [hrow]
    rfl
  have htk : (fmtHM e.song.scrapedAt).take 2 = pad2 e.song.scrapedAt.hh := by
    rw [hTM, hA]
    rfl
  have hdp : (fmtHM e.song.scrapedAt).drop 3 = pad2 e.song.scrapedAt.mi := by
    rw [hTM, hB]
    rfl
  have halbKey := albumCell_roundTrip halb
  simp only [] at halbKey
  unfold rowUidOf
  rw [parseTableLine_eval hstart hND hNT hNI hcells hIDOk hTMOk htne]
  dsimp only
  rw [filter_no_bs (fun c hc => (cleanCh_spec ((cleanField_spec hart).2.1 c hc)).2.1),
    filter_no_bs (fun c hc => (cleanCh_spec ((cleanField_spec htit).2.1 c hc)).2.1),
    halbKey, htk, hdp]
  unfold createUniqueId fmtTimeKey
  simp [List.append_assoc]

theorem forall_mem_app {p : Char → Prop} {a b : List Char}
    (ha : ∀ c ∈ a, p c) (hb : ∀ c ∈ b, p c) : ∀ c ∈ a ++ b, p c := by
  intro c hc
  rcases List.mem_append.mp hc with h | h
  · exact ha c h
  · exact hb c h

theorem escapeCell_noNl {alb : Option (List Char)} (h : albumOk alb = true) :
    ∀ c ∈ escapeCell alb, ¬(c = '\n') := by
  cases alb with
  | none => intro c hc; simp [escapeCell] at hc; subst hc; decide
  | some a =>
    by_cases ha : a.isEmpty
    · rw [List.isEmpty_iff] at ha
      subst ha
      intro c hc; simp [escapeCell] at hc; subst hc; decide
    · have h2 : cleanField a = true := by
        unfold albumOk at h
        rw [Bool.or_eq_true] at h
        rcases h with h1 | h1
        · exact absurd h1 (by simpa using ha)
        · rw [Bool.and_eq_true] at h1
          exact h1.1
      rw [escapeCell_clean h2]
      exact fun c hc => (cleanCh_spec ((cleanField_spec h2).2.1 c hc)).2.2

theorem forall_mem_cons' {p : Char → Prop} {x : Char} {l : List Char}
    (hx : p x) (hl : ∀ c ∈ l, p c) : ∀ c ∈ x :: l, p c := by
  intro c hc
  rcases List.mem_cons.mp hc with rfl | h
  · exact hx
  · exact hl c h

theorem pad2_noNl {n : Nat} (h : n < 100) : ∀ c ∈ pad2 n, ¬(c = '\n') := by
  obtain ⟨a, b, hp, ha, hb⟩ := pad2_spec h
  rw [hp]
  exact forall_mem_cons' (digit_ne_chars ha).2.2.1
    (forall_mem_cons' (digit_ne_chars hb).2.2.1 (by simp))

theorem pad3_noNl {n : Nat} (h : n < 1000) : ∀ c ∈ pad3 n, ¬(c = '\n') := by
  obtain ⟨a, b, c, hp, ha, hb, hc⟩ := pad3_spec h
  rw [hp]
  exact forall_mem_cons' (digit_ne_chars ha).2.2.1
    (forall_mem_cons' (digit_ne_chars hb).2.2.1
      (forall_mem_cons' (digit_ne_chars hc).2.2.1 (by simp)))

theorem formatRowCore_noNl {e : ArchiveEntry} {ctr : Nat}
    (hart : cleanField e.song.artist = true) (htit : cleanField e.song.title = true)
    (halb : albumOk e.song.album = true) (hconf : cleanField (confCell e) = true)
    (hlink : cleanField (linkCell e) = true) (hdt : dtOk e.song.scrapedAt = true)
    (hctr : ctr < 1000) :
    ∀ c ∈ formatRowCore e ctr, ¬(c = '\n') := by
  have hdt' := hdt
  simp only [dtOk, Bool.and_eq_true, decide_eq_true_eq] at hdt'
  obtain ⟨⟨hh100, hm100⟩, hs100⟩ := hdt'
  have hIDn : ∀ c ∈ generateShortId e.song.scrapedAt ctr, ¬(c = '\n') := by
    unfold generateShortId fmtHHmmss
    exact forall_mem_app
      (forall_mem_app (forall_mem_app (pad2_noNl hh100) (pad2_noNl hm100)) (pad2_noNl hs100))
      (forall_mem_cons' (by decide) (pad3_noNl hctr))
  have hTMn : ∀ c ∈ fmtHM e.song.scrapedAt, ¬(c = '\n') := by
    unfold fmtHM
    exact forall_mem_app (pad2_noNl hh100) (forall_mem_cons' (by decide) (pad2_noNl hm100))
  have hSCn : ∀ c ∈ fmtHMS e.song.scrapedAt, ¬(c = '\n') := by
    unfold fmtHMS
    exact forall_mem_app hTMn (forall_mem_cons' (by decide) (pad2_noNl hs100))
  have hARTn : ∀ c ∈ escapeCell (some e.song.artist), ¬(c = '\n') := by
    rw [escapeCell_clean hart]
    exact fun c hc => (cleanCh_spec ((cleanField_spec hart).2.1 c hc)).2.2
  have hTITn : ∀ c ∈ escapeCell (some e.song.title), ¬(c = '\n') := by
    rw [escapeCell_clean htit]
    exact fun c hc => (cleanCh_spec ((cleanField_spec htit).2.1 c hc)).2.2
  have hALBn : ∀ c ∈ escapeCell e.song.album, ¬(c = '\n') := escapeCell_noNl halb
  have hCFn : ∀ c ∈ confCell e, ¬(c = '\n') :=
    fun c hc => (cleanCh_spec ((cleanField_spec hconf).2.1 c hc)).2.2
  have hLKn : ∀ c ∈ linkCell e, ¬(c = '\n') :=
    fun c hc => (cleanCh_spec ((cleanField_spec hlink).2.1 c hc)).2.2
  have hICONn : ∀ c ∈ statusIcon e.status, ¬(c = '\n') := by
    cases e.status <;> decide
  have hSPTXTn : ∀ c ∈ ' ' :: statusTextOf e.status, ¬(c = '\n') := by
    cases e.status <;> decide
  unfold formatRowCore
  refine forall_mem_app ?_ (by decide)
  refine forall_mem_app ?_ hSCn
  refine forall_mem_app ?_ (by decide)
  refine forall_mem_app ?_ hLKn
  refine forall_mem_app ?_ (by decide)
  refine forall_mem_app ?_ hCFn
  refine forall_mem_app ?_ (by decide)
  refine forall_mem_app ?_ hSPTXTn
  refine forall_mem_app ?_ hICONn
  refine forall_mem_app ?_ (by decide)
  refine forall_mem_app ?_ hALBn
  refine forall_mem_app ?_ (by decide)
  refine forall_mem_app ?_ hTITn
  refine forall_mem_app ?_ (by decide)
  refine forall_mem_app ?_ hARTn
  refine forall_mem_app ?_ (by decide)
  refine forall_mem_app ?_ hTMn
  refine forall_mem_app ?_ (by decide)
  exact forall_mem_app (by decide) hIDn

theorem fmtYMD_congr {t t' : DT} (h : sameMinuteDT t t') : fmtYMD t' = fmtYMD t := by
  obtain ⟨hy, hmo, hd, _, _⟩ := h
  unfold fmtYMD
  rw [hy, hmo, hd]

theorem createUniqueId_congr {e e' : ArchiveEntry} (hid : sameSongId e e')
    (hmin : sameMinuteDT e.song.scrapedAt e'.song.scrapedAt) :
    createUniqueId e'.song e'.song.scrapedAt = createUniqueId e.song e.song.scrapedAt := by
  obtain ⟨ha, ht, hal⟩ := hid
  obtain ⟨hy, hmo, hd, hhh, hmi⟩ := hmin
  unfold createUniqueId fmtTimeKey fmtYMD
  rw [ha, ht, hal, hy, hmo, hd, hhh, hmi]

theorem mem_addCache_self (l : List (List Char)) (u : List Char) : u ∈ addCache l u := by
  unfold addCache
  split
  · assumption
  · exact List.mem_cons_self u l

theorem lookup_saveRecent (st : ArchState) (fs : Fs) (p : List Char)
    (hp : p ≠ recentPath) :
    lookupFs (saveRecentEntries noFaults st fs) p = lookupFs fs p := by
  unfold saveRecentEntries
  rw [show noFaults.writeErr recentPath = false from rfl]
  simp only [Bool.false_eq_true, if_false]
  exact lookupFs_setFs_ne fs recentPath _ p hp

theorem getOrCreate_some {fs : Fs} {path c : List Char} (t nowDT : DT)
    (h : lookupFs fs path = some c) :
    getOrCreateFileContent noFaults fs path t nowDT = c := by
  unfold getOrCreateFileContent
  rw [h]
  show (if noFaults.readErr path = true then createFileTemplate t nowDT else c) = c
  rw [show noFaults.readErr path = false from rfl]
  simp

theorem lookup_updateStats {fs : Fs} {p c : List Char} (stats : DailyStats)
    (h : lookupFs fs p = some c) :
    lookupFs (updateStatisticsInFile noFaults stats p fs) p =
      some (statsReplace stats c) := by
  unfold updateStatisticsInFile
  rw [h]
  show lookupFs (if noFaults.readErr p = true then fs else _) p = _
  rw [show noFaults.readErr p = false from rfl]
  simp only [Bool.false_eq_true, if_false]
  by_cases hc : statsReplace stats c ≠ c
  · rw [if_pos hc, show noFaults.writeErr p = false from rfl]
    simp only [Bool.false_eq_true, if_false]
    exact lookupFs_setFs_self fs p _
  · rw [if_neg hc]
    rw [not_ne_iff.mp hc]
    exact h

/-- C1: with archiving enabled and no day rollover, after one fault-free
`archiveSong` call whose entry field values round-trip through the table row
(clean fields, two-digit clock values, a counter below 1000, a ledger file
that already has its table, ends in a newline, holds no row for this
uniqueness key, and whose statistics block sits on line boundaries), the
day's ledger holds exactly one table row carrying that entry's uniqueness
key, and every further call with the same song identity (artist, title,
album) and a `scrapedAt` in the same calendar date, hour and minute — singly
or iterated any number of times — is a no-op: it returns the state and the
filesystem of the first call unchanged. -/
theorem archive_idempotent_same_minute (cfg : ArchCfg) (now : Int) (nowDT : DT)
    (st : ArchState) (fs : Fs) (e : ArchiveEntry) (c0 : List Char)
    (hEn : cfg.enabled = true)
    (hDate : st.currentDate = fmtYMD e.song.scrapedAt)
    (hCache : createUniqueId e.song e.song.scrapedAt ∉ st.dailyCache)
    (hRec : recentSuppressed cfg now st.recentEntries (songKeyOf e.song) = false)
    (hFile : lookupFs fs (archivePath cfg e.song.scrapedAt) = some c0)
    (hTab : hasTableInTracksSection c0 = true)
    (hNl : c0.reverse.head? = some '\n')
    (hCnt : countRowsU (fmtYMD e.song.scrapedAt)
      (createUniqueId e.song e.song.scrapedAt) c0 = 0)
    (hSafe : statsSafeB (c0 ++ formatAsTableRow e (st.dailyCounter + 1)) = true)
    (hPath : archivePath cfg e.song.scrapedAt ≠ recentPath)
    (hart : cleanField e.song.artist = true)
    (htit : cleanField e.song.title = true)
    (halb : albumOk e.song.album = true)
    (hconf : cleanField (confCell e) = true)
    (hlink : cleanField (linkCell e) = true)
    (hdt : dtOk e.song.scrapedAt = true)
    (hCtr : st.dailyCounter + 1 < 1000)
    (hND : jsIncludes (formatRowCore e (st.dailyCounter + 1)) (("---").toList) = false)
    (hNT : jsIncludes (formatRowCore e (st.dailyCounter + 1)) (("Time |").toList) = false)
    (hNI : jsIncludes (formatRowCore e (st.dailyCounter + 1)) (("ID |").toList) = false) :
    countRowsU (fmtYMD e.song.scrapedAt) (createUniqueId e.song e.song.scrapedAt)
      (fileAt (archiveSong cfg noFaults now nowDT st fs e).2
        (archivePath cfg e.song.scrapedAt)) = 1 ∧
    (∀ (e' : ArchiveEntry) (now' : Int) (nowDT' : DT),
      sameSongId e e' → sameMinuteDT e.song.scrapedAt e'.song.scrapedAt →
      archiveSong cfg noFaults now' nowDT'
        (archiveSong cfg noFaults now nowDT st fs e).1
        (archiveSong cfg noFaults now nowDT st fs e).2 e' =
        archiveSong cfg noFaults now nowDT st fs e) ∧
    (∀ (n : Nat) (e' : ArchiveEntry) (now' : Int) (nowDT' : DT),
      sameSongId e e' → sameMinuteDT e.song.scrapedAt e'.song.scrapedAt →
      Nat.iterate (fun p : ArchState × Fs =>
          archiveSong cfg noFaults now' nowDT' p.1 p.2 e') n
        (archiveSong cfg noFaults now nowDT st fs e) =
        archiveSong cfg noFaults now nowDT st fs e) := by
  have happ := archiveSong_append cfg now nowDT st fs e hEn hDate hCache hRec
  have hstep : ∀ (e' : ArchiveEntry) (now' : Int) (nowDT' : DT),
      sameSongId e e' → sameMinuteDT e.song.scrapedAt e'.song.scrapedAt →
      archiveSong cfg noFaults now' nowDT'
        (archiveSong cfg noFaults now nowDT st fs e).1
        (archiveSong cfg noFaults now nowDT st fs e).2 e' =
        archiveSong cfg noFaults now nowDT st fs e := by
    intro e' now' nowDT' hid hmin
    rw [happ]
    apply archiveSong_early
    · exact hEn
    · show (appendStateOf cfg now st e).currentDate = fmtYMD e'.song.scrapedAt
      have h1 : (appendStateOf cfg now st e).currentDate = st.currentDate := rfl
      rw [h1, hDate, ← fmtYMD_congr hmin]
    · left
      show createUniqueId e'.song e'.song.scrapedAt ∈ (appendStateOf cfg now st e).dailyCache
      rw [createUniqueId_congr hid hmin]
      exact mem_addCache_self _ _
  refine ⟨?_, hstep, ?_⟩
  · rw [happ]
    have hfs2 : lookupFs (saveRecentEntries noFaults
        { st with recentEntries := pruneRE cfg.windowMinutes now (setRE st.recentEntries (songKeyOf e.song) now) } fs)
        (archivePath cfg e.song.scrapedAt) = some c0 := by
      rw [lookup_saveRecent _ _ _ hPath]
      exact hFile
    have hcontent :
        lookupFs (appendFsOf cfg now nowDT st fs e) (archivePath cfg e.song.scrapedAt) =
          some (statsReplace (bumpStats st.dailyStats e.status)
            (c0 ++ formatAsTableRow e (st.dailyCounter + 1))) := by
      simp only [appendFsOf]
      rw [getOrCreate_some e.song.scrapedAt nowDT hfs2]
      rw [if_pos hTab]
      exact lookup_updateStats _ (lookupFs_setFs_self _ _ _)
    show countRowsU _ _ (fileAt (appendFsOf cfg now nowDT st fs e) _) = 1
    unfold fileAt
    rw [hcontent]
    simp only [Option.getD_some]
    rw [countRowsU_statsReplace _ hSafe]
    have hrow : c0 ++ formatAsTableRow e (st.dailyCounter + 1) =
        c0 ++ (formatRowCore e (st.dailyCounter + 1) ++ ('\n' :: [])) := rfl
    rw [hrow]
    exact countRowsU_append_row hNl hCnt
      (parseRow_core hart htit halb hconf hlink hdt hCtr hND hNT hNI)
      (formatRowCore_noNl hart htit halb hconf hlink hdt hCtr)
  · intro n e' now' nowDT' hid hmin
    induction n with
    | zero => rfl
    | succ k ihk =>
      rw [Function.iterate_succ_apply]
      have hb : archiveSong cfg noFaults now' nowDT'
          (archiveSong cfg noFaults now nowDT st fs e).1
          (archiveSong cfg noFaults now nowDT st fs e).2 e' =
          archiveSong cfg noFaults now nowDT st fs e :=
        hstep e' now' nowDT' hid hmin
      rw [hb]
      exact ihk

def fixDT2 : DT := ⟨2025, 3, 14, 11, 0, 0⟩

def fixE2 : ArchiveEntry :=
  { song := { artist := ("Artist").toList, title := ("Song").toList,
              album := none, scrapedAt := fixDT2 },
    matchRes := none, status := .found }

theorem archive_idempotent_same_minute_witness :
    countRowsU (fmtYMD fixE2.song.scrapedAt) (createUniqueId fixE2.song fixE2.song.scrapedAt)
      (fileAt (archiveSong fixCfg noFaults 1000000 fixDT2 fixRun.1 fixRun.2 fixE2).2
        (archivePath fixCfg fixE2.song.scrapedAt)) = 1 :=
  (archive_idempotent_same_minute fixCfg 1000000 fixDT2 fixRun.1 fixRun.2 fixE2 fixContent
    rfl (by decide) (by decide) (by decide) (by decide) (by decide) (by decide)
    (by decide) (by decide) (by decide) (by decide) (by decide) (by decide)
    (by decide) (by decide) (by decide) (by decide) (by decide) (by decide)
    (by decide)).1
